import Mathlib

/-!
# botBTCeibe dashboard: a shallow embedding of `dashboard/dashboard.js`

The embedding follows the source function by function and keeps its names.

Modelling conventions
* A JavaScript number is a `JSNum`: an exact rational, `+Infinity`, `-Infinity` or `NaN`.
  Arithmetic follows IEEE-754 on the special values; a finite operation denotes its exact
  result: rounding, the sign of zero and overflow to `Infinity` are not represented. Where a
  result depends on sums or products staying finite, that the numbers involved lie within
  the range of the finite doubles is a hypothesis of the statement.
* A JSON object with scalar fields is a list of `(name, value)` pairs in creation order;
  a field that is absent reads as `undefined`. Property names are ordinary data-property
  names: names resolved on `Object.prototype` (such as `__proto__`) are outside the model.
* The conversions `Number::toString`, `StringToNumber` and `JSON.stringify` are builtins of
  the host; they are gathered in a `Host` record and every result holds for every host.
* Mutable globals (`radarCache`, the three `last...Update` timestamps) are passed and
  returned explicitly; `Date.now()` is the argument `now`.
-/

namespace Dashboard

/-! ## Numbers -/

/-- A JavaScript number without rounding: exact rationals and the three special values. -/
inductive JSNum where
  | fin (q : ℚ)
  | pinf
  | ninf
  | nan
  deriving DecidableEq

namespace JSNum

/-- The test `isNaN(x)` on a number. -/
def isNaN : JSNum → Bool
  | nan => true
  | _ => false

/-- Truthiness of a number: every number except `0` and `NaN`. -/
def truthy : JSNum → Bool
  | fin q => decide (q ≠ 0)
  | pinf => true
  | ninf => true
  | nan => false

/-- Unary minus. -/
def neg : JSNum → JSNum
  | fin q => fin (-q)
  | pinf => ninf
  | ninf => pinf
  | nan => nan

/-- The operator `+` on numbers. A finite sum is the exact sum: it is not rounded and does not
overflow to an infinity. -/
def add : JSNum → JSNum → JSNum
  | fin a, fin b => fin (a + b)
  | fin _, pinf => pinf
  | fin _, ninf => ninf
  | pinf, fin _ => pinf
  | pinf, pinf => pinf
  | pinf, ninf => nan
  | ninf, fin _ => ninf
  | ninf, ninf => ninf
  | ninf, pinf => nan
  | nan, _ => nan
  | _, nan => nan

/-- The operator `-` on numbers. -/
def sub (a b : JSNum) : JSNum := add a (neg b)

/-- The product of an infinity (positive or not) with the finite `q`: an infinity whose sign
is the product of the signs, `NaN` when `q = 0`. -/
def signedInf (positive : Bool) (q : ℚ) : JSNum :=
  if q = 0 then nan
  else if (decide (0 < q)) = positive then pinf else ninf

/-- The operator `*` on numbers. -/
def mul : JSNum → JSNum → JSNum
  | fin a, fin b => fin (a * b)
  | fin a, pinf => signedInf true a
  | fin a, ninf => signedInf false a
  | pinf, fin b => signedInf true b
  | ninf, fin b => signedInf false b
  | pinf, pinf => pinf
  | pinf, ninf => ninf
  | ninf, pinf => ninf
  | ninf, ninf => pinf
  | nan, _ => nan
  | _, nan => nan

/-- The operator `/` on numbers; the zero divisor is `+0`. -/
def div : JSNum → JSNum → JSNum
  | fin a, fin b => if b = 0 then signedInf true a else fin (a / b)
  | fin _, pinf => fin 0
  | fin _, ninf => fin 0
  | pinf, fin b => if 0 ≤ b then pinf else ninf
  | ninf, fin b => if 0 ≤ b then ninf else pinf
  | pinf, pinf => nan
  | pinf, ninf => nan
  | ninf, pinf => nan
  | ninf, ninf => nan
  | nan, _ => nan
  | _, nan => nan

/-- The comparison `a < b`; false as soon as an operand is `NaN`. -/
def lt : JSNum → JSNum → Bool
  | fin a, fin b => decide (a < b)
  | fin _, pinf => true
  | ninf, fin _ => true
  | ninf, pinf => true
  | _, _ => false

/-- The comparison `a <= b`; false as soon as an operand is `NaN`. -/
def le : JSNum → JSNum → Bool
  | fin a, fin b => decide (a ≤ b)
  | fin _, pinf => true
  | ninf, fin _ => true
  | ninf, pinf => true
  | pinf, pinf => true
  | ninf, ninf => true
  | _, _ => false

/-- The comparison `a > b`. -/
def gt (a b : JSNum) : Bool := lt b a

/-- The comparison `a >= b`. -/
def ge (a b : JSNum) : Bool := le b a

instance : Add JSNum := ⟨add⟩
instance : Sub JSNum := ⟨sub⟩
instance : Mul JSNum := ⟨mul⟩
instance : Div JSNum := ⟨div⟩

end JSNum

/-- The expression `x || 0` for a numeric field `x` that may be absent or `null`. -/
def orZero (x : Option JSNum) : JSNum :=
  match x with
  | some n => if n.truthy then n else JSNum.fin 0
  | none => JSNum.fin 0

/-- The expression `Number(x) || 0` applied to a number. -/
def numberOrZero (x : JSNum) : JSNum :=
  if x.truthy then x else JSNum.fin 0

/-! ## Values, objects and the host builtins -/

/-- A scalar JSON value. -/
inductive JSVal where
  | null
  | bool (b : Bool)
  | num (n : JSNum)
  | str (s : String)
  deriving DecidableEq

/-- The own enumerable properties of an object, in creation order. -/
abbrev Props (α : Type) := List (String × α)

/-- The property read `o[k]`; `none` is `undefined`. -/
def propGet {α : Type} : Props α → String → Option α
  | [], _ => none
  | (g, w) :: rest, k => if g = k then some w else propGet rest k

/-- The property write `o[k] = v`: an existing property keeps its place, a new one is created
last. -/
def propSet {α : Type} : Props α → String → α → Props α
  | [], k, v => [(k, v)]
  | (g, w) :: rest, k, v => if g = k then (g, v) :: rest else (g, w) :: propSet rest k v

/-- A JSON object whose fields are scalars. -/
abbrev JSObject := Props JSVal

/-- The call `Object.assign(target, src)`: every own property of `src` is written to
`target`, in order. -/
def objectAssign (target src : JSObject) : JSObject :=
  src.foldl (fun acc p => propSet acc p.1 p.2) target

/-- The builtin conversions of the host. -/
structure Host where
  /-- The conversion `Number::toString`. -/
  numberToString : JSNum → String
  /-- The conversion `StringToNumber`. -/
  stringToNumber : String → JSNum
  /-- The function `JSON.stringify` on an object. -/
  stringify : JSObject → String

namespace JSVal

/-- Truthiness of a scalar. -/
def truthy : JSVal → Bool
  | null => false
  | bool b => b
  | num n => n.truthy
  | str s => decide (s ≠ "")

/-- The conversion `ToString`, used by template literals and property keys. -/
def toStr (H : Host) : JSVal → String
  | null => "null"
  | bool true => "true"
  | bool false => "false"
  | num n => H.numberToString n
  | str s => s

/-- The conversion `ToNumber`. -/
def toNumber (H : Host) : JSVal → JSNum
  | null => JSNum.fin 0
  | bool true => JSNum.fin 1
  | bool false => JSNum.fin 0
  | num n => n
  | str s => H.stringToNumber s

end JSVal

/-! ## The radar cache (lines 14-28) -/

/-- The global `radarCache`: identity key to cached entry. -/
abbrev RadarCache := Props JSObject

/-- The derived key of line 19 when `e.pair` is falsy:
`e.origin && e.destination ? origin/destination : JSON.stringify(e)`. -/
def compositeKey (H : Host) (e : JSObject) : String :=
  match propGet e "origin", propGet e "destination" with
  | some o, some d =>
    if o.truthy && d.truthy then o.toStr H ++ "/" ++ d.toStr H else H.stringify e
  | _, _ => H.stringify e

/-- The identity key of line 19: `e.pair || (...)`, as a property key. -/
def radarKey (H : Host) (e : JSObject) : String :=
  match propGet e "pair" with
  | some p => if p.truthy then p.toStr H else compositeKey H e
  | none => compositeKey H e

/-- One iteration of the loop of line 18 for a non-null entry (lines 19-20). -/
def mergeOne (H : Host) (cache : RadarCache) (e : JSObject) : RadarCache :=
  let key := radarKey H e
  propSet cache key (objectAssign (objectAssign [] ((propGet cache key).getD [])) e)

/-- The function `mergeRadarEntries` (lines 16-25). An element `none` is a `null` entry:
reading `e.pair` raises, the `try` that encloses the whole loop catches, and the function
returns with the entries merged so far. -/
def mergeRadarEntries (H : Host) : RadarCache → List (Option JSObject) → RadarCache
  | cache, [] => cache
  | cache, none :: _ => cache
  | cache, some e :: rest => mergeRadarEntries H (mergeOne H cache e) rest

/-- The value of a decimal digit string. -/
def digitsValue (cs : List Char) : Nat :=
  cs.foldl (fun n c => 10 * n + (c.toNat - 48)) 0

/-- The array index a property key denotes, if any: a canonical decimal numeral below
`2^32 - 1`. -/
def arrayIndex (k : String) : Option Nat :=
  let cs := k.toList
  if cs.all Char.isDigit && !cs.isEmpty && (cs.head? != some '0' || cs.length == 1)
      && decide (digitsValue cs < 4294967295) then
    some (digitsValue cs)
  else none

/-- The call `Object.values(o)`: the values of the array-index keys in ascending numeric
order, then the values of the other keys in creation order. -/
def objectValues {α : Type} (o : Props α) : List α :=
  let indexed := o.filterMap (fun p => (arrayIndex p.1).map (fun n => (n, p.2)))
  let named := o.filter (fun p => (arrayIndex p.1).isNone)
  (indexed.insertionSort (fun a b => a.1 ≤ b.1)).map Prod.snd ++ named.map Prod.snd

/-- The operand `x.heat_score || 0` of line 27, converted to a number by the subtraction. -/
def heatOperand (H : Host) (e : JSObject) : JSNum :=
  match propGet e "heat_score" with
  | some v => if v.truthy then v.toNumber H else JSNum.fin 0
  | none => JSNum.fin 0

/-- The comparator of line 27 applied to `(a, b)`. -/
def heatCompare (H : Host) (a b : JSObject) : JSNum :=
  heatOperand H b - heatOperand H a

/-- The sort leaves `a` before `b` unless the comparator is positive (a `NaN` result counts
as `0`). -/
def keepsBefore (H : Host) (a b : JSObject) : Prop :=
  (heatCompare H a b).gt (JSNum.fin 0) = false

instance (H : Host) : DecidableRel (keepsBefore H) :=
  fun a b => inferInstanceAs (Decidable ((heatCompare H a b).gt (JSNum.fin 0) = false))

/-- The function `getRadarList` (lines 26-28); `Array.prototype.sort` is a stable sort. -/
def getRadarList (H : Host) (cache : RadarCache) : List JSObject :=
  (objectValues cache).insertionSort (keepsBefore H)

/-! ## Render throttling and the page state (lines 5-12) -/

/-- The interval of the summary section, in milliseconds. -/
def SUMMARY_INTERVAL : Int := 60000

/-- The interval of the slots section, in milliseconds. -/
def SLOTS_INTERVAL : Int := 5000

/-- The interval of the distribution section, in milliseconds. -/
def OTHER_INTERVAL : Int := 30000

/-- The three global last-render timestamps; each starts at `0`. -/
structure Throttle where
  lastSummaryUpdate : Int
  lastSlotsUpdate : Int
  lastOtherUpdate : Int
  deriving DecidableEq

/-- The timestamps of a freshly loaded page. -/
def Throttle.fresh : Throttle := ⟨0, 0, 0⟩

/-- The guard `now - last < INTERVAL && last > 0` that makes a render function return at
once. -/
def tooSoon (now last interval : Int) : Bool :=
  decide (now - last < interval) && decide (last > 0)

/-- Which elements the page provides: a missing element makes `getElementById` return
`null` and the write to `innerHTML` raise. The field `chart` says that the canvas and the
charting library are both present. -/
structure Dom where
  summaryMetrics : Bool
  slotsContainer : Bool
  distributionContainer : Bool
  distributionTableContainer : Bool
  radarContainer : Bool
  chart : Bool
  deriving DecidableEq

/-- A page that provides every element. -/
def Dom.full : Dom := ⟨true, true, true, true, true, true⟩

/-- What a call of a render function did: returned at the throttle guard, wrote a view,
caught an exception in its `catch`, or let an exception escape. -/
inductive Outcome (α : Type) where
  | skipped
  | rendered (view : α)
  | failed
  | threw
  deriving DecidableEq

/-! ## The snapshot -/

/-- An open trade of the snapshot. -/
structure Trade where
  slot_id : Option JSNum
  target_asset : Option String
  base_asset : Option String
  entry_price : Option JSNum
  amount : Option JSNum
  initial_fiat_value : Option JSNum
  current_value_eur : Option JSNum
  created_at : Option String
  deriving DecidableEq

/-- The record `state.treasury`. -/
structure Treasury where
  total_eur : Option JSNum
  total_btc : Option JSNum
  deriving DecidableEq

/-- The record `state.prices`. -/
structure Prices where
  btc_price : Option JSNum
  bnb_price : Option JSNum
  eth_price : Option JSNum
  deriving DecidableEq

/-- The record `state.gas_bnb`. -/
structure GasBnb where
  amount : Option JSNum
  value_eur : Option JSNum
  deriving DecidableEq

/-- The record `state.market_status`. -/
structure MarketStatus where
  status : Option String
  btc_change : Option JSNum
  deriving DecidableEq

/-- The state document. A field `none` is absent or `null`; `balances` is
`state.balances?.total`; an element `none` of `radar_data` is a `null` entry. -/
structure Snapshot where
  balances : Option (Props JSNum)
  treasury : Option Treasury
  prices : Option Prices
  gas_bnb : Option GasBnb
  free_cash_eur : Option JSNum
  open_trades : Option (List Trade)
  market_status : Option MarketStatus
  radar_data : Option (List (Option JSObject))

/-- The expression `x || y` for a numeric field `x` that may be absent or `null`. -/
def orElse (x : Option JSNum) (y : JSNum) : JSNum :=
  match x with
  | some n => if n.truthy then n else y
  | none => y

/-- The expression `state.treasury || {}`. -/
def Snapshot.treasuryOrEmpty (s : Snapshot) : Treasury := s.treasury.getD ⟨none, none⟩

/-- The expression `state.prices || {}`. -/
def Snapshot.pricesOrEmpty (s : Snapshot) : Prices := s.prices.getD ⟨none, none, none⟩

/-- The expression `state.gas_bnb || {}`. -/
def Snapshot.gasOrEmpty (s : Snapshot) : GasBnb := s.gas_bnb.getD ⟨none, none⟩

/-- The expression `state.balances?.total || {}`. -/
def Snapshot.balancesOrEmpty (s : Snapshot) : Props JSNum := s.balances.getD []

/-- The expression `state.open_trades || []`. -/
def Snapshot.tradesOrEmpty (s : Snapshot) : List Trade := s.open_trades.getD []

/-! ## renderSummary (lines 111-227) -/

/-- The local variables of `renderSummary` that reach the page, with the two coerced
totals of lines 181-182. -/
structure SummaryLocals where
  btcPrice : JSNum
  bnbPrice : JSNum
  bnbBalance : JSNum
  gasBnbEur : JSNum
  freeCashEur : JSNum
  inversionEur : JSNum
  fondosTotales : JSNum
  treasuryBtc : JSNum
  depositoTotalEur : JSNum
  safeFondos : JSNum
  safeDeposito : JSNum
  deriving DecidableEq

/-- The price `bnbPrice` after lines 127-139: the listed price, or the quotient of the gas
value by the balance when the listed price is not positive. -/
def summaryBnbPrice (listed bnbBalance gasBnbEur : JSNum) : JSNum :=
  if !listed.truthy || listed.le (JSNum.fin 0) then
    if bnbBalance.gt (JSNum.fin 0) && gasBnbEur.gt (JSNum.fin 0) then gasBnbEur / bnbBalance
    else listed
  else listed

/-- The value `gasBnbEur` after lines 132-149. -/
def summaryGasEur (s : Snapshot) : JSNum :=
  let balances := s.balancesOrEmpty
  let gasBnb := s.gasOrEmpty
  let bnbBalance := orElse gasBnb.amount (orElse (propGet balances "BNB") (JSNum.fin 0))
  let gasBnbEur0 := orZero gasBnb.value_eur
  let bnbPrice := summaryBnbPrice (orZero s.pricesOrEmpty.bnb_price) bnbBalance gasBnbEur0
  let gasBnbEur1 :=
    if gasBnbEur0.le (JSNum.fin 0) && bnbPrice.gt (JSNum.fin 0) && bnbBalance.gt (JSNum.fin 0)
    then bnbBalance * bnbPrice else gasBnbEur0
  match gasBnb.value_eur with
  | some v => if v.truthy && v.gt (JSNum.fin 0) then v else gasBnbEur1
  | none => gasBnbEur1

/-- The loop of lines 155-161: the running sum of the truthy `initial_fiat_value`s. -/
def summaryInversion (openTrades : List Trade) : JSNum :=
  openTrades.foldl
    (fun acc trade =>
      match trade.initial_fiat_value with
      | some v => if v.truthy then acc + v else acc
      | none => acc)
    (JSNum.fin 0)

/-- The computation of lines 120-182. -/
def summaryLocals (s : Snapshot) : SummaryLocals :=
  let balances := s.balancesOrEmpty
  let treasury := s.treasuryOrEmpty
  let prices := s.pricesOrEmpty
  let gasBnb := s.gasOrEmpty
  let btcPrice := orZero prices.btc_price
  let bnbBalance := orElse gasBnb.amount (orElse (propGet balances "BNB") (JSNum.fin 0))
  let bnbPrice := summaryBnbPrice (orZero prices.bnb_price) bnbBalance (orZero gasBnb.value_eur)
  let gasBnbEur := summaryGasEur s
  let freeCashEur := orZero s.free_cash_eur
  let inversionEur := summaryInversion s.tradesOrEmpty
  let fondosTotales := freeCashEur + inversionEur + gasBnbEur
  let treasuryEur := orZero treasury.total_eur
  let treasuryBtc := orZero treasury.total_btc
  let depositoEur := treasuryEur
  let depositoBtcValue := treasuryBtc * btcPrice
  let depositoTotalEur := depositoEur + depositoBtcValue
  { btcPrice := btcPrice, bnbPrice := bnbPrice, bnbBalance := bnbBalance,
    gasBnbEur := gasBnbEur, freeCashEur := freeCashEur, inversionEur := inversionEur,
    fondosTotales := fondosTotales, treasuryBtc := treasuryBtc,
    depositoTotalEur := depositoTotalEur,
    safeFondos := numberOrZero fondosTotales,
    safeDeposito := numberOrZero depositoTotalEur }

/-- The numbers the template of lines 184-209 hands to the formatters, box by box, with the
key of the status icon and the BTC change. -/
structure SummaryView where
  fondos : JSNum
  inversion : JSNum
  deposito : JSNum
  depositoBtc : JSNum
  btcPrice : JSNum
  gas : JSNum
  bnbBalance : JSNum
  bnbPrice : JSNum
  status : String
  btcChange : Option JSNum
  deriving DecidableEq

/-- The key that `getStatusIcon(marketStatus.status || 'unknown')` resolves to (lines
48-55). -/
def statusKey (status : Option String) : String :=
  match status with
  | some t => if t = "safe" ∨ t = "caution" then t else "unknown"
  | none => "unknown"

/-- The template of lines 184-209: which local fills which box. -/
def summaryView (s : Snapshot) : SummaryView :=
  let l := summaryLocals s
  let marketStatus := s.market_status.getD ⟨none, none⟩
  { fondos := l.safeFondos, inversion := l.inversionEur, deposito := l.depositoTotalEur,
    depositoBtc := l.treasuryBtc, btcPrice := l.btcPrice, gas := l.gasBnbEur,
    bnbBalance := l.bnbBalance, bnbPrice := l.bnbPrice,
    status := statusKey marketStatus.status, btcChange := marketStatus.btc_change }

/-- The function `renderSummary`. A state `none` is `null`: reading `state.balances`
raises inside the `try`. -/
def renderSummary (dom : Dom) (now : Int) (g : Throttle) (state : Option Snapshot) :
    Throttle × Outcome SummaryView :=
  if tooSoon now g.lastSummaryUpdate SUMMARY_INTERVAL then (g, Outcome.skipped)
  else
    let g1 : Throttle := ⟨now, g.lastSlotsUpdate, g.lastOtherUpdate⟩
    match state with
    | none => (g1, Outcome.failed)
    | some s =>
      if dom.summaryMetrics then (g1, Outcome.rendered (summaryView s))
      else (g1, Outcome.failed)

/-! ## renderSlots and renderSlotsFromEvent (lines 229-367) -/

/-- The call `dateStr.replace(' ', 'T')`: the first blank becomes a `T`. -/
def replaceFirstBlank : List Char → List Char
  | [] => []
  | c :: cs => if c = ' ' then 'T' :: cs else c :: replaceFirstBlank cs

/-- An active slot box: the values the template hands to the formatters. The field `fecha`
is the text given to `new Date`, or `none` for the label `N/A`. -/
structure SlotCard where
  fecha : Option String
  target_asset : Option String
  base_asset : Option String
  initialValueEur : JSNum
  currentValueEur : JSNum
  currentValueClass : String
  amount : JSNum
  decimals : Nat
  pnlClass : String
  pnlSign : String
  pnlPercent : JSNum
  deriving DecidableEq

/-- One box of the slots container: the slot index `i` (shown as `Slot i+1`) and its card,
`none` for the inactive box. -/
structure SlotView where
  index : Nat
  card : Option SlotCard
  deriving DecidableEq

/-- Lines 245-299: the box of `renderSlots` for a trade that was found. -/
def slotCard (trade : Trade) : SlotCard :=
  let amount := orZero trade.amount
  let fecha : Option String :=
    match trade.created_at with
    | some created =>
      if created ≠ "" then
        if !decide ('T' ∈ created.toList) && !decide ('Z' ∈ created.toList) then
          some (String.mk (replaceFirstBlank created.toList))
        else some created
      else none
    | none => none
  let initialValueEur := orZero trade.initial_fiat_value
  let currentValueEur :=
    match trade.current_value_eur with
    | some v => v
    | none => initialValueEur
  let pnlPercent :=
    if initialValueEur.gt (JSNum.fin 0) then
      ((currentValueEur - initialValueEur) / initialValueEur) * JSNum.fin 100
    else JSNum.fin 0
  let pnlClass :=
    if pnlPercent.gt (JSNum.fin 0) then "positive"
    else if pnlPercent.lt (JSNum.fin 0) then "negative" else "neutral"
  let currentValueClass := if currentValueEur.ge initialValueEur then "positive" else "negative"
  let decimals :=
    if trade.target_asset = some "BTC" then 8
    else if trade.target_asset = some "BNB" ∨ trade.target_asset = some "ETH" then 4 else 2
  { fecha := fecha, target_asset := trade.target_asset, base_asset := trade.base_asset,
    initialValueEur := initialValueEur, currentValueEur := currentValueEur,
    currentValueClass := currentValueClass, amount := amount, decimals := decimals,
    pnlClass := pnlClass, pnlSign := if pnlPercent.ge (JSNum.fin 0) then "+" else "",
    pnlPercent := pnlPercent }

/-- Lines 242-310: the four boxes of `renderSlots`, for `i = 0, 1, 2, 3`. -/
def slotsHtml (openTrades : List Trade) : List SlotView :=
  (List.range 4).map fun (i : Nat) =>
    match openTrades.find? (fun t => decide (t.slot_id = some (JSNum.fin (i : ℚ)))) with
    | some trade => ⟨i, some (slotCard trade)⟩
    | none => ⟨i, none⟩

/-- The function `renderSlots`. -/
def renderSlots (dom : Dom) (now : Int) (g : Throttle) (state : Option Snapshot) :
    Throttle × Outcome (List SlotView) :=
  if tooSoon now g.lastSlotsUpdate SLOTS_INTERVAL then (g, Outcome.skipped)
  else
    let g1 : Throttle := ⟨g.lastSummaryUpdate, now, g.lastOtherUpdate⟩
    match state with
    | none => (g1, Outcome.failed)
    | some s =>
      if dom.slotsContainer then (g1, Outcome.rendered (slotsHtml s.tradesOrEmpty))
      else (g1, Outcome.failed)

/-- The payload of a `slots` event. -/
structure SlotsPayload where
  open_trades : Option (List Trade)

/-- Lines 326-351: the box of `renderSlotsFromEvent` for a trade that was found. -/
def eventSlotCard (trade : Trade) : SlotCard :=
  let amount := orZero trade.amount
  let fecha : Option String :=
    match trade.created_at with
    | none => none
    | some created =>
      if created = "" then none
      else if !decide ('T' ∈ created.toList) && !decide ('Z' ∈ created.toList) then
        some (String.mk (replaceFirstBlank created.toList))
      else some created
  let initialValueEur := orZero trade.initial_fiat_value
  let currentValueEur := trade.current_value_eur.getD initialValueEur
  let pnlPercent :=
    if initialValueEur.gt (JSNum.fin 0) then
      ((currentValueEur - initialValueEur) / initialValueEur) * JSNum.fin 100
    else JSNum.fin 0
  let pnlClass :=
    if pnlPercent.gt (JSNum.fin 0) then "positive"
    else if pnlPercent.lt (JSNum.fin 0) then "negative" else "neutral"
  let currentValueClass := if currentValueEur.ge initialValueEur then "positive" else "negative"
  let decimals :=
    if trade.target_asset = some "BTC" then 8
    else if trade.target_asset = some "BNB" ∨ trade.target_asset = some "ETH" then 4 else 2
  { fecha := fecha, target_asset := trade.target_asset, base_asset := trade.base_asset,
    initialValueEur := initialValueEur, currentValueEur := currentValueEur,
    currentValueClass := currentValueClass, amount := amount, decimals := decimals,
    pnlClass := pnlClass, pnlSign := if pnlPercent.ge (JSNum.fin 0) then "+" else "",
    pnlPercent := pnlPercent }

/-- Lines 323-362: the four boxes of `renderSlotsFromEvent`, for `i = 0, 1, 2, 3`. -/
def eventSlotsHtml (openTrades : List Trade) : List SlotView :=
  (List.range 4).map fun (i : Nat) =>
    match openTrades.find? (fun t => decide (t.slot_id = some (JSNum.fin (i : ℚ)))) with
    | none => ⟨i, none⟩
    | some trade => ⟨i, some (eventSlotCard trade)⟩

/-- The function `renderSlotsFromEvent`; a payload `none` is `null`. -/
def renderSlotsFromEvent (dom : Dom) (payload : Option SlotsPayload) :
    Outcome (List SlotView) :=
  match payload with
  | none => Outcome.failed
  | some p =>
    if dom.slotsContainer then
      Outcome.rendered (eventSlotsHtml (p.open_trades.getD []))
    else Outcome.failed

/-! ## renderDistribution (lines 539-798) -/

/-- The call `Object.entries(o)`: the array-index keys in ascending numeric order, then the
other keys in creation order. -/
def objectEntries {α : Type} (o : Props α) : Props α :=
  let indexed := o.filterMap (fun p => (arrayIndex p.1).map (fun n => (n, p)))
  let named := o.filter (fun p => (arrayIndex p.1).isNone)
  (indexed.insertionSort (fun a b => a.1 ≤ b.1)).map Prod.snd ++ named

/-- An element pushed on `distributionData`. -/
structure DistLine where
  name : String
  amount : JSNum
  valueEur : JSNum
  price : JSNum
  deriving DecidableEq

/-- The pair of locals `distributionData` and `totalValueEur`. -/
structure DistAcc where
  distributionData : List DistLine
  totalValueEur : JSNum
  deriving DecidableEq

/-- The statements `distributionData.push(line); totalValueEur += line.valueEur`. -/
def DistAcc.push (acc : DistAcc) (line : DistLine) : DistAcc :=
  ⟨acc.distributionData ++ [line], acc.totalValueEur + line.valueEur⟩

/-- The dust threshold `0.0001` of line 590. -/
def DUST : JSNum := JSNum.fin (1 / 10000)

/-- The threshold `0.01` of lines 601-673. -/
def CENT : JSNum := JSNum.fin (1 / 100)

/-- The threshold `0.00000001` of line 657. -/
def SATOSHI : JSNum := JSNum.fin (1 / 100000000)

/-- The price `bnbPrice` after lines 555-565. -/
def distBnbPrice (s : Snapshot) : JSNum :=
  let balances := s.balancesOrEmpty
  let gasBnb := s.gasOrEmpty
  let bnbPrice := orZero s.pricesOrEmpty.bnb_price
  if !bnbPrice.truthy || bnbPrice.le (JSNum.fin 0) then
    let bnbBalance := orElse gasBnb.amount (orElse (propGet balances "BNB") (JSNum.fin 0))
    let gasBnbEur := orZero gasBnb.value_eur
    if bnbBalance.gt (JSNum.fin 0) && gasBnbEur.gt (JSNum.fin 0) then gasBnbEur / bnbBalance
    else bnbPrice
  else bnbPrice

/-- The helper `getAssetPrice` (lines 572-586). -/
def getAssetPrice (s : Snapshot) (asset : String) : JSNum :=
  if asset = "EUR" ∨ asset = "USDC" then JSNum.fin 1
  else if asset = "BTC" then orZero s.pricesOrEmpty.btc_price
  else if asset = "BNB" then distBnbPrice s
  else if asset = "ETH" then orZero s.pricesOrEmpty.eth_price
  else
    match s.tradesOrEmpty.find? (fun trade =>
      decide (trade.target_asset = some asset) &&
        (match trade.entry_price with
          | some p => p.gt (JSNum.fin 0)
          | none => false)) with
    | some trade => trade.entry_price.getD (JSNum.fin 0)
    | none => JSNum.fin 0

/-- The test `gasBnb.amount && gasBnb.amount > 0` of line 604. -/
def gasAmountPositive (gasBnb : GasBnb) : Bool :=
  match gasBnb.amount with
  | some g => g.truthy && g.gt (JSNum.fin 0)
  | none => false

/-- One iteration of the loop of lines 589-629: the line it pushes, if any. -/
def walletLine (s : Snapshot) (asset : String) (amount : JSNum) : Option DistLine :=
  if amount.le DUST then none
  else if asset = "EUR" ∨ asset = "USDC" then none
  else
    let price := getAssetPrice s asset
    if price.le (JSNum.fin 0) then none
    else
      let valueEur := amount * price
      if valueEur.lt CENT then none
      else if asset = "BNB" ∧ gasAmountPositive s.gasOrEmpty = true then
        let bnbInGas := s.gasOrEmpty.amount.getD (JSNum.fin 0)
        if amount.le bnbInGas then none
        else
          let extraBnb := amount - bnbInGas
          let extraBnbEur := extraBnb * price
          if extraBnbEur.ge CENT then some ⟨asset, extraBnb, extraBnbEur, price⟩ else none
      else some ⟨asset, amount, valueEur, price⟩

/-- The loop of lines 589-629 over `Object.entries(balances)`. -/
def walletLoop (s : Snapshot) : DistAcc :=
  (objectEntries s.balancesOrEmpty).foldl
    (fun acc p =>
      match walletLine s p.1 p.2 with
      | some line => acc.push line
      | none => acc)
    ⟨[], JSNum.fin 0⟩

/-- Lines 631-641: the merged EUR/USDC line. -/
def pushEur (s : Snapshot) (acc : DistAcc) : DistAcc :=
  let balances := s.balancesOrEmpty
  let eurAmount := orZero (propGet balances "EUR") + orZero (propGet balances "USDC")
  if eurAmount.gt CENT then acc.push ⟨"EUR", eurAmount, eurAmount, JSNum.fin 1⟩ else acc

/-- Lines 643-653: the treasury EUR line. -/
def pushTreasuryEur (s : Snapshot) (acc : DistAcc) : DistAcc :=
  let treasuryEur := orZero s.treasuryOrEmpty.total_eur
  if treasuryEur.gt CENT then acc.push ⟨"Depósito EUR", treasuryEur, treasuryEur, JSNum.fin 1⟩
  else acc

/-- Lines 655-668: the treasury BTC line. -/
def pushTreasuryBtc (s : Snapshot) (acc : DistAcc) : DistAcc :=
  let btcPrice := orZero s.pricesOrEmpty.btc_price
  let treasuryBtc := orZero s.treasuryOrEmpty.total_btc
  if treasuryBtc.gt SATOSHI && btcPrice.gt (JSNum.fin 0) then
    let treasuryBtcEur := treasuryBtc * btcPrice
    if treasuryBtcEur.gt CENT then acc.push ⟨"Depósito BTC", treasuryBtc, treasuryBtcEur, btcPrice⟩
    else acc
  else acc

/-- Lines 670-686: the gas reserve line. -/
def pushGas (s : Snapshot) (acc : DistAcc) : DistAcc :=
  let gasBnb := s.gasOrEmpty
  let gasBnbEur := orZero gasBnb.value_eur
  let gasBnbAmount := orZero gasBnb.amount
  if gasBnbEur.gt CENT && gasBnbAmount.gt (JSNum.fin 0) then
    let bnbPrice := distBnbPrice s
    let gasBnbPrice :=
      if !bnbPrice.truthy || bnbPrice.le (JSNum.fin 0) then gasBnbEur / gasBnbAmount
      else bnbPrice
    acc.push ⟨"BNB", gasBnbAmount, gasBnbEur, gasBnbPrice⟩
  else acc

/-- The locals `distributionData` and `totalValueEur` at line 688. -/
def distributionAcc (s : Snapshot) : DistAcc :=
  pushGas s (pushTreasuryBtc s (pushTreasuryEur s (pushEur s (walletLoop s))))

/-- A row of the distribution table: a line with its percentage and its legend colour. -/
structure DistRow where
  line : DistLine
  percentage : JSNum
  color : Option String
  deriving DecidableEq

/-- The palette of lines 716-720. -/
def colors : List String :=
  ["#00FF88", "#FF8844", "#4444FF", "#FF44FF", "#44FFFF",
   "#FFFF44", "#FF4444", "#8888FF", "#FF8888", "#88FF88",
   "#00AAFF", "#AA00FF", "#FFAA00", "#AAFF00", "#FF00AA"]

/-- The sort of line 704 keeps `a` before `b` unless `b.percentage - a.percentage` is
positive. -/
def percentKeepsBefore (a b : DistLine × JSNum) : Prop :=
  (b.2 - a.2).gt (JSNum.fin 0) = false

instance : DecidableRel percentKeepsBefore :=
  fun a b => inferInstanceAs (Decidable ((b.2 - a.2).gt (JSNum.fin 0) = false))

/-- Lines 699-704: the lines with their percentages, sorted by percentage, largest first. -/
def rankedLines (acc : DistAcc) : List (DistLine × JSNum) :=
  (acc.distributionData.map fun item =>
    (item, (item.valueEur / acc.totalValueEur) * JSNum.fin 100)).insertionSort
    percentKeepsBefore

/-- Lines 723-725 and 768-782: the rows of the table; the colours are assigned by position,
and only when the chart is drawn. -/
def distributionRows (chart : Bool) (acc : DistAcc) : List DistRow :=
  (rankedLines acc).enum.map fun p =>
    ⟨p.2.1, p.2.2, if chart then colors.get? (p.1 % colors.length) else none⟩

/-- What `renderDistribution` shows: the message that there is no distribution data, or the
table. -/
inductive DistView where
  | noData
  | table (rows : List DistRow)
  deriving DecidableEq

/-- The test of line 689. -/
def noDistributionData (acc : DistAcc) : Bool :=
  decide (acc.distributionData.length = 0) || acc.totalValueEur.le (JSNum.fin 0)

/-- The function `renderDistribution`. Its `catch` writes to the distribution container,
so an exception escapes when that container is missing. -/
def renderDistribution (dom : Dom) (now : Int) (g : Throttle) (state : Option Snapshot) :
    Throttle × Outcome DistView :=
  if tooSoon now g.lastOtherUpdate OTHER_INTERVAL then (g, Outcome.skipped)
  else
    let g1 : Throttle := ⟨g.lastSummaryUpdate, g.lastSlotsUpdate, now⟩
    let caught : Outcome DistView :=
      if dom.distributionContainer then Outcome.failed else Outcome.threw
    match state with
    | none => (g1, caught)
    | some s =>
      let acc := distributionAcc s
      if noDistributionData acc then
        if dom.distributionContainer then (g1, Outcome.rendered DistView.noData)
        else (g1, caught)
      else if dom.distributionTableContainer then
        (g1, Outcome.rendered (DistView.table (distributionRows dom.chart acc)))
      else (g1, caught)

/-! ## loadState and loadBitacora (lines 57-101) -/

/-- What one `fetch` of the state resource gives: a rejected promise, or a response with
its `ok` flag and the result of `JSON.parse` on its body (`none` when parsing raises). -/
inductive FetchResult (α : Type) where
  | networkError
  | response (ok : Bool) (json : Option α)

/-- The observable steps of `loadState`. -/
inductive Effect where
  | fetch
  | sleep (ms : Nat)
  | parse
  | showError
  deriving DecidableEq

/-- The constant `maxRetries` of line 68. -/
def maxRetries : Nat := 3

/-- The loop of lines 69-81, entered at `attempt` with the parse result of the current body;
`remaining` is `maxRetries - attempt`, and `server k` answers the fetch number `k`. -/
def parseLoop {α : Type} (server : Nat → FetchResult α) :
    Nat → Nat → Option α → List Effect → Option α × List Effect
  | 0, _, _, log => (none, log)
  | remaining + 1, attempt, json, log =>
    match json with
    | some data => (some data, log ++ [Effect.parse])
    | none =>
      if attempt = maxRetries - 1 then (none, log ++ [Effect.parse, Effect.showError])
      else
        let log1 := log ++ [Effect.parse, Effect.sleep (100 * (attempt + 1)), Effect.fetch]
        match server (attempt + 1) with
        | FetchResult.networkError => (none, log1 ++ [Effect.showError])
        | FetchResult.response ok json1 =>
          if ok then parseLoop server remaining (attempt + 1) json1 log1
          else (none, log1 ++ [Effect.showError])

/-- The function `loadState`: the document it resolves to (`none` is `null`) and the steps
it took. -/
def loadState {α : Type} (server : Nat → FetchResult α) : Option α × List Effect :=
  match server 0 with
  | FetchResult.networkError => (none, [Effect.fetch, Effect.showError])
  | FetchResult.response ok json =>
    if ok then parseLoop server maxRetries 0 json [Effect.fetch]
    else (none, [Effect.fetch, Effect.showError])

/-- The characters that `String.prototype.trim` removes: white space and line
terminators. -/
def isTrimmed (c : Char) : Bool :=
  let n := c.toNat
  n = 0x09 || n = 0x0A || n = 0x0B || n = 0x0C || n = 0x0D || n = 0x20 || n = 0xA0
    || n = 0x1680 || (decide (0x2000 ≤ n) && decide (n ≤ 0x200A)) || n = 0x2028 || n = 0x2029
    || n = 0x202F || n = 0x205F || n = 0x3000 || n = 0xFEFF

/-- The call `line.trim()`. -/
def trim (line : List Char) : List Char :=
  ((line.dropWhile isTrimmed).reverse.dropWhile isTrimmed).reverse

/-- The call `text.split('\n')`. -/
def splitNewline : List Char → List (List Char)
  | [] => [[]]
  | c :: cs =>
    if c = '\n' then [] :: splitNewline cs
    else
      match splitNewline cs with
      | line :: lines => (c :: line) :: lines
      | [] => [[c]]

/-- The call `lines.slice(-50)`. -/
def sliceLast50 {α : Type} (lines : List α) : List α :=
  lines.drop (lines.length - 50)

/-- The response to the fetch of the log. -/
structure TextResponse where
  ok : Bool
  text : String

/-- The function `loadBitacora`; a response `none` is a rejected fetch. -/
def loadBitacora (r : Option TextResponse) : List String :=
  match r with
  | none => []
  | some response =>
    if !response.ok then []
    else
      sliceLast50
        (((splitNewline response.text.toList).filter fun line => decide (trim line ≠ [])).map
          String.mk)

/-! ## renderRadar and the refresh paths (lines 392-534 and 801-853) -/

/-- The argument of `renderRadar`: an array of items, or a state object (`none` is
`null`). -/
inductive RadarArg where
  | items (list : List (Option JSObject))
  | state (s : Option Snapshot)

/-- What `renderRadar` shows: the message that there is no radar data, or one table row per
item. -/
inductive RadarView where
  | noData
  | rows (list : List JSObject)
  deriving DecidableEq

/-- The array `radarData` of line 396. -/
def radarData (H : Host) (cache : RadarCache) : RadarArg → List (Option JSObject)
  | RadarArg.items list => list
  | RadarArg.state (some s) =>
    match s.radar_data with
    | some list => list
    | none => (getRadarList H cache).map some
  | RadarArg.state none => (getRadarList H cache).map some

/-- The function `renderRadar` (lines 393-470). A `null` item makes the comparator or the
row loop raise, which the `catch` absorbs. -/
def renderRadar (H : Host) (dom : Dom) (showAll : Bool) (cache : RadarCache) (arg : RadarArg) :
    Outcome RadarView :=
  let data := radarData H cache arg
  if data.length = 0 then
    if dom.radarContainer then Outcome.rendered RadarView.noData else Outcome.failed
  else if data.all Option.isSome then
    let sorted := (data.filterMap id).insertionSort (keepsBefore H)
    let list := if showAll then sorted else sorted.take 30
    if dom.radarContainer then Outcome.rendered (RadarView.rows list) else Outcome.failed
  else Outcome.failed

/-- The globals of the page: the timestamps, the radar cache and the `ver todos` toggle. -/
structure Page where
  throttle : Throttle
  radarCache : RadarCache
  showAll : Bool

/-- The clock readings of one refresh: `Date.now()` in each throttled render. -/
structure Clock where
  summary : Int
  slots : Int
  other : Int

/-- What one refresh left: the globals and what each section did (`none` when the path does
not call that section). -/
structure Refresh where
  page : Page
  summary : Outcome SummaryView
  slots : Outcome (List SlotView)
  radar : Outcome RadarView
  distribution : Option (Outcome DistView)

/-- The initial load (lines 486-495) for a state that was fetched. -/
def initialLoad (H : Host) (dom : Dom) (t : Clock) (page : Page) (s : Snapshot) : Refresh :=
  let cache :=
    match s.radar_data with
    | some list => mergeRadarEntries H page.radarCache list
    | none => page.radarCache
  let r1 := renderSummary dom t.summary page.throttle (some s)
  let r2 := renderSlots dom t.slots r1.1 (some s)
  let radar := renderRadar H dom page.showAll cache (RadarArg.items ((getRadarList H cache).map some))
  let r4 := renderDistribution dom t.other r2.1 (some s)
  { page := ⟨r4.1, cache, page.showAll⟩, summary := r1.2, slots := r2.2, radar := radar,
    distribution := some r4.2 }

/-- The fallback poll (lines 521-523 and 530-532) for a state that was fetched. -/
def fallbackPoll (H : Host) (dom : Dom) (t : Clock) (page : Page) (s : Snapshot) : Refresh :=
  let r1 := renderSummary dom t.summary page.throttle (some s)
  let r2 := renderSlots dom t.slots r1.1 (some s)
  let cache := mergeRadarEntries H page.radarCache (s.radar_data.getD [])
  let radar := renderRadar H dom page.showAll cache (RadarArg.items ((getRadarList H cache).map some))
  { page := ⟨r2.1, cache, page.showAll⟩, summary := r1.2, slots := r2.2, radar := radar,
    distribution := none }

/-- The periodic update (lines 844-848 of `updateDashboard`) for a state that was fetched,
on a page that provides the loading, dashboard and error elements. -/
def updateDashboard (H : Host) (dom : Dom) (t : Clock) (page : Page) (s : Snapshot) : Refresh :=
  let r1 := renderSummary dom t.summary page.throttle (some s)
  let r2 := renderSlots dom t.slots r1.1 (some s)
  let radar := renderRadar H dom page.showAll page.radarCache (RadarArg.state (some s))
  let r4 := renderDistribution dom t.other r2.1 (some s)
  { page := ⟨r4.1, page.radarCache, page.showAll⟩, summary := r1.2, slots := r2.2,
    radar := radar, distribution := some r4.2 }

/-! ## Well-formed objects -/

/-- The names of the properties of an object, in creation order. -/
def keys {α : Type} (o : Props α) : List String := o.map Prod.fst

/-- An object has no two properties of the same name. -/
def WellFormed {α : Type} (o : Props α) : Prop := (keys o).Nodup

/-- A radar cache is well formed when it is a well-formed object whose values are
well-formed objects. -/
def WellFormedCache (c : RadarCache) : Prop :=
  WellFormed c ∧ ∀ p ∈ c, WellFormed p.2

instance {α : Type} (o : Props α) : Decidable (WellFormed o) :=
  inferInstanceAs (Decidable (keys o).Nodup)

instance (c : RadarCache) : Decidable (WellFormedCache c) :=
  inferInstanceAs (Decidable (WellFormed c ∧ ∀ p ∈ c, WellFormed p.2))

/-! ## Notions used in the statements -/

/-- The entries of a batch that `mergeRadarEntries` reaches: those before the first `null`
entry. -/
def reachedEntries : List (Option JSObject) → List JSObject
  | [] => []
  | none :: _ => []
  | some e :: rest => e :: reachedEntries rest

/-- The investment total as the specification words it: the sum of `initial_fiat_value`
over the open trades, a missing value counting as 0. -/
def investmentTotal (openTrades : List Trade) : JSNum :=
  (openTrades.map fun t => t.initial_fiat_value.getD (JSNum.fin 0)).foldl (fun a b => a + b)
    (JSNum.fin 0)

/-- The total of an accumulator is the running sum of the values of its lines. -/
def DistAcc.Balanced (acc : DistAcc) : Prop :=
  acc.totalValueEur =
    (acc.distributionData.map DistLine.valueEur).foldl (fun a b => a + b) (JSNum.fin 0)

/-- The largest finite double, `Number.MAX_VALUE`, which is `(2^53 - 1) * 2^971`. -/
def MAX_VALUE : ℚ := (2 ^ 53 - 1) * 2 ^ 971

/-- A number within the range of the finite doubles: finite and of magnitude at most
`Number.MAX_VALUE`. An exact result outside this range is one that the code computes as an
infinity. -/
def JSNum.inRange : JSNum → Bool
  | JSNum.fin q => decide (|q| ≤ MAX_VALUE)
  | _ => false

/-- No number of the breakdown has overflowed: the amount, the price and the EUR value of every
line and the total lie within the range of the finite doubles. -/
def DistAcc.InRange (acc : DistAcc) : Prop :=
  (∀ l ∈ acc.distributionData,
    l.amount.inRange = true ∧ l.price.inRange = true ∧ l.valueEur.inRange = true) ∧
  acc.totalValueEur.inRange = true

instance (acc : DistAcc) : Decidable acc.InRange :=
  inferInstanceAs (Decidable (_ ∧ _))

/-- The lines that the wallet loop pushes: one iteration per entry of the balances. -/
def walletLines (s : Snapshot) : List DistLine :=
  (objectEntries s.balancesOrEmpty).filterMap fun p => walletLine s p.1 p.2

/-- The lines that one step of lines 631-686 pushes, read off the empty accumulator. -/
def pushedBy (step : DistAcc → DistAcc) : List DistLine :=
  (step ⟨[], JSNum.fin 0⟩).distributionData

/-- The rational a finite number stands for; 0 for the special values. -/
def JSNum.finitePart : JSNum → ℚ
  | JSNum.fin q => q
  | _ => 0

/-- The call `lines.join('\n')`, the inverse of `text.split('\n')`. -/
def joinNewline : List (List Char) → List Char
  | [] => []
  | [line] => line
  | line :: rest => line ++ '\n' :: joinNewline rest

/-- The whole sequence of steps of a call of `loadState` whose three bodies fail to parse,
without the final error message. -/
def fullAttempts : List Effect :=
  [Effect.fetch, Effect.parse, Effect.sleep 100, Effect.fetch, Effect.parse, Effect.sleep 200,
    Effect.fetch, Effect.parse]

/-! ## Sample data -/

/-- A host whose builtins are constant. The sample entries carry string identifiers and
numeric heat scores, so no builtin is called on them. -/
def sampleHost : Host := ⟨fun _ => "NaN", fun _ => JSNum.nan, fun _ => "{}"⟩

/-- A full radar entry for the pair `BTC/EUR`. -/
def btcFull : JSObject :=
  [("pair", JSVal.str "BTC/EUR"), ("heat_score", JSVal.num (JSNum.fin 80)),
   ("rsi", JSVal.num (JSNum.fin 55))]

/-- A partial update of the same pair that carries a heat score only. -/
def btcHeat : JSObject :=
  [("pair", JSVal.str "BTC/EUR"), ("heat_score", JSVal.num (JSNum.fin 90))]

/-- A partial update of the same pair that carries a volume only. -/
def btcVol : JSObject :=
  [("pair", JSVal.str "BTC/EUR"), ("vol", JSVal.num (JSNum.fin 3))]

/-- A cache that holds the full entry. -/
def sampleCache : RadarCache := [("BTC/EUR", btcFull)]

/-- An entry whose identity key is the text `b`. -/
def entryB : JSObject := [("pair", JSVal.str "b")]

/-- An entry whose identity key is the numeral `7`. -/
def entrySeven : JSObject := [("pair", JSVal.str "7")]

/-- The trade of the end-to-end scenario: slot 0, initial value 50, no current value. -/
def scenarioTrade : Trade :=
  ⟨some (JSNum.fin 0), some "ETH", some "EUR", none, none, some (JSNum.fin 50), none, none⟩

/-- The snapshot of the end-to-end scenario: free cash 100, one open trade, treasury of
20 EUR and 0 BTC, no gas data. -/
def scenarioSnapshot : Snapshot :=
  ⟨none, some ⟨some (JSNum.fin 20), some (JSNum.fin 0)⟩, none, none, some (JSNum.fin 100),
    some [scenarioTrade], none, none⟩

/-- A snapshot with gas reserve `{amount: 2, value_eur: 0}` and no `bnb_price`. -/
def gasNoPriceSnapshot : Snapshot :=
  ⟨none, none, some ⟨none, none, none⟩, some ⟨some (JSNum.fin 2), some (JSNum.fin 0)⟩, none,
    none, none, none⟩

/-- A snapshot without gas reserve record, with 3 BNB in the wallet and a BNB price of 10. -/
def walletBnbSnapshot : Snapshot :=
  ⟨some [("BNB", JSNum.fin 3)], none, some ⟨none, some (JSNum.fin 10), none⟩, none, none, none,
    none, none⟩

/-- A snapshot whose treasury holds `1e999` BTC, which `JSON.parse` reads as `Infinity`, and
that lists no BTC price. -/
def hugeTreasurySnapshot : Snapshot :=
  ⟨none, some ⟨none, some JSNum.pinf⟩, none, none, none, none, none, none⟩

/-- A trade whose initial value is `1e999`, read as `Infinity`, with no current value. -/
def hugeTrade : Trade :=
  ⟨some (JSNum.fin 0), some "ETH", some "EUR", none, none, some JSNum.pinf, none, none⟩

/-- The snapshot of the distribution scenario: 0.5 BTC in the wallet, BTC price 20000, no
treasury and no gas. -/
def halfBtcSnapshot : Snapshot :=
  ⟨some [("BTC", JSNum.fin (1 / 2))], none, some ⟨some (JSNum.fin 20000), none, none⟩, none,
    none, none, none, none⟩

/-- A snapshot with three holdings: 0.25 BTC at 20000 EUR and 4 ETH at 2500 EUR in the wallet,
and a treasury of 5000 EUR. -/
def mixedSnapshot : Snapshot :=
  ⟨some [("BTC", JSNum.fin (1 / 4)), ("ETH", JSNum.fin 4)], some ⟨some (JSNum.fin 5000), none⟩,
    some ⟨some (JSNum.fin 20000), none, some (JSNum.fin 2500)⟩, none, none, none, none, none⟩

/-- A snapshot with two wallet holdings of `1e308` each, at a price of 1: each is a finite
double, their exact sum is not. -/
def twoLargeSnapshot : Snapshot :=
  ⟨some [("BTC", JSNum.fin (10 ^ 308)), ("ETH", JSNum.fin (10 ^ 308))], none,
    some ⟨some (JSNum.fin 1), none, some (JSNum.fin 1)⟩, none, none, none, none, none⟩

/-- A snapshot whose only holding is a treasury of exactly 0.01 EUR. -/
def centTreasurySnapshot : Snapshot :=
  ⟨none, some ⟨some (JSNum.fin (1 / 100)), none⟩, none, none, none, none, none, none⟩

/-- A snapshot with `1e999` BTC in the wallet, read as `Infinity`, and a BTC price of 1. -/
def hugeBtcSnapshot : Snapshot :=
  ⟨some [("BTC", JSNum.pinf)], none, some ⟨some (JSNum.fin 1), none, none⟩, none, none, none,
    none, none⟩

/-- A snapshot with a gas reserve of 2 BNB without EUR value, 1 BNB in the wallet and a BNB
price of 500. -/
def gasOnlyAmountSnapshot : Snapshot :=
  ⟨some [("BNB", JSNum.fin 1)], none, some ⟨none, some (JSNum.fin 500), none⟩,
    some ⟨some (JSNum.fin 2), none⟩, none, none, none, none⟩

/-- A snapshot with a gas reserve of 2 BNB worth 1000 EUR, 5 BNB in the wallet and a BNB
price of 500. -/
def excessBnbSnapshot : Snapshot :=
  ⟨some [("BNB", JSNum.fin 5)], none, some ⟨none, some (JSNum.fin 500), none⟩,
    some ⟨some (JSNum.fin 2), some (JSNum.fin 1000)⟩, none, none, none, none⟩

/-- A snapshot whose only holding is 0.0001 BTC in the wallet, at a BTC price of 20000. -/
def dustBtcSnapshot : Snapshot :=
  ⟨some [("BTC", JSNum.fin (1 / 10000))], none, some ⟨some (JSNum.fin 20000), none, none⟩,
    none, none, none, none, none⟩

/-- A log text of two events around a blank line. -/
def sampleLog : TextResponse := ⟨true, "buy BTC\n  \nsell ETH"⟩

/-- A server whose first two bodies are truncated and whose third body parses to `7`. -/
def slowServer : Nat → FetchResult Nat
  | 0 => FetchResult.response true none
  | 1 => FetchResult.response true none
  | _ => FetchResult.response true (some 7)

/-- A page whose radar cache holds the full `BTC/EUR` entry, received earlier. -/
def cachedPage : Page := ⟨Throttle.fresh, sampleCache, false⟩

/-- A snapshot whose radar list carries the entry `b` only. -/
def radarSnapshot : Snapshot :=
  ⟨none, none, none, none, none, none, none, some [some entryB]⟩

/-- The clock of a refresh at time 1000. -/
def sampleClock : Clock := ⟨1000, 1000, 1000⟩

/-- An entry of key `a` with heat score 10. -/
def radarLowA : JSObject := [("pair", JSVal.str "a"), ("heat_score", JSVal.num (JSNum.fin 10))]

/-- An entry of key `7` with heat score 10. -/
def radarLowSeven : JSObject :=
  [("pair", JSVal.str "7"), ("heat_score", JSVal.num (JSNum.fin 10))]

/-- An entry of key `b` with heat score 90. -/
def radarHighB : JSObject := [("pair", JSVal.str "b"), ("heat_score", JSVal.num (JSNum.fin 90))]

/-- An entry of key `c` with heat score 10. -/
def radarLowC : JSObject := [("pair", JSVal.str "c"), ("heat_score", JSVal.num (JSNum.fin 10))]

/-- The cache after merging `a`, `7`, `b` and `c` in that order: three entries tie at heat
10, and one key is an array index. -/
def tieCache : RadarCache :=
  [("a", radarLowA), ("7", radarLowSeven), ("b", radarHighB), ("c", radarLowC)]

/-- The cache after merging `a`, `b` and `c` in that order: no key is an array index. -/
def namedTieCache : RadarCache := [("a", radarLowA), ("b", radarHighB), ("c", radarLowC)]

/-! ## Properties of objects -/

theorem propGet_propSet {α : Type} (o : Props α) (k j : String) (v : α) :
    propGet (propSet o k v) j = if k = j then some v else propGet o j := by
  induction o with
  | nil => simp [propSet, propGet]
  | cons p rest ih =>
    obtain ⟨g, w⟩ := p
    by_cases hg : g = k
    · subst hg
      by_cases hj : g = j <;> simp [propSet, propGet, hj]
    · simp only [propSet, hg, if_false, propGet, ih]
      by_cases hj : g = j
      · subst hj
        simp [Ne.symm hg]
      · simp [hj]

theorem propGet_eq_none_iff {α : Type} (o : Props α) (k : String) :
    propGet o k = none ↔ k ∉ keys o := by
  induction o with
  | nil => simp [propGet, keys]
  | cons p rest ih =>
    obtain ⟨g, w⟩ := p
    by_cases hg : g = k
    · simp [propGet, keys, hg]
    · simp only [propGet, hg, if_false, ih, keys, List.map_cons, List.mem_cons, not_or]
      constructor
      · intro h
        exact ⟨fun e => hg e.symm, h⟩
      · intro h
        exact h.2

theorem propGet_isSome_of_mem {α : Type} (o : Props α) (k : String) (h : k ∈ keys o) :
    ∃ v, propGet o k = some v := by
  cases hv : propGet o k with
  | none => exact absurd h ((propGet_eq_none_iff o k).1 hv)
  | some v => exact ⟨v, rfl⟩

theorem mem_keys_of_propGet {α : Type} (o : Props α) (k : String) (v : α)
    (h : propGet o k = some v) : k ∈ keys o := by
  by_contra hk
  rw [(propGet_eq_none_iff o k).2 hk] at h
  cases h

theorem propGet_mem {α : Type} (o : Props α) (k : String) (v : α)
    (h : propGet o k = some v) : (k, v) ∈ o := by
  induction o with
  | nil => simp [propGet] at h
  | cons p rest ih =>
    obtain ⟨g, w⟩ := p
    by_cases hg : g = k
    · simp only [propGet, hg, if_true, Option.some.injEq] at h
      simp [hg, h]
    · simp only [propGet, hg, if_false] at h
      exact List.mem_cons_of_mem _ (ih h)

theorem keys_propSet_of_mem {α : Type} (o : Props α) (k : String) (v : α) (h : k ∈ keys o) :
    keys (propSet o k v) = keys o := by
  induction o with
  | nil => simp [keys] at h
  | cons p rest ih =>
    obtain ⟨g, w⟩ := p
    by_cases hg : g = k
    · simp [propSet, hg, keys]
    · have hk : k ∈ keys rest := by
        simp only [keys, List.map_cons, List.mem_cons] at h
        rcases h with h | h
        · exact absurd h.symm hg
        · exact h
      have := ih hk
      simp only [keys] at this
      simp [propSet, hg, keys, this]

theorem propSet_of_not_mem {α : Type} (o : Props α) (k : String) (v : α) (h : k ∉ keys o) :
    propSet o k v = o ++ [(k, v)] := by
  induction o with
  | nil => simp [propSet]
  | cons p rest ih =>
    obtain ⟨g, w⟩ := p
    simp only [keys, List.map_cons, List.mem_cons, not_or] at h
    have hg : ¬ g = k := fun e => h.1 e.symm
    simp [propSet, hg, ih h.2]

theorem mem_keys_propSet {α : Type} (o : Props α) (k j : String) (v : α) :
    j ∈ keys (propSet o k v) ↔ j = k ∨ j ∈ keys o := by
  by_cases h : k ∈ keys o
  · rw [keys_propSet_of_mem o k v h]
    constructor
    · exact Or.inr
    · rintro (e | e)
      · exact e ▸ h
      · exact e
  · rw [propSet_of_not_mem o k v h]
    simp [keys, or_comm]

theorem wellFormed_propSet {α : Type} (o : Props α) (k : String) (v : α) (h : WellFormed o) :
    WellFormed (propSet o k v) := by
  unfold WellFormed at *
  by_cases hk : k ∈ keys o
  · rw [keys_propSet_of_mem o k v hk]
    exact h
  · rw [propSet_of_not_mem o k v hk]
    simp only [keys, List.map_append, List.map_cons, List.map_nil]
    rw [List.nodup_append]
    refine ⟨h, List.nodup_singleton _, ?_⟩
    intro a ha hb
    simp only [List.mem_singleton] at hb
    exact hk (hb ▸ ha)

theorem props_ext {α : Type} (o1 o2 : Props α) (hk : keys o1 = keys o2) (hn : WellFormed o1)
    (hv : ∀ k, propGet o1 k = propGet o2 k) : o1 = o2 := by
  induction o1 generalizing o2 with
  | nil =>
    cases o2 with
    | nil => rfl
    | cons q r => simp [keys] at hk
  | cons p rest ih =>
    cases o2 with
    | nil => simp [keys] at hk
    | cons q r =>
      obtain ⟨g, w⟩ := p
      obtain ⟨g2, w2⟩ := q
      simp only [keys, List.map_cons, List.cons.injEq] at hk
      obtain ⟨hg, hrest⟩ := hk
      subst hg
      have hn2 : g ∉ keys rest ∧ WellFormed rest := by
        simpa [WellFormed, keys] using hn
      have h0 := hv g
      simp only [propGet, if_true, Option.some.injEq] at h0
      subst h0
      have : rest = r := by
        apply ih r hrest hn2.2
        intro k
        have hk := hv k
        by_cases e : g = k
        · subst e
          rw [(propGet_eq_none_iff rest g).2 hn2.1]
          have : g ∉ keys r := by
            have h3 := hn2.1
            simp only [keys] at h3 hrest ⊢
            rw [← hrest]
            exact h3
          rw [(propGet_eq_none_iff r g).2 this]
        · simpa [propGet, e] using hk
      rw [this]

theorem mem_propSet {α : Type} (o : Props α) (k : String) (v : α) (p : String × α)
    (h : p ∈ propSet o k v) : p = (k, v) ∨ p ∈ o := by
  induction o with
  | nil => simpa [propSet] using h
  | cons q rest ih =>
    obtain ⟨g, w⟩ := q
    by_cases hg : g = k
    · simp only [propSet, hg, if_true, List.mem_cons] at h
      rcases h with h | h
      · exact Or.inl h
      · exact Or.inr (List.mem_cons_of_mem _ h)
    · simp only [propSet, hg, if_false, List.mem_cons] at h
      rcases h with h | h
      · exact Or.inr (h ▸ List.mem_cons_self _ _)
      · rcases ih h with h | h
        · exact Or.inl h
        · exact Or.inr (List.mem_cons_of_mem _ h)

theorem propGet_append {α : Type} (a b : Props α) (f : String) :
    propGet (a ++ b) f = (propGet a f).or (propGet b f) := by
  induction a with
  | nil => simp [propGet]
  | cons p rest ih =>
    obtain ⟨g, w⟩ := p
    by_cases hg : g = f <;> simp [propGet, hg, ih]

theorem propGet_eq_some_iff {α : Type} (o : Props α) (h : WellFormed o) (f : String) (v : α) :
    propGet o f = some v ↔ (f, v) ∈ o := by
  constructor
  · exact propGet_mem o f v
  · intro hm
    induction o with
    | nil => cases hm
    | cons p rest ih =>
      obtain ⟨g, w⟩ := p
      have hn : g ∉ keys rest ∧ WellFormed rest := by
        simpa [WellFormed, keys] using h
      rcases List.mem_cons.1 hm with e | e
      · cases e
        simp [propGet]
      · have hf : f ∈ keys rest := List.mem_map_of_mem Prod.fst e
        have hg : ¬ g = f := fun e2 => hn.1 (e2 ▸ hf)
        simp only [propGet, hg, if_false]
        exact ih hn.2 e

theorem wellFormed_reverse {α : Type} (o : Props α) (h : WellFormed o) : WellFormed o.reverse := by
  unfold WellFormed keys at *
  rw [List.map_reverse]
  exact List.nodup_reverse.2 h

theorem propGet_reverse {α : Type} (o : Props α) (h : WellFormed o) (f : String) :
    propGet o.reverse f = propGet o f := by
  cases hv : propGet o f with
  | none =>
    rw [propGet_eq_none_iff] at hv ⊢
    simpa [keys] using hv
  | some v =>
    rw [propGet_eq_some_iff _ (wellFormed_reverse o h)]
    rw [propGet_eq_some_iff _ h] at hv
    simpa using hv

theorem objectAssign_cons (t : JSObject) (p : String × JSVal) (e : JSObject) :
    objectAssign t (p :: e) = objectAssign (propSet t p.1 p.2) e := rfl

theorem objectAssign_append (t e1 e2 : JSObject) :
    objectAssign t (e1 ++ e2) = objectAssign (objectAssign t e1) e2 := by
  simp [objectAssign, List.foldl_append]

theorem wellFormed_objectAssign (t e : JSObject) (h : WellFormed t) :
    WellFormed (objectAssign t e) := by
  induction e generalizing t with
  | nil => exact h
  | cons p e ih =>
    rw [objectAssign_cons]
    exact ih _ (wellFormed_propSet t p.1 p.2 h)

/-- A read after `Object.assign`: the last write of the source to the field, else the field
of the target. -/
theorem propGet_objectAssign (t e : JSObject) (f : String) :
    propGet (objectAssign t e) f = (propGet e.reverse f).or (propGet t f) := by
  induction e generalizing t with
  | nil => simp [objectAssign, propGet]
  | cons p e ih =>
    obtain ⟨g, w⟩ := p
    rw [objectAssign_cons, ih, List.reverse_cons, propGet_append, propGet_propSet]
    cases propGet e.reverse f with
    | some v => simp
    | none =>
      by_cases hg : g = f <;> simp [propGet, hg]

theorem propGet_objectAssign_of_none (t e : JSObject) (f : String) (h : propGet e f = none) :
    propGet (objectAssign t e) f = propGet t f := by
  rw [propGet_objectAssign]
  have : propGet e.reverse f = none := by
    rw [propGet_eq_none_iff] at h ⊢
    simpa [keys] using h
  simp [this]

theorem propGet_objectAssign_of_some (t e : JSObject) (f : String) (v : JSVal)
    (he : WellFormed e) (h : propGet e f = some v) :
    propGet (objectAssign t e) f = some v := by
  rw [propGet_objectAssign, propGet_reverse e he, h]
  simp

theorem objectAssign_disjoint (t o : JSObject) (ho : WellFormed o)
    (hd : ∀ k ∈ keys o, k ∉ keys t) : objectAssign t o = t ++ o := by
  induction o generalizing t with
  | nil => simp [objectAssign]
  | cons p o ih =>
    obtain ⟨g, w⟩ := p
    have hn : g ∉ keys o ∧ WellFormed o := by
      simpa [WellFormed, keys] using ho
    have hg : g ∉ keys t := hd g (by simp [keys])
    rw [objectAssign_cons, propSet_of_not_mem t g w hg, ih _ hn.2]
    · simp
    · intro k hk
      have h1 : k ∉ keys t := hd k (by simp only [keys, List.map_cons, List.mem_cons]; exact Or.inr hk)
      simp only [keys, List.map_append, List.map_cons, List.map_nil, List.mem_append,
        List.mem_singleton, not_or]
      refine ⟨h1, ?_⟩
      intro e
      exact hn.1 (e ▸ hk)

theorem objectAssign_nil_left (o : JSObject) (ho : WellFormed o) : objectAssign [] o = o := by
  rw [objectAssign_disjoint [] o ho]
  · simp
  · intro k _
    simp [keys]

/-! ## The radar cache: frame, overwrite, abort -/

/-- The entry that one merge stores under the key of `e`. -/
theorem propGet_mergeOne (H : Host) (c : RadarCache) (e : JSObject) (k : String) :
    propGet (mergeOne H c e) k =
      if radarKey H e = k then
        some (objectAssign (objectAssign [] ((propGet c (radarKey H e)).getD [])) e)
      else propGet c k := by
  simp [mergeOne, propGet_propSet]

theorem wellFormedCache_mergeOne (H : Host) (c : RadarCache) (e : JSObject)
    (h : WellFormedCache c) : WellFormedCache (mergeOne H c e) := by
  refine ⟨wellFormed_propSet _ _ _ h.1, ?_⟩
  intro p hp
  rcases mem_propSet _ _ _ _ hp with hp | hp
  · rw [hp]
    exact wellFormed_objectAssign _ _ (wellFormed_objectAssign _ _ (by simp [WellFormed, keys]))
  · exact h.2 p hp

theorem wellFormedCache_mergeRadarEntries (H : Host) (c : RadarCache)
    (batch : List (Option JSObject)) (h : WellFormedCache c) :
    WellFormedCache (mergeRadarEntries H c batch) := by
  induction batch generalizing c with
  | nil => exact h
  | cons x rest ih =>
    cases x with
    | none => exact h
    | some e => exact ih _ (wellFormedCache_mergeOne H c e h)

theorem wellFormedCache_nil : WellFormedCache [] := by
  simp [WellFormedCache, WellFormed, keys]

theorem wellFormed_of_propGet (c : RadarCache) (h : WellFormedCache c) (k : String)
    (o : JSObject) (hk : propGet c k = some o) : WellFormed o :=
  h.2 (k, o) (propGet_mem c k o hk)

/-- A key of the cache is still a key after a merge. -/
theorem mergeRadarEntries_keeps_key (H : Host) (c : RadarCache) (batch : List (Option JSObject))
    (k : String) (o : JSObject) (hk : propGet c k = some o) :
    ∃ o1, propGet (mergeRadarEntries H c batch) k = some o1 := by
  induction batch generalizing c o with
  | nil => exact ⟨o, hk⟩
  | cons x rest ih =>
    cases x with
    | none => exact ⟨o, hk⟩
    | some e =>
      by_cases he : radarKey H e = k
      · exact ih (mergeOne H c e) _ (by rw [propGet_mergeOne, if_pos he])
      · exact ih (mergeOne H c e) o (by rw [propGet_mergeOne, if_neg he]; exact hk)

/-- A field that no entry of the batch with the same key supplies keeps its value. -/
theorem mergeRadarEntries_keeps_field (H : Host) (c : RadarCache) (hc : WellFormedCache c)
    (batch : List (Option JSObject)) (k : String) (o : JSObject) (f : String) (v : JSVal)
    (hk : propGet c k = some o) (hf : propGet o f = some v)
    (hno : ∀ e, some e ∈ batch → radarKey H e = k → propGet e f = none) :
    ∃ o1, propGet (mergeRadarEntries H c batch) k = some o1 ∧ propGet o1 f = some v := by
  induction batch generalizing c o with
  | nil => exact ⟨o, hk, hf⟩
  | cons x rest ih =>
    cases x with
    | none => exact ⟨o, hk, hf⟩
    | some e =>
      have hrest : ∀ e1, some e1 ∈ rest → radarKey H e1 = k → propGet e1 f = none :=
        fun e1 h1 => hno e1 (List.mem_cons_of_mem _ h1)
      have hwf := wellFormedCache_mergeOne H c e hc
      by_cases he : radarKey H e = k
      · refine ih (mergeOne H c e) hwf _ (by rw [propGet_mergeOne, if_pos he]) ?_ hrest
        have hnone : propGet e f = none := hno e (List.mem_cons_self _ _) he
        rw [propGet_objectAssign_of_none _ _ _ hnone, he, hk]
        simp only [Option.getD_some]
        rw [objectAssign_nil_left o (wellFormed_of_propGet c hc k o hk)]
        exact hf
      · exact ih (mergeOne H c e) hwf o (by rw [propGet_mergeOne, if_neg he]; exact hk) hf hrest

/-- C1. Frame property of `mergeRadarEntries`: every key `k` of a well-formed cache is still
a key after merging any batch, and a field `f` of its entry keeps its value when no entry of
the batch whose identity key is `k` supplies `f`. -/
theorem mergeRadarEntries_frame (H : Host) (c : RadarCache) (hc : WellFormedCache c)
    (batch : List (Option JSObject)) (k : String) (o : JSObject) (f : String) (v : JSVal)
    (hk : propGet c k = some o) (hf : propGet o f = some v) :
    (∃ o1, propGet (mergeRadarEntries H c batch) k = some o1) ∧
    ((∀ e, some e ∈ batch → radarKey H e = k → propGet e f = none) →
      ∃ o1, propGet (mergeRadarEntries H c batch) k = some o1 ∧ propGet o1 f = some v) :=
  ⟨mergeRadarEntries_keeps_key H c batch k o hk,
    mergeRadarEntries_keeps_field H c hc batch k o f v hk hf⟩

/-- Witness of C1: the cached `rsi` of `BTC/EUR` survives an update that carries a heat
score only. -/
theorem mergeRadarEntries_frame_witness :
    WellFormedCache sampleCache ∧
    (∃ o1, propGet (mergeRadarEntries sampleHost sampleCache [some btcHeat]) "BTC/EUR"
      = some o1) ∧
    ((∀ e, some e ∈ [some btcHeat] → radarKey sampleHost e = "BTC/EUR" → propGet e "rsi" = none) →
      ∃ o1, propGet (mergeRadarEntries sampleHost sampleCache [some btcHeat]) "BTC/EUR" = some o1
        ∧ propGet o1 "rsi" = some (JSVal.num (JSNum.fin 55))) :=
  ⟨by decide,
    mergeRadarEntries_frame sampleHost sampleCache (by decide) [some btcHeat] "BTC/EUR" btcFull
      "rsi" (JSVal.num (JSNum.fin 55)) rfl rfl⟩

/-- An entry after a `null` entry is not merged, and neither is anything else after it. -/
theorem mergeRadarEntries_append_null (H : Host) (c : RadarCache) (pre : List JSObject)
    (post : List (Option JSObject)) :
    mergeRadarEntries H c (pre.map some ++ none :: post) = mergeRadarEntries H c (pre.map some) := by
  induction pre generalizing c with
  | nil => rfl
  | cons e pre ih => exact ih (mergeOne H c e)

/-- Counterexample to C4: in the batch `[null, btcHeat]` the well-formed entry that follows
the `null` entry is not merged: the cache stays empty. -/
theorem mergeRadarEntries_null_first :
    propGet (mergeRadarEntries sampleHost [] [none, some btcHeat]) "BTC/EUR" = none ∧
    radarKey sampleHost btcHeat = "BTC/EUR" :=
  ⟨rfl, rfl⟩

/-- C4, amended. A `null` entry ends the merge of its batch: the entries before it are merged
exactly as if the batch stopped there, and the `null` entry and every entry after it are
left out, whatever they are. -/
theorem mergeRadarEntries_stops_at_null (H : Host) (c : RadarCache) (pre : List JSObject)
    (post post1 : List (Option JSObject)) :
    mergeRadarEntries H c (pre.map some ++ none :: post) = mergeRadarEntries H c (pre.map some) ∧
    mergeRadarEntries H c (pre.map some ++ none :: post) =
      mergeRadarEntries H c (pre.map some ++ none :: post1) := by
  rw [mergeRadarEntries_append_null, mergeRadarEntries_append_null]
  exact ⟨rfl, rfl⟩

theorem mem_keys_mergeOne (H : Host) (c : RadarCache) (e : JSObject) :
    radarKey H e ∈ keys (mergeOne H c e) := by
  simp [mergeOne, mem_keys_propSet]

/-- C2. Merging `e1` and then `e2`, two well-formed partial entries with the same identity
key `k`, into a well-formed cache leaves exactly one entry under `k`; that entry has every
field of `e2` with the value `e2` supplies (an incoming field overwrites whatever was
cached), and every field of `e1` that `e2` omits or repeats with the same value. -/
theorem mergeRadarEntries_union (H : Host) (c : RadarCache) (hc : WellFormedCache c)
    (e1 e2 : JSObject) (h1 : WellFormed e1) (h2 : WellFormed e2)
    (hk : radarKey H e1 = radarKey H e2) :
    (keys (mergeRadarEntries H (mergeRadarEntries H c [some e1]) [some e2])).count
      (radarKey H e1) = 1 ∧
    ∃ o, propGet (mergeRadarEntries H (mergeRadarEntries H c [some e1]) [some e2])
        (radarKey H e1) = some o ∧
      (∀ f v, propGet e2 f = some v → propGet o f = some v) ∧
      (∀ f v, propGet e1 f = some v → (propGet e2 f = none ∨ propGet e2 f = some v) →
        propGet o f = some v) := by
  have hm : mergeRadarEntries H (mergeRadarEntries H c [some e1]) [some e2]
      = mergeOne H (mergeOne H c e1) e2 := rfl
  rw [hm]
  have hw1 := wellFormedCache_mergeOne H c e1 hc
  have hw2 := wellFormedCache_mergeOne H _ e2 hw1
  refine ⟨?_, ?_⟩
  · apply List.count_eq_one_of_mem hw2.1
    rw [hk]
    exact mem_keys_mergeOne H _ e2
  · refine ⟨_, by rw [propGet_mergeOne, if_pos hk.symm], ?_, ?_⟩
    · intro f v hf
      exact propGet_objectAssign_of_some _ _ _ _ h2 hf
    · intro f v hf hor
      rcases hor with hn | hs
      · rw [propGet_objectAssign_of_none _ _ _ hn, ← hk, propGet_mergeOne, if_pos rfl]
        simp only [Option.getD_some]
        rw [objectAssign_nil_left _ (wellFormed_objectAssign _ _
          (wellFormed_objectAssign _ _ (by simp [WellFormed, keys])))]
        exact propGet_objectAssign_of_some _ _ _ _ h1 hf
      · exact propGet_objectAssign_of_some _ _ _ _ h2 hs

/-- Witness of C2: a heat-only and a volume-only update of `BTC/EUR` merged into the empty
cache. -/
theorem mergeRadarEntries_union_witness :
    WellFormedCache [] ∧ WellFormed btcHeat ∧ WellFormed btcVol ∧
    radarKey sampleHost btcHeat = radarKey sampleHost btcVol ∧
    (keys (mergeRadarEntries sampleHost (mergeRadarEntries sampleHost [] [some btcHeat])
      [some btcVol])).count (radarKey sampleHost btcHeat) = 1 ∧
    ∃ o, propGet (mergeRadarEntries sampleHost (mergeRadarEntries sampleHost [] [some btcHeat])
        [some btcVol]) (radarKey sampleHost btcHeat) = some o ∧
      (∀ f v, propGet btcVol f = some v → propGet o f = some v) ∧
      (∀ f v, propGet btcHeat f = some v → (propGet btcVol f = none ∨ propGet btcVol f = some v) →
        propGet o f = some v) :=
  ⟨by decide, by decide, by decide, rfl,
    mergeRadarEntries_union sampleHost [] (by decide) btcHeat btcVol (by decide) (by decide) rfl⟩

/-! ## Arithmetic facts -/

namespace JSNum

theorem add_eq (a b : JSNum) : a + b = add a b := rfl

theorem sub_eq (a b : JSNum) : a - b = add a (neg b) := rfl

theorem mul_eq (a b : JSNum) : a * b = mul a b := rfl

theorem div_eq (a b : JSNum) : a / b = div a b := rfl

theorem add_zero (x : JSNum) : x + fin 0 = x := by
  cases x <;> simp [add_eq, add]

theorem zero_add (x : JSNum) : fin 0 + x = x := by
  cases x <;> simp [add_eq, add]

theorem sub_self_not_gt (h : JSNum) : (h - h).gt (fin 0) = false := by
  cases h <;> simp [sub_eq, add, neg, gt, lt]

/-- For numbers other than `NaN`, the comparator `y - x` is not positive exactly when
`x >= y`. -/
theorem sub_not_gt_iff (x y : JSNum) (hx : x ≠ nan) (hy : y ≠ nan) :
    (y - x).gt (fin 0) = false ↔ x.ge y = true := by
  cases x <;> cases y <;> simp_all [sub_eq, add, neg, gt, lt, ge, le]

theorem ge_total (x y : JSNum) (hx : x ≠ nan) (hy : y ≠ nan) :
    x.ge y = true ∨ y.ge x = true := by
  cases x <;> cases y <;> simp_all [ge, le]
  exact le_total _ _

theorem ge_trans (x y z : JSNum) (h1 : x.ge y = true) (h2 : y.ge z = true) :
    x.ge z = true := by
  cases x <;> cases y <;> cases z <;> simp_all [ge, le]
  exact le_trans h2 h1

end JSNum

/-! ## The radar list: order -/

theorem pairwise_orderedInsert_of {α : Type} (r : α → α → Prop) [DecidableRel r]
    (P : α → Prop) (htot : ∀ x y, P x → P y → r x y ∨ r y x)
    (htr : ∀ x y z, P x → P y → P z → r x y → r y z → r x z)
    (a : α) (l : List α) (ha : P a) (hl : ∀ x ∈ l, P x) (hs : l.Pairwise r) :
    (l.orderedInsert r a).Pairwise r := by
  induction l with
  | nil => simp
  | cons b l ih =>
    have hb : P b := hl b (List.mem_cons_self _ _)
    have hl1 : ∀ x ∈ l, P x := fun x hx => hl x (List.mem_cons_of_mem _ hx)
    rw [List.pairwise_cons] at hs
    by_cases hab : r a b
    · rw [List.orderedInsert, if_pos hab, List.pairwise_cons]
      refine ⟨?_, List.pairwise_cons.2 hs⟩
      intro c hc
      rcases List.mem_cons.1 hc with e | e
      · exact e ▸ hab
      · exact htr a b c ha hb (hl1 c e) hab (hs.1 c e)
    · rw [List.orderedInsert, if_neg hab, List.pairwise_cons]
      refine ⟨?_, ih hl1 hs.2⟩
      intro c hc
      rcases (List.mem_orderedInsert r).1 hc with e | e
      · rw [e]
        exact (htot a b ha hb).resolve_left hab
      · exact hs.1 c e

theorem pairwise_insertionSort_of {α : Type} (r : α → α → Prop) [DecidableRel r]
    (P : α → Prop) (htot : ∀ x y, P x → P y → r x y ∨ r y x)
    (htr : ∀ x y z, P x → P y → P z → r x y → r y z → r x z)
    (l : List α) (hl : ∀ x ∈ l, P x) : (l.insertionSort r).Pairwise r := by
  induction l with
  | nil => simp
  | cons a l ih =>
    rw [List.insertionSort]
    apply pairwise_orderedInsert_of r P htot htr a _ (hl a (List.mem_cons_self _ _))
    · intro x hx
      exact hl x (List.mem_cons_of_mem _ ((List.mem_insertionSort r).1 hx))
    · exact ih (fun x hx => hl x (List.mem_cons_of_mem _ hx))

/-- A stable sort keeps the order of the elements that satisfy `p` when any two of them are
related both ways. -/
theorem filter_insertionSort_of {α : Type} (r : α → α → Prop) [DecidableRel r]
    (p : α → Bool) (hp : ∀ x y, p x = true → p y = true → r x y) (l : List α) :
    (l.insertionSort r).filter p = l.filter p := by
  have hsub : (l.filter p).Sublist (l.insertionSort r) := by
    apply List.sublist_insertionSort
    · rw [List.pairwise_iff_forall_sublist]
      intro a b hab
      have ha : a ∈ l.filter p := hab.subset (by simp)
      have hb : b ∈ l.filter p := hab.subset (by simp)
      exact hp a b (List.mem_filter.1 ha).2 (List.mem_filter.1 hb).2
    · exact List.filter_sublist l
  have hsub2 : (l.filter p).Sublist ((l.insertionSort r).filter p) := by
    have := hsub.filter p
    simpa [List.filter_filter] using this
  have hlen : ((l.insertionSort r).filter p).length = (l.filter p).length :=
    ((List.perm_insertionSort r l).filter p).length_eq
  exact (hsub2.eq_of_length hlen.symm).symm

theorem objectValues_perm {α : Type} (o : Props α) : (objectValues o).Perm (o.map Prod.snd) := by
  unfold objectValues
  simp only
  have h1 : (((o.filterMap fun p => (arrayIndex p.1).map fun n => (n, p.2)).insertionSort
      (fun a b => a.1 ≤ b.1)).map Prod.snd).Perm
      ((o.filter fun p => (arrayIndex p.1).isSome).map Prod.snd) := by
    refine ((List.perm_insertionSort _ _).map _).trans ?_
    apply List.Perm.of_eq
    induction o with
    | nil => rfl
    | cons q rest ih =>
      cases h : arrayIndex q.1 <;> simp [List.filterMap_cons, List.filter_cons, h, ih]
  refine (h1.append (List.Perm.refl _)).trans ?_
  rw [← List.map_append]
  apply List.Perm.map
  have := List.filter_append_perm (fun p : String × α => (arrayIndex p.1).isSome) o
  refine List.Perm.trans ?_ this
  apply List.Perm.append (List.Perm.refl _)
  apply List.Perm.of_eq
  apply List.filter_congr
  intro x _
  cases arrayIndex x.1 <;> simp

theorem objectValues_of_named {α : Type} (o : Props α) (h : ∀ p ∈ o, arrayIndex p.1 = none) :
    objectValues o = o.map Prod.snd := by
  unfold objectValues
  simp only
  have h1 : (o.filterMap fun p => (arrayIndex p.1).map fun n => (n, p.2)) = [] := by
    rw [List.filterMap_eq_nil_iff]
    intro p hp
    simp [h p hp]
  have h2 : (o.filter fun p => (arrayIndex p.1).isNone) = o := by
    rw [List.filter_eq_self]
    intro p hp
    simp [h p hp]
  rw [h1, h2]
  simp

/-- Counterexample to C3: `b` is inserted first and `7` second, both without a heat score,
and `getRadarList` returns the entry of `7` before the entry of `b`. -/
theorem getRadarList_index_key_first :
    mergeRadarEntries sampleHost (mergeRadarEntries sampleHost [] [some entryB])
      [some entrySeven] = [("b", entryB), ("7", entrySeven)] ∧
    heatOperand sampleHost entryB = heatOperand sampleHost entrySeven ∧
    getRadarList sampleHost (mergeRadarEntries sampleHost
      (mergeRadarEntries sampleHost [] [some entryB]) [some entrySeven])
      = [entrySeven, entryB] := by
  have hc : mergeRadarEntries sampleHost (mergeRadarEntries sampleHost [] [some entryB])
      [some entrySeven] = [("b", entryB), ("7", entrySeven)] := by decide
  have h7 : arrayIndex "7" = some 7 := by decide
  have hb : arrayIndex "b" = none := by decide
  refine ⟨hc, rfl, ?_⟩
  rw [hc]
  simp [getRadarList, objectValues, h7, hb, heatOperand, entryB, entrySeven, propGet,
    keepsBefore, heatCompare, JSNum.sub_self_not_gt]

/-- C3, amended. When the heat scores of the cached entries are numbers, `getRadarList`
returns all cached entries, ordered by non-increasing heat score (a missing score counting
as 0), and the entries of equal heat score appear in the order of `Object.values`: the
array-index keys first, in ascending numeric order, then the other keys in the order of
their first insertion. For a cache without array-index keys this is the order of first
insertion. -/
theorem getRadarList_order (H : Host) (c : RadarCache)
    (hnum : ∀ p ∈ c, heatOperand H p.2 ≠ JSNum.nan) :
    (getRadarList H c).Perm (c.map Prod.snd) ∧
    (getRadarList H c).Pairwise (fun a b => (heatOperand H a).ge (heatOperand H b) = true) ∧
    (∀ h : JSNum, (getRadarList H c).filter (fun e => decide (heatOperand H e = h)) =
      (objectValues c).filter (fun e => decide (heatOperand H e = h))) ∧
    ((∀ p ∈ c, arrayIndex p.1 = none) →
      ∀ h : JSNum, (getRadarList H c).filter (fun e => decide (heatOperand H e = h)) =
        (c.map Prod.snd).filter (fun e => decide (heatOperand H e = h))) := by
  have hvals : ∀ e ∈ objectValues c, heatOperand H e ≠ JSNum.nan := by
    intro e he
    have he1 : e ∈ c.map Prod.snd := (objectValues_perm c).subset he
    obtain ⟨p, hp, rfl⟩ := List.mem_map.1 he1
    exact hnum p hp
  have hstable : ∀ h : JSNum, (getRadarList H c).filter (fun e => decide (heatOperand H e = h)) =
      (objectValues c).filter (fun e => decide (heatOperand H e = h)) := by
    intro h
    apply filter_insertionSort_of
    intro x y hx hy
    have hx1 : heatOperand H x = h := by simpa using hx
    have hy1 : heatOperand H y = h := by simpa using hy
    show (heatOperand H y - heatOperand H x).gt (JSNum.fin 0) = false
    rw [hx1, hy1]
    exact JSNum.sub_self_not_gt h
  refine ⟨(List.perm_insertionSort _ _).trans (objectValues_perm c), ?_, hstable, ?_⟩
  · have hp := pairwise_insertionSort_of (keepsBefore H)
      (fun e => heatOperand H e ≠ JSNum.nan)
      (fun x y hx hy => by
        rcases JSNum.ge_total _ _ hx hy with h | h
        · exact Or.inl ((JSNum.sub_not_gt_iff _ _ hx hy).2 h)
        · exact Or.inr ((JSNum.sub_not_gt_iff _ _ hy hx).2 h))
      (fun x y z hx hy hz h1 h2 =>
        (JSNum.sub_not_gt_iff _ _ hx hz).2
          (JSNum.ge_trans _ _ _ ((JSNum.sub_not_gt_iff _ _ hx hy).1 h1)
            ((JSNum.sub_not_gt_iff _ _ hy hz).1 h2)))
      (objectValues c) hvals
    refine hp.imp_of_mem ?_
    intro a b ha hb hab
    have ha1 := hvals a ((List.mem_insertionSort _).1 ha)
    have hb1 := hvals b ((List.mem_insertionSort _).1 hb)
    exact (JSNum.sub_not_gt_iff _ _ ha1 hb1).1 hab
  · intro hnamed h
    rw [hstable h, objectValues_of_named c hnamed]

/-- Witness of C3, amended. Merging `a`, `7`, `b`, `c` (heat 10, 10, 90, 10) gives the list
`b, 7, a, c`: the hottest entry first, then the three entries of heat 10 in the order of
`Object.values`, the array-index key `7` before `a` and `c`. Without the key `7` the list is
`b, a, c`: the ties are in the order of first insertion. -/
theorem getRadarList_order_witness :
    mergeRadarEntries sampleHost []
      [some radarLowA, some radarLowSeven, some radarHighB, some radarLowC] = tieCache ∧
    (∀ p ∈ tieCache, heatOperand sampleHost p.2 ≠ JSNum.nan) ∧
    getRadarList sampleHost tieCache = [radarHighB, radarLowSeven, radarLowA, radarLowC] ∧
    (getRadarList sampleHost tieCache).Perm (tieCache.map Prod.snd) ∧
    (getRadarList sampleHost tieCache).Pairwise
      (fun a b => (heatOperand sampleHost a).ge (heatOperand sampleHost b) = true) ∧
    (getRadarList sampleHost tieCache).filter
        (fun e => decide (heatOperand sampleHost e = JSNum.fin 10)) =
      [radarLowSeven, radarLowA, radarLowC] ∧
    mergeRadarEntries sampleHost [] [some radarLowA, some radarHighB, some radarLowC]
      = namedTieCache ∧
    (∀ p ∈ namedTieCache, arrayIndex p.1 = none) ∧
    getRadarList sampleHost namedTieCache = [radarHighB, radarLowA, radarLowC] ∧
    (getRadarList sampleHost namedTieCache).filter
        (fun e => decide (heatOperand sampleHost e = JSNum.fin 10)) =
      [radarLowA, radarLowC] := by
  have ha : heatOperand sampleHost radarLowA = JSNum.fin 10 := by
    simp [heatOperand, radarLowA, propGet, JSVal.truthy, JSNum.truthy, JSVal.toNumber]
  have h7 : heatOperand sampleHost radarLowSeven = JSNum.fin 10 := by
    simp [heatOperand, radarLowSeven, propGet, JSVal.truthy, JSNum.truthy, JSVal.toNumber]
  have hb : heatOperand sampleHost radarHighB = JSNum.fin 90 := by
    simp [heatOperand, radarHighB, propGet, JSVal.truthy, JSNum.truthy, JSVal.toNumber]
  have hc : heatOperand sampleHost radarLowC = JSNum.fin 10 := by
    simp [heatOperand, radarLowC, propGet, JSVal.truthy, JSNum.truthy, JSVal.toNumber]
  have hnum : ∀ p ∈ tieCache, heatOperand sampleHost p.2 ≠ JSNum.nan := by
    intro p hp
    simp only [tieCache, List.mem_cons, List.mem_singleton, List.not_mem_nil, or_false] at hp
    rcases hp with hp | hp | hp | hp <;> rw [hp] <;> simp [ha, h7, hb, hc]
  have hnum2 : ∀ p ∈ namedTieCache, heatOperand sampleHost p.2 ≠ JSNum.nan := by
    intro p hp
    simp only [namedTieCache, List.mem_cons, List.mem_singleton, List.not_mem_nil,
      or_false] at hp
    rcases hp with hp | hp | hp <;> rw [hp] <;> simp [ha, hb, hc]
  have ka : arrayIndex "a" = none := by decide
  have kb : arrayIndex "b" = none := by decide
  have kc : arrayIndex "c" = none := by decide
  have k7 : arrayIndex "7" = some 7 := by decide
  have hnamed : ∀ p ∈ namedTieCache, arrayIndex p.1 = none := by
    intro p hp
    simp only [namedTieCache, List.mem_cons, List.mem_singleton, List.not_mem_nil,
      or_false] at hp
    rcases hp with hp | hp | hp <;> rw [hp] <;> assumption
  have hv : objectValues tieCache = [radarLowSeven, radarLowA, radarHighB, radarLowC] := by
    simp [objectValues, tieCache, ka, kb, kc, k7]
  have hv2 : objectValues namedTieCache = [radarLowA, radarHighB, radarLowC] := by
    rw [objectValues_of_named _ hnamed]
    rfl
  have keep : ∀ x y : JSObject, keepsBefore sampleHost x y ↔
      (heatOperand sampleHost y - heatOperand sampleHost x).gt (JSNum.fin 0) = false :=
    fun _ _ => Iff.rfl
  have hl : getRadarList sampleHost tieCache
      = [radarHighB, radarLowSeven, radarLowA, radarLowC] := by
    unfold getRadarList
    rw [hv]
    simp [List.insertionSort, List.orderedInsert, keep, ha, h7, hb, hc, JSNum.sub_eq, JSNum.add,
      JSNum.neg, JSNum.gt, JSNum.lt]
    norm_num
  have hl2 : getRadarList sampleHost namedTieCache = [radarHighB, radarLowA, radarLowC] := by
    unfold getRadarList
    rw [hv2]
    simp [List.insertionSort, List.orderedInsert, keep, ha, hb, hc, JSNum.sub_eq, JSNum.add,
      JSNum.neg, JSNum.gt, JSNum.lt]
    norm_num
  have h := getRadarList_order sampleHost tieCache hnum
  have h2 := getRadarList_order sampleHost namedTieCache hnum2
  refine ⟨by decide, hnum, hl, h.1, h.2.1, ?_, by decide, hnamed, hl2, ?_⟩
  · rw [h.2.2.1 (JSNum.fin 10), hv]
    simp [List.filter, ha, h7, hb, hc]
  · rw [h2.2.2.2 hnamed (JSNum.fin 10)]
    simp [namedTieCache, List.filter, ha, hb, hc]

/-! ## The radar cache: idempotence -/

theorem mergeRadarEntries_eq_foldl (H : Host) (c : RadarCache) (batch : List (Option JSObject)) :
    mergeRadarEntries H c batch = (reachedEntries batch).foldl (mergeOne H) c := by
  induction batch generalizing c with
  | nil => rfl
  | cons x rest ih =>
    cases x with
    | none => rfl
    | some e => exact ih (mergeOne H c e)

theorem keys_objectAssign_of_mem (t e : JSObject) (h : ∀ f ∈ keys e, f ∈ keys t) :
    keys (objectAssign t e) = keys t := by
  induction e generalizing t with
  | nil => rfl
  | cons p e ih =>
    have hp : p.1 ∈ keys t := h p.1 (by simp [keys])
    rw [objectAssign_cons, ih, keys_propSet_of_mem t p.1 p.2 hp]
    intro f hf
    rw [keys_propSet_of_mem t p.1 p.2 hp]
    exact h f (by simp only [keys, List.map_cons, List.mem_cons]; exact Or.inr hf)

theorem mem_keys_objectAssign (t e : JSObject) (f : String) :
    f ∈ keys (objectAssign t e) ↔ f ∈ keys e ∨ f ∈ keys t := by
  induction e generalizing t with
  | nil => simp [objectAssign, keys]
  | cons p e ih =>
    rw [objectAssign_cons, ih, mem_keys_propSet]
    simp only [keys, List.map_cons, List.mem_cons]
    tauto

/-- Assigning the same source twice is assigning it once. -/
theorem objectAssign_twice (x w : JSObject) (hx : WellFormed x) :
    objectAssign (objectAssign x w) w = objectAssign x w := by
  apply props_ext
  · apply keys_objectAssign_of_mem
    intro f hf
    exact (mem_keys_objectAssign x w f).2 (Or.inl hf)
  · exact wellFormed_objectAssign _ _ (wellFormed_objectAssign _ _ hx)
  · intro k
    rw [propGet_objectAssign, propGet_objectAssign]
    cases propGet w.reverse k <;> simp

theorem foldl_objectAssign (x : JSObject) (W : List JSObject) :
    W.foldl objectAssign x = objectAssign x (W.foldr (fun a b => a ++ b) []) := by
  induction W generalizing x with
  | nil => rfl
  | cons e W ih => rw [List.foldl_cons, ih, List.foldr_cons, objectAssign_append]

theorem foldl_objectAssign_twice (x : JSObject) (W : List JSObject) (hx : WellFormed x) :
    W.foldl objectAssign (W.foldl objectAssign x) = W.foldl objectAssign x := by
  rw [foldl_objectAssign x, foldl_objectAssign, objectAssign_twice x _ hx]

theorem wellFormedCache_foldl (H : Host) (c : RadarCache) (es : List JSObject)
    (h : WellFormedCache c) : WellFormedCache (es.foldl (mergeOne H) c) := by
  induction es generalizing c with
  | nil => exact h
  | cons e es ih => exact ih _ (wellFormedCache_mergeOne H c e h)

theorem wellFormed_getD (c : RadarCache) (h : WellFormedCache c) (k : String) :
    WellFormed ((propGet c k).getD []) := by
  cases hk : propGet c k with
  | none => simp [WellFormed, keys]
  | some o => exact wellFormed_of_propGet c h k o hk

/-- The entry stored by one merge, on a well-formed cache. -/
theorem propGet_mergeOne_wf (H : Host) (c : RadarCache) (hc : WellFormedCache c) (e : JSObject)
    (k : String) :
    propGet (mergeOne H c e) k =
      if radarKey H e = k then some (objectAssign ((propGet c k).getD []) e)
      else propGet c k := by
  rw [propGet_mergeOne]
  by_cases he : radarKey H e = k
  · rw [if_pos he, if_pos he, he, objectAssign_nil_left _ (wellFormed_getD c hc k)]
  · rw [if_neg he, if_neg he]

/-- The entry under `k` after a run of merges: the cached entry with the entries of key `k`
assigned in order. -/
theorem propGet_foldl_mergeOne (H : Host) (c : RadarCache) (hc : WellFormedCache c)
    (es : List JSObject) (k : String) :
    propGet (es.foldl (mergeOne H) c) k =
      if es.filter (fun e => decide (radarKey H e = k)) = [] then propGet c k
      else some ((es.filter (fun e => decide (radarKey H e = k))).foldl objectAssign
        ((propGet c k).getD [])) := by
  induction es generalizing c with
  | nil => simp
  | cons e es ih =>
    rw [List.foldl_cons, ih _ (wellFormedCache_mergeOne H c e hc), propGet_mergeOne_wf H c hc]
    by_cases he : radarKey H e = k
    · simp only [he, if_true, List.filter_cons, decide_True, Option.getD_some]
      by_cases hW : es.filter (fun e => decide (radarKey H e = k)) = []
      · simp [hW]
      · simp [hW]
    · simp [he, List.filter_cons]

theorem keys_mergeOne_of_mem (H : Host) (c : RadarCache) (e : JSObject)
    (h : radarKey H e ∈ keys c) : keys (mergeOne H c e) = keys c :=
  keys_propSet_of_mem c _ _ h

theorem mem_keys_mergeOne_of_mem (H : Host) (c : RadarCache) (e : JSObject) (k : String)
    (h : k ∈ keys c) : k ∈ keys (mergeOne H c e) :=
  (mem_keys_propSet c _ k _).2 (Or.inr h)

theorem mem_keys_foldl_of_mem (H : Host) (c : RadarCache) (es : List JSObject) (k : String)
    (h : k ∈ keys c) : k ∈ keys (es.foldl (mergeOne H) c) := by
  induction es generalizing c with
  | nil => exact h
  | cons e es ih => exact ih _ (mem_keys_mergeOne_of_mem H c e k h)

theorem radarKey_mem_keys_foldl (H : Host) (c : RadarCache) (es : List JSObject) (e : JSObject)
    (he : e ∈ es) : radarKey H e ∈ keys (es.foldl (mergeOne H) c) := by
  induction es generalizing c with
  | nil => cases he
  | cons e1 es ih =>
    rcases List.mem_cons.1 he with h | h
    · subst h
      exact mem_keys_foldl_of_mem H _ es _ (mem_keys_mergeOne H c e)
    · exact ih _ h

theorem keys_foldl_of_mem (H : Host) (c : RadarCache) (es : List JSObject)
    (h : ∀ e ∈ es, radarKey H e ∈ keys c) : keys (es.foldl (mergeOne H) c) = keys c := by
  induction es generalizing c with
  | nil => rfl
  | cons e es ih =>
    have he := h e (List.mem_cons_self _ _)
    rw [List.foldl_cons, ih, keys_mergeOne_of_mem H c e he]
    intro e1 h1
    rw [keys_mergeOne_of_mem H c e he]
    exact h e1 (List.mem_cons_of_mem _ h1)

/-- C20. Merging a batch twice in a row into a well-formed cache leaves the cache, and so
the result of `getRadarList`, as merging it once leaves them. -/
theorem mergeRadarEntries_idempotent (H : Host) (c : RadarCache) (hc : WellFormedCache c)
    (batch : List (Option JSObject)) :
    mergeRadarEntries H (mergeRadarEntries H c batch) batch = mergeRadarEntries H c batch ∧
    getRadarList H (mergeRadarEntries H (mergeRadarEntries H c batch) batch) =
      getRadarList H (mergeRadarEntries H c batch) := by
  have key : mergeRadarEntries H (mergeRadarEntries H c batch) batch
      = mergeRadarEntries H c batch := by
    rw [mergeRadarEntries_eq_foldl H c, mergeRadarEntries_eq_foldl H _ batch]
    generalize reachedEntries batch = es
    have hw1 := wellFormedCache_foldl H c es hc
    apply props_ext
    · exact keys_foldl_of_mem H _ es (fun e he => radarKey_mem_keys_foldl H c es e he)
    · exact (wellFormedCache_foldl H _ es hw1).1
    · intro k
      rw [propGet_foldl_mergeOne H _ hw1 es k, propGet_foldl_mergeOne H c hc es k]
      by_cases hW : es.filter (fun e => decide (radarKey H e = k)) = []
      · simp [hW]
      · simp only [hW, if_false, Option.getD_some]
        rw [foldl_objectAssign_twice _ _ (wellFormed_getD c hc k)]
  exact ⟨key, by rw [key]⟩

/-- Witness of C20: the heat-only and the volume-only update of `BTC/EUR`, in one batch,
merged into the cache that holds the full entry. -/
theorem mergeRadarEntries_idempotent_witness :
    WellFormedCache sampleCache ∧
    mergeRadarEntries sampleHost (mergeRadarEntries sampleHost sampleCache
      [some btcHeat, some btcVol]) [some btcHeat, some btcVol] =
      mergeRadarEntries sampleHost sampleCache [some btcHeat, some btcVol] :=
  ⟨by decide,
    (mergeRadarEntries_idempotent sampleHost sampleCache (by decide)
      [some btcHeat, some btcVol]).1⟩

/-! ## Render throttling -/

theorem tooSoon_iff (now last interval : Int) :
    tooSoon now last interval = true ↔ 0 < last ∧ now - last < interval := by
  simp [tooSoon, and_comm]

theorem renderSummary_skipped_iff (dom : Dom) (now : Int) (g : Throttle)
    (state : Option Snapshot) :
    (renderSummary dom now g state).2 = Outcome.skipped ↔
      tooSoon now g.lastSummaryUpdate SUMMARY_INTERVAL = true := by
  unfold renderSummary
  by_cases h : tooSoon now g.lastSummaryUpdate SUMMARY_INTERVAL = true
  · simp [h]
  · cases state with
    | none => simp [h]
    | some s => by_cases hd : dom.summaryMetrics = true <;> simp [h, hd]

theorem renderSlots_skipped_iff (dom : Dom) (now : Int) (g : Throttle)
    (state : Option Snapshot) :
    (renderSlots dom now g state).2 = Outcome.skipped ↔
      tooSoon now g.lastSlotsUpdate SLOTS_INTERVAL = true := by
  unfold renderSlots
  by_cases h : tooSoon now g.lastSlotsUpdate SLOTS_INTERVAL = true
  · simp [h]
  · cases state with
    | none => simp [h]
    | some s => by_cases hd : dom.slotsContainer = true <;> simp [h, hd]

theorem renderDistribution_skipped_iff (dom : Dom) (now : Int) (g : Throttle)
    (state : Option Snapshot) :
    (renderDistribution dom now g state).2 = Outcome.skipped ↔
      tooSoon now g.lastOtherUpdate OTHER_INTERVAL = true := by
  unfold renderDistribution
  by_cases h : tooSoon now g.lastOtherUpdate OTHER_INTERVAL = true
  · simp [h]
  · cases state with
    | none => by_cases hd : dom.distributionContainer = true <;> simp [h, hd]
    | some s =>
      by_cases hd : dom.distributionContainer = true <;>
      by_cases hn : noDistributionData (distributionAcc s) = true <;>
      by_cases ht : dom.distributionTableContainer = true <;> simp [h, hd, hn, ht]

/-- C5. Each throttled section returns at its guard exactly when it has rendered before
(its last-render timestamp `t` is positive) and `now - t` is below its interval: 60000 ms
for the summary, 5000 ms for the slots, 30000 ms for the distribution. So a call in the
never-rendered state renders whatever `now` is, and after a render at `t > 0` a call at
`t + interval - 1` does not render while a call at `t + interval` does. -/
theorem render_throttle (dom : Dom) (now : Int) (g : Throttle) (state : Option Snapshot) :
    ((renderSummary dom now g state).2 = Outcome.skipped ↔
      0 < g.lastSummaryUpdate ∧ now - g.lastSummaryUpdate < 60000) ∧
    ((renderSlots dom now g state).2 = Outcome.skipped ↔
      0 < g.lastSlotsUpdate ∧ now - g.lastSlotsUpdate < 5000) ∧
    ((renderDistribution dom now g state).2 = Outcome.skipped ↔
      0 < g.lastOtherUpdate ∧ now - g.lastOtherUpdate < 30000) ∧
    (∀ s : Snapshot, (renderSummary Dom.full now ⟨0, g.lastSlotsUpdate, g.lastOtherUpdate⟩
      (some s)).2 = Outcome.rendered (summaryView s)) ∧
    (∀ s : Snapshot, (renderSlots Dom.full now ⟨g.lastSummaryUpdate, 0, g.lastOtherUpdate⟩
      (some s)).2 = Outcome.rendered (slotsHtml s.tradesOrEmpty)) ∧
    (∀ n : Nat,
      (renderSummary dom ((n + 1 : Int) + 60000 - 1) ⟨n + 1, 0, 0⟩ state).2 = Outcome.skipped ∧
      (renderSummary dom ((n + 1 : Int) + 60000) ⟨n + 1, 0, 0⟩ state).2 ≠ Outcome.skipped ∧
      (renderSlots dom ((n + 1 : Int) + 5000 - 1) ⟨0, n + 1, 0⟩ state).2 = Outcome.skipped ∧
      (renderSlots dom ((n + 1 : Int) + 5000) ⟨0, n + 1, 0⟩ state).2 ≠ Outcome.skipped ∧
      (renderDistribution dom ((n + 1 : Int) + 30000 - 1) ⟨0, 0, n + 1⟩ state).2
        = Outcome.skipped ∧
      (renderDistribution dom ((n + 1 : Int) + 30000) ⟨0, 0, n + 1⟩ state).2
        ≠ Outcome.skipped) := by
  refine ⟨?_, ?_, ?_, ?_, ?_, ?_⟩
  · rw [renderSummary_skipped_iff, tooSoon_iff]; rfl
  · rw [renderSlots_skipped_iff, tooSoon_iff]; rfl
  · rw [renderDistribution_skipped_iff, tooSoon_iff]; rfl
  · intro s
    simp [renderSummary, tooSoon, Dom.full]
  · intro s
    simp [renderSlots, tooSoon, Dom.full]
  · intro n
    have hn : (0 : Int) < n + 1 := by omega
    refine ⟨?_, ?_, ?_, ?_, ?_, ?_⟩
    · rw [renderSummary_skipped_iff, tooSoon_iff]
      simp only [SUMMARY_INTERVAL]
      omega
    · rw [Ne, renderSummary_skipped_iff, tooSoon_iff]
      simp only [SUMMARY_INTERVAL]
      omega
    · rw [renderSlots_skipped_iff, tooSoon_iff]
      simp only [SLOTS_INTERVAL]
      omega
    · rw [Ne, renderSlots_skipped_iff, tooSoon_iff]
      simp only [SLOTS_INTERVAL]
      omega
    · rw [renderDistribution_skipped_iff, tooSoon_iff]
      simp only [OTHER_INTERVAL]
      omega
    · rw [Ne, renderDistribution_skipped_iff, tooSoon_iff]
      simp only [OTHER_INTERVAL]
      omega

/-- C18. A call of `renderSummary`, `renderSlots` or `renderDistribution` that returns at
its guard leaves the three timestamps as they were; a call that passes the guard leaves its
own timestamp equal to `now` and the other two unchanged, whatever happens after the guard:
a view written, an exception caught, or an exception that escapes. -/
theorem render_timestamps (dom : Dom) (now : Int) (g : Throttle) (state : Option Snapshot) :
    ((renderSummary dom now g state).2 = Outcome.skipped →
      (renderSummary dom now g state).1 = g) ∧
    ((renderSummary dom now g state).2 ≠ Outcome.skipped →
      (renderSummary dom now g state).1 = ⟨now, g.lastSlotsUpdate, g.lastOtherUpdate⟩) ∧
    ((renderSlots dom now g state).2 = Outcome.skipped →
      (renderSlots dom now g state).1 = g) ∧
    ((renderSlots dom now g state).2 ≠ Outcome.skipped →
      (renderSlots dom now g state).1 = ⟨g.lastSummaryUpdate, now, g.lastOtherUpdate⟩) ∧
    ((renderDistribution dom now g state).2 = Outcome.skipped →
      (renderDistribution dom now g state).1 = g) ∧
    ((renderDistribution dom now g state).2 ≠ Outcome.skipped →
      (renderDistribution dom now g state).1 = ⟨g.lastSummaryUpdate, g.lastSlotsUpdate, now⟩) ∧
    (renderSummary dom now ⟨0, g.lastSlotsUpdate, g.lastOtherUpdate⟩ none =
      (⟨now, g.lastSlotsUpdate, g.lastOtherUpdate⟩, Outcome.failed)) ∧
    (renderSlots dom now ⟨g.lastSummaryUpdate, 0, g.lastOtherUpdate⟩ none =
      (⟨g.lastSummaryUpdate, now, g.lastOtherUpdate⟩, Outcome.failed)) ∧
    (renderDistribution ⟨true, true, false, true, true, true⟩ now
      ⟨g.lastSummaryUpdate, g.lastSlotsUpdate, 0⟩ none =
      (⟨g.lastSummaryUpdate, g.lastSlotsUpdate, now⟩, Outcome.threw)) := by
  refine ⟨?_, ?_, ?_, ?_, ?_, ?_, ?_, ?_, ?_⟩
  · intro h
    rw [renderSummary_skipped_iff] at h
    simp [renderSummary, h]
  · intro h
    rw [Ne, renderSummary_skipped_iff] at h
    unfold renderSummary
    cases state with
    | none => simp [h]
    | some s => by_cases hd : dom.summaryMetrics = true <;> simp [h, hd]
  · intro h
    rw [renderSlots_skipped_iff] at h
    simp [renderSlots, h]
  · intro h
    rw [Ne, renderSlots_skipped_iff] at h
    unfold renderSlots
    cases state with
    | none => simp [h]
    | some s => by_cases hd : dom.slotsContainer = true <;> simp [h, hd]
  · intro h
    rw [renderDistribution_skipped_iff] at h
    simp [renderDistribution, h]
  · intro h
    rw [Ne, renderDistribution_skipped_iff] at h
    unfold renderDistribution
    cases state with
    | none => simp [h]
    | some s =>
      by_cases hn : noDistributionData (distributionAcc s) = true <;>
      by_cases hd : dom.distributionContainer = true <;>
      by_cases ht : dom.distributionTableContainer = true <;> simp [h, hd, hn, ht]
  · simp [renderSummary, tooSoon]
  · simp [renderSlots, tooSoon]
  · simp [renderDistribution, tooSoon]

/-! ## The summary totals -/

theorem numberOrZero_eq (x : JSNum) : numberOrZero x = if x.isNaN then JSNum.fin 0 else x := by
  cases x with
  | fin q => by_cases h : q = 0 <;> simp [numberOrZero, JSNum.truthy, JSNum.isNaN, h]
  | pinf => simp [numberOrZero, JSNum.truthy, JSNum.isNaN]
  | ninf => simp [numberOrZero, JSNum.truthy, JSNum.isNaN]
  | nan => simp [numberOrZero, JSNum.truthy, JSNum.isNaN]

theorem orZero_eq_getD (x : Option JSNum) (h : x ≠ some JSNum.nan) :
    orZero x = x.getD (JSNum.fin 0) := by
  cases x with
  | none => rfl
  | some n =>
    cases n with
    | fin q => by_cases hq : q = 0 <;> simp [orZero, JSNum.truthy, hq]
    | pinf => simp [orZero, JSNum.truthy]
    | ninf => simp [orZero, JSNum.truthy]
    | nan => exact absurd rfl h

/-- The loop of lines 155-161 adds `initial_fiat_value || 0` for each trade. -/
theorem summaryInversion_eq_foldl (openTrades : List Trade) (acc : JSNum) :
    openTrades.foldl
      (fun acc trade =>
        match trade.initial_fiat_value with
        | some v => if v.truthy then acc + v else acc
        | none => acc) acc =
    (openTrades.map fun t => orZero t.initial_fiat_value).foldl (fun a b => a + b) acc := by
  induction openTrades generalizing acc with
  | nil => rfl
  | cons t rest ih =>
    simp only [List.foldl_cons, List.map_cons]
    rw [ih]
    congr 1
    cases h : t.initial_fiat_value with
    | none => simp [orZero, JSNum.add_zero]
    | some v =>
      by_cases hv : v.truthy = true
      · simp [orZero, hv]
      · simp [orZero, hv, JSNum.add_zero]

theorem summaryInversion_eq (openTrades : List Trade)
    (h : ∀ t ∈ openTrades, t.initial_fiat_value ≠ some JSNum.nan) :
    summaryInversion openTrades = investmentTotal openTrades := by
  unfold summaryInversion investmentTotal
  rw [summaryInversion_eq_foldl]
  congr 1
  apply List.map_congr_left
  intro t ht
  exact orZero_eq_getD _ (h t ht)

/-- C6. For a snapshot as `JSON.parse` gives it (no field is `NaN`), the funds total that
`renderSummary` renders is free cash + investment total + gas reserve EUR value, replaced by
0 when that sum is not a number; the investment total is the sum of `initial_fiat_value`
over the open trades, a missing value counting as 0. -/
theorem summary_funds_total (dom : Dom) (now : Int) (g : Throttle) (s : Snapshot)
    (hfree : s.free_cash_eur ≠ some JSNum.nan)
    (htrades : ∀ t ∈ s.tradesOrEmpty, t.initial_fiat_value ≠ some JSNum.nan) :
    ((renderSummary dom now g (some s)).2 = Outcome.skipped ∨
      (renderSummary dom now g (some s)).2 = Outcome.failed ∨
      (renderSummary dom now g (some s)).2 = Outcome.rendered (summaryView s)) ∧
    (summaryView s).inversion = investmentTotal s.tradesOrEmpty ∧
    (summaryView s).fondos =
      (if (s.free_cash_eur.getD (JSNum.fin 0) + investmentTotal s.tradesOrEmpty
          + (summaryView s).gas).isNaN then JSNum.fin 0
       else s.free_cash_eur.getD (JSNum.fin 0) + investmentTotal s.tradesOrEmpty
          + (summaryView s).gas) := by
  refine ⟨?_, ?_, ?_⟩
  · unfold renderSummary
    by_cases h : tooSoon now g.lastSummaryUpdate SUMMARY_INTERVAL = true
    · simp [h]
    · by_cases hd : dom.summaryMetrics = true <;> simp [h, hd]
  · exact summaryInversion_eq _ htrades
  · show numberOrZero (orZero s.free_cash_eur + summaryInversion s.tradesOrEmpty
      + summaryGasEur s) = _
    rw [numberOrZero_eq, orZero_eq_getD _ hfree, summaryInversion_eq _ htrades]
    rfl

/-- Witness of C6: the end-to-end scenario, whose funds total is 100 + 50 + 0 = 150. -/
theorem summary_funds_total_witness :
    scenarioSnapshot.free_cash_eur ≠ some JSNum.nan ∧
    (∀ t ∈ scenarioSnapshot.tradesOrEmpty, t.initial_fiat_value ≠ some JSNum.nan) ∧
    (summaryView scenarioSnapshot).fondos = JSNum.fin 150 := by
  have h1 : scenarioSnapshot.free_cash_eur ≠ some JSNum.nan := by
    simp [scenarioSnapshot]
  have h2 : ∀ t ∈ scenarioSnapshot.tradesOrEmpty, t.initial_fiat_value ≠ some JSNum.nan := by
    simp [scenarioSnapshot, Snapshot.tradesOrEmpty, scenarioTrade]
  refine ⟨h1, h2, ?_⟩
  rw [(summary_funds_total Dom.full 0 Throttle.fresh scenarioSnapshot h1 h2).2.2]
  simp [scenarioSnapshot, scenarioTrade, investmentTotal, summaryView, summaryLocals,
    summaryGasEur, summaryBnbPrice, Snapshot.tradesOrEmpty, Snapshot.gasOrEmpty,
    Snapshot.balancesOrEmpty, Snapshot.pricesOrEmpty, orZero, orElse, propGet,
    JSNum.add_eq, JSNum.add, JSNum.truthy, JSNum.le, JSNum.gt, JSNum.lt, JSNum.isNaN]
  norm_num

theorem orZero_ne_nan (x : Option JSNum) : orZero x ≠ JSNum.nan := by
  cases x with
  | none => simp [orZero]
  | some n => cases n <;> simp [orZero, JSNum.truthy]; split <;> simp

theorem not_gt_zero_iff_le (v : JSNum) (h : v ≠ JSNum.nan) :
    v.gt (JSNum.fin 0) = false ↔ v.le (JSNum.fin 0) = true := by
  cases v <;> simp_all [JSNum.gt, JSNum.lt, JSNum.le]

/-- Counterexample to C7: with no gas reserve record, 3 BNB in the wallet and a BNB price of
10, the gas value of the summary is 30, not 0. -/
theorem summaryGasEur_wallet_fallback :
    walletBnbSnapshot.gas_bnb = none ∧ summaryGasEur walletBnbSnapshot = JSNum.fin 30 := by
  refine ⟨rfl, ?_⟩
  simp [summaryGasEur, walletBnbSnapshot, summaryBnbPrice, Snapshot.gasOrEmpty,
    Snapshot.balancesOrEmpty, Snapshot.pricesOrEmpty, orZero, orElse, propGet,
    JSNum.mul_eq, JSNum.mul, JSNum.truthy, JSNum.le, JSNum.gt, JSNum.lt]
  norm_num

/-- C7, amended. The gas reserve EUR value of the summary is the record's `value_eur` when
that is positive, whatever the price mapping and the amounts say; otherwise it is
`B * bnb_price` when both are positive, where `B` is the record's amount or, when that is
absent or zero, the wallet's BNB balance; otherwise it is `value_eur || 0`, which is 0 when
`value_eur` is absent or zero. In particular the gas reserve `{amount: 2, value_eur: 0}` with
no `bnb_price` gives 0. -/
theorem summaryGasEur_cases (s : Snapshot) :
    (summaryView s).gas = summaryGasEur s ∧
    summaryGasEur s =
      (if (orZero s.gasOrEmpty.value_eur).gt (JSNum.fin 0) then orZero s.gasOrEmpty.value_eur
       else if (orZero s.pricesOrEmpty.bnb_price).gt (JSNum.fin 0) &&
          (orElse s.gasOrEmpty.amount
            (orElse (propGet s.balancesOrEmpty "BNB") (JSNum.fin 0))).gt (JSNum.fin 0) then
         orElse s.gasOrEmpty.amount (orElse (propGet s.balancesOrEmpty "BNB") (JSNum.fin 0))
           * orZero s.pricesOrEmpty.bnb_price
       else orZero s.gasOrEmpty.value_eur) ∧
    summaryGasEur gasNoPriceSnapshot = JSNum.fin 0 := by
  refine ⟨rfl, ?_, ?_⟩
  · unfold summaryGasEur summaryBnbPrice
    simp only
    generalize orElse s.gasOrEmpty.amount (orElse (propGet s.balancesOrEmpty "BNB") (JSNum.fin 0))
      = B
    generalize orZero s.pricesOrEmpty.bnb_price = p
    have hv := orZero_ne_nan s.gasOrEmpty.value_eur
    cases hval : s.gasOrEmpty.value_eur with
    | none =>
      simp only [orZero, JSNum.gt, JSNum.lt, JSNum.le]
      by_cases hp : (JSNum.fin 0).lt p = true <;> by_cases hB : (JSNum.fin 0).lt B = true <;>
        simp [hp, hB, JSNum.lt, JSNum.le, JSNum.gt]
    | some v =>
      rw [hval] at hv
      by_cases hpos : v.gt (JSNum.fin 0) = true
      · have ht : v.truthy = true := by
          cases v <;> simp_all [JSNum.gt, JSNum.lt, JSNum.truthy]
          intro h0
          simp [h0] at hpos
        simp [orZero, ht, hpos]
      · have hpos1 : v.gt (JSNum.fin 0) = false := by simpa using hpos
        by_cases ht : v.truthy = true
        · have hle : v.le (JSNum.fin 0) = true := by
            have hvn : v ≠ JSNum.nan := by
              intro e
              rw [e] at ht
              simp [JSNum.truthy] at ht
            exact (not_gt_zero_iff_le v hvn).1 hpos1
          simp only [orZero, ht, if_true, hpos1, Bool.false_eq_true, if_false, Bool.and_false,
            hle, Bool.true_and, Bool.false_and]
          by_cases hp : p.gt (JSNum.fin 0) = true <;> by_cases hB : B.gt (JSNum.fin 0) = true <;>
            simp [hp, hB]
        · simp only [orZero, ht, Bool.false_eq_true, if_false, Bool.false_and, JSNum.gt,
            JSNum.lt, JSNum.le]
          by_cases hp : (JSNum.fin 0).lt p = true <;> by_cases hB : (JSNum.fin 0).lt B = true <;>
            simp [hp, hB, JSNum.lt, JSNum.le, JSNum.gt]
  · simp [summaryGasEur, gasNoPriceSnapshot, summaryBnbPrice, Snapshot.gasOrEmpty,
      Snapshot.balancesOrEmpty, Snapshot.pricesOrEmpty, orZero, orElse, propGet,
      JSNum.truthy, JSNum.le, JSNum.gt, JSNum.lt]

/-- The code at the failing input of C8. The deposit box shows `depositoTotalEur`, the sum
treasury EUR + treasury BTC x BTC price, and not the coerced `safeDeposito` of line 182: for
a treasury of `1e999` BTC and no BTC price the box receives `NaN` while `safeDeposito` is 0.
For the treasury `{total_eur: 20, total_btc: 0}` the box receives 20. -/
theorem summary_deposit_not_coerced :
    (∀ s : Snapshot, (summaryView s).deposito =
      orZero s.treasuryOrEmpty.total_eur
        + orZero s.treasuryOrEmpty.total_btc * orZero s.pricesOrEmpty.btc_price) ∧
    (summaryView hugeTreasurySnapshot).deposito = JSNum.nan ∧
    (summaryLocals hugeTreasurySnapshot).safeDeposito = JSNum.fin 0 ∧
    (summaryView scenarioSnapshot).deposito = JSNum.fin 20 := by
  refine ⟨fun s => rfl, ?_, ?_, ?_⟩
  · simp [summaryView, summaryLocals, hugeTreasurySnapshot, Snapshot.treasuryOrEmpty,
      Snapshot.pricesOrEmpty, orZero, JSNum.truthy, JSNum.add_eq, JSNum.add, JSNum.mul_eq,
      JSNum.mul, JSNum.signedInf]
  · simp [summaryLocals, hugeTreasurySnapshot, Snapshot.treasuryOrEmpty,
      Snapshot.pricesOrEmpty, orZero, numberOrZero, JSNum.truthy, JSNum.add_eq, JSNum.add,
      JSNum.mul_eq, JSNum.mul, JSNum.signedInf]
  · simp [summaryView, summaryLocals, scenarioSnapshot, Snapshot.treasuryOrEmpty,
      Snapshot.pricesOrEmpty, orZero, JSNum.truthy, JSNum.add_eq, JSNum.add, JSNum.mul_eq,
      JSNum.mul]

/-! ## The slots -/

theorem slotsHtml_eq (openTrades : List Trade) :
    slotsHtml openTrades =
      [0, 1, 2, 3].map fun (i : Nat) =>
        (⟨i, (openTrades.find? fun t => decide (t.slot_id = some (JSNum.fin (i : ℚ)))).map
          slotCard⟩ : SlotView) := by
  have h4 : List.range 4 = [0, 1, 2, 3] := by decide
  unfold slotsHtml
  rw [h4]
  apply List.map_congr_left
  intro i _
  cases openTrades.find? fun t => decide (t.slot_id = some (JSNum.fin (i : ℚ))) <;> rfl

/-- C9. For every open-trades list the slot derivation of `renderSlots` produces exactly four
views, for the indices 0, 1, 2, 3 in that order; the view of index `i` is occupied exactly
when some trade of the list has `slot_id` equal to `i`, and it then shows the first such trade
in list order. -/
theorem slotsHtml_four (dom : Dom) (now : Int) (g : Throttle) (s : Snapshot) :
    ((renderSlots dom now g (some s)).2 = Outcome.skipped ∨
      (renderSlots dom now g (some s)).2 = Outcome.failed ∨
      (renderSlots dom now g (some s)).2 = Outcome.rendered (slotsHtml s.tradesOrEmpty)) ∧
    (slotsHtml s.tradesOrEmpty).length = 4 ∧
    (slotsHtml s.tradesOrEmpty).map SlotView.index = [0, 1, 2, 3] ∧
    (∀ v ∈ slotsHtml s.tradesOrEmpty,
      (v.card.isSome = true ↔
        ∃ t ∈ s.tradesOrEmpty, t.slot_id = some (JSNum.fin (v.index : ℚ))) ∧
      v.card = (s.tradesOrEmpty.find?
        fun t => decide (t.slot_id = some (JSNum.fin (v.index : ℚ)))).map slotCard) := by
  refine ⟨?_, ?_, ?_, ?_⟩
  · unfold renderSlots
    by_cases h : tooSoon now g.lastSlotsUpdate SLOTS_INTERVAL = true
    · simp [h]
    · by_cases hd : dom.slotsContainer = true <;> simp [h, hd]
  · simp [slotsHtml_eq]
  · simp [slotsHtml_eq]
  · intro v hv
    rw [slotsHtml_eq] at hv
    obtain ⟨i, _, rfl⟩ := List.mem_map.1 hv
    refine ⟨?_, rfl⟩
    show (Option.map slotCard (List.find? (fun t => decide (t.slot_id = some (JSNum.fin (i : ℚ))))
      s.tradesOrEmpty)).isSome = true ↔ _
    cases hf : List.find? (fun t => decide (t.slot_id = some (JSNum.fin (i : ℚ))))
        s.tradesOrEmpty with
    | none =>
      have := List.find?_eq_none.1 hf
      simp only [Option.map_none', Option.isSome_none, Bool.false_eq_true, false_iff, not_exists,
        not_and]
      intro t ht
      simpa using this t ht
    | some t =>
      simp only [Option.map_some', Option.isSome_some, true_iff]
      exact ⟨t, List.mem_of_find?_eq_some hf, by simpa using List.find?_some hf⟩

/-- Counterexample to C10: a trade with initial value `Infinity` (the JSON number `1e999`)
and no current value has a percent P/L of `NaN`, not 0. -/
theorem slotCard_pnl_infinite :
    hugeTrade.current_value_eur = none ∧ (slotCard hugeTrade).pnlPercent = JSNum.nan := by
  refine ⟨rfl, ?_⟩
  simp [slotCard, hugeTrade, orZero, JSNum.truthy, JSNum.gt, JSNum.lt, JSNum.sub_eq,
    JSNum.add, JSNum.neg, JSNum.div_eq, JSNum.div, JSNum.mul_eq, JSNum.mul]

/-- C10, amended. In both slot renderers, with `initial = initial_fiat_value || 0` and
`current = current_value_eur`, or `initial` when that is absent or null, the percent P/L is
`(current - initial) / initial * 100` when `initial > 0` and 0 otherwise; hence a trade with
no `current_value_eur` and a finite initial value has P/L 0. -/
theorem slotCard_pnl (t : Trade) :
    (slotCard t).pnlPercent =
      (if (orZero t.initial_fiat_value).gt (JSNum.fin 0) then
        ((t.current_value_eur.getD (orZero t.initial_fiat_value) - orZero t.initial_fiat_value)
          / orZero t.initial_fiat_value) * JSNum.fin 100
       else JSNum.fin 0) ∧
    (eventSlotCard t).pnlPercent = (slotCard t).pnlPercent ∧
    (t.current_value_eur = none → orZero t.initial_fiat_value ≠ JSNum.pinf →
      (slotCard t).pnlPercent = JSNum.fin 0) := by
  have h1 : (slotCard t).pnlPercent =
      (if (orZero t.initial_fiat_value).gt (JSNum.fin 0) then
        ((t.current_value_eur.getD (orZero t.initial_fiat_value) - orZero t.initial_fiat_value)
          / orZero t.initial_fiat_value) * JSNum.fin 100
       else JSNum.fin 0) := by
    cases h : t.current_value_eur <;> simp [slotCard, h]
  have h2 : (eventSlotCard t).pnlPercent = (slotCard t).pnlPercent := by
    rw [h1]
    rfl
  refine ⟨h1, h2, ?_⟩
  intro hnone hfin
  rw [h1, hnone]
  simp only [Option.getD_none]
  generalize orZero t.initial_fiat_value = init at hfin
  cases init with
  | fin q =>
    by_cases hq : 0 < q
    · have hq0 : q ≠ 0 := ne_of_gt hq
      simp [JSNum.gt, JSNum.lt, hq, JSNum.sub_eq, JSNum.add, JSNum.neg, JSNum.div_eq,
        JSNum.div, hq0, JSNum.mul_eq, JSNum.mul]
    · simp [JSNum.gt, JSNum.lt, hq]
  | pinf => exact absurd rfl hfin
  | ninf => simp [JSNum.gt, JSNum.lt]
  | nan => simp [JSNum.gt, JSNum.lt]

theorem slotCard_eq_eventSlotCard (t : Trade) : slotCard t = eventSlotCard t := by
  unfold slotCard eventSlotCard
  cases hc : t.created_at with
  | none => cases hv : t.current_value_eur <;> simp
  | some created =>
    by_cases he : created = "" <;> cases hv : t.current_value_eur <;> simp [he]

theorem slotsHtml_eq_eventSlotsHtml (openTrades : List Trade) :
    slotsHtml openTrades = eventSlotsHtml openTrades := by
  unfold slotsHtml eventSlotsHtml
  apply List.map_congr_left
  intro i _
  cases openTrades.find? fun t => decide (t.slot_id = some (JSNum.fin (i : ℚ))) with
  | none => rfl
  | some t => simp [slotCard_eq_eventSlotCard]

/-- C11. For every open-trades list `L`, a call of `renderSlots` on a snapshot whose
`open_trades` is `L` either returns at its throttle guard or does exactly what
`renderSlotsFromEvent` does on the payload that carries `L`: the same four boxes, or the same
caught failure; no other field of the snapshot takes part. -/
theorem renderSlots_eq_renderSlotsFromEvent (dom : Dom) (now : Int) (g : Throttle)
    (s : Snapshot) :
    (renderSlots dom now g (some s)).2 = Outcome.skipped ∨
    (renderSlots dom now g (some s)).2 = renderSlotsFromEvent dom (some ⟨s.open_trades⟩) := by
  unfold renderSlots renderSlotsFromEvent
  by_cases h : tooSoon now g.lastSlotsUpdate SLOTS_INTERVAL = true
  · simp [h]
  · right
    by_cases hd : dom.slotsContainer = true <;>
      simp [h, hd, Snapshot.tradesOrEmpty, slotsHtml_eq_eventSlotsHtml]

/-! ## The distribution: structure of the breakdown -/

theorem objectEntries_perm {α : Type} (o : Props α) : (objectEntries o).Perm o := by
  unfold objectEntries
  simp only
  have h1 : (((o.filterMap fun p => (arrayIndex p.1).map fun n => (n, p)).insertionSort
      (fun a b => a.1 ≤ b.1)).map Prod.snd).Perm
      (o.filter fun p => (arrayIndex p.1).isSome) := by
    refine ((List.perm_insertionSort _ _).map _).trans ?_
    apply List.Perm.of_eq
    induction o with
    | nil => rfl
    | cons q rest ih =>
      cases h : arrayIndex q.1 <;> simp [List.filterMap_cons, List.filter_cons, h, ih]
  refine (h1.append (List.Perm.refl _)).trans ?_
  have := List.filter_append_perm (fun p : String × α => (arrayIndex p.1).isSome) o
  refine List.Perm.trans ?_ this
  apply List.Perm.append (List.Perm.refl _)
  apply List.Perm.of_eq
  apply List.filter_congr
  intro x _
  cases arrayIndex x.1 <;> simp

theorem mem_objectEntries {α : Type} (o : Props α) (p : String × α) :
    p ∈ objectEntries o ↔ p ∈ o :=
  (objectEntries_perm o).mem_iff

theorem push_data (acc : DistAcc) (l : DistLine) :
    (acc.push l).distributionData = acc.distributionData ++ [l] := rfl

theorem push_balanced (acc : DistAcc) (l : DistLine) (h : acc.Balanced) :
    (acc.push l).Balanced := by
  unfold DistAcc.Balanced at *
  simp only [DistAcc.push, List.map_append, List.foldl_append, List.map_cons, List.map_nil,
    List.foldl_cons, List.foldl_nil]
  rw [h]

theorem walletFold_data (s : Snapshot) (entries : Props JSNum) (acc : DistAcc) :
    (entries.foldl
      (fun acc p =>
        match walletLine s p.1 p.2 with
        | some line => acc.push line
        | none => acc) acc).distributionData =
    acc.distributionData ++ entries.filterMap fun p => walletLine s p.1 p.2 := by
  induction entries generalizing acc with
  | nil => simp
  | cons p rest ih =>
    rw [List.foldl_cons, ih]
    cases h : walletLine s p.1 p.2 with
    | none => simp [List.filterMap_cons, h]
    | some l => simp [List.filterMap_cons, h, push_data]

theorem walletFold_balanced (s : Snapshot) (entries : Props JSNum) (acc : DistAcc)
    (hacc : acc.Balanced) :
    (entries.foldl
      (fun acc p =>
        match walletLine s p.1 p.2 with
        | some line => acc.push line
        | none => acc) acc).Balanced := by
  induction entries generalizing acc with
  | nil => exact hacc
  | cons p rest ih =>
    rw [List.foldl_cons]
    apply ih
    cases h : walletLine s p.1 p.2 with
    | none => exact hacc
    | some l => exact push_balanced acc l hacc

theorem walletLoop_data (s : Snapshot) : (walletLoop s).distributionData = walletLines s := by
  unfold walletLoop walletLines
  rw [walletFold_data]
  simp

theorem pushEur_data (s : Snapshot) (acc : DistAcc) :
    (pushEur s acc).distributionData = acc.distributionData ++ pushedBy (pushEur s) := by
  unfold pushedBy pushEur
  simp only
  split <;> simp [push_data]

theorem pushTreasuryEur_data (s : Snapshot) (acc : DistAcc) :
    (pushTreasuryEur s acc).distributionData =
      acc.distributionData ++ pushedBy (pushTreasuryEur s) := by
  unfold pushedBy pushTreasuryEur
  simp only
  split <;> simp [push_data]

theorem pushTreasuryBtc_data (s : Snapshot) (acc : DistAcc) :
    (pushTreasuryBtc s acc).distributionData =
      acc.distributionData ++ pushedBy (pushTreasuryBtc s) := by
  unfold pushedBy pushTreasuryBtc
  simp only
  split
  · split <;> simp [push_data]
  · simp

theorem pushGas_data (s : Snapshot) (acc : DistAcc) :
    (pushGas s acc).distributionData = acc.distributionData ++ pushedBy (pushGas s) := by
  unfold pushedBy pushGas
  simp only
  split <;> simp [push_data]

theorem distributionAcc_data (s : Snapshot) :
    (distributionAcc s).distributionData =
      walletLines s ++ pushedBy (pushEur s) ++ pushedBy (pushTreasuryEur s)
        ++ pushedBy (pushTreasuryBtc s) ++ pushedBy (pushGas s) := by
  unfold distributionAcc
  rw [pushGas_data, pushTreasuryBtc_data, pushTreasuryEur_data, pushEur_data, walletLoop_data]

theorem distributionAcc_balanced (s : Snapshot) : (distributionAcc s).Balanced := by
  have h0 : (walletLoop s).Balanced := by
    unfold walletLoop
    apply walletFold_balanced
    simp [DistAcc.Balanced]
  have h1 : (pushEur s (walletLoop s)).Balanced := by
    unfold pushEur
    simp only
    split
    · exact push_balanced _ _ h0
    · exact h0
  have h2 : (pushTreasuryEur s (pushEur s (walletLoop s))).Balanced := by
    unfold pushTreasuryEur
    simp only
    split
    · exact push_balanced _ _ h1
    · exact h1
  have h3 : (pushTreasuryBtc s (pushTreasuryEur s (pushEur s (walletLoop s)))).Balanced := by
    unfold pushTreasuryBtc
    simp only
    split
    · split
      · exact push_balanced _ _ h2
      · exact h2
    · exact h2
  unfold distributionAcc pushGas
  simp only
  split
  · exact push_balanced _ _ h3
  · exact h3

/-! ## The distribution: the gas asset -/

theorem JSNum.truthy_of_gt_zero (g : JSNum) (h : g.gt (JSNum.fin 0) = true) :
    g.truthy = true := by
  cases g <;> simp_all [JSNum.gt, JSNum.lt, JSNum.truthy]
  intro h0
  simp [h0] at h

theorem walletLine_name (s : Snapshot) (asset : String) (amount : JSNum) (l : DistLine)
    (h : walletLine s asset amount = some l) : l.name = asset := by
  unfold walletLine at h
  simp only at h
  split at h
  · cases h
  · split at h
    · cases h
    · split at h
      · cases h
      · split at h
        · cases h
        · split at h
          · split at h
            · cases h
            · split at h
              · cases h
                rfl
              · cases h
          · cases h
            rfl

theorem getAssetPrice_bnb (s : Snapshot) : getAssetPrice s "BNB" = distBnbPrice s := by
  unfold getAssetPrice
  simp

/-- The wallet iteration for BNB when the gas reserve holds a positive amount `g`. -/
theorem walletLine_bnb (s : Snapshot) (g b : JSNum) (hg : s.gasOrEmpty.amount = some g)
    (hgpos : g.gt (JSNum.fin 0) = true) :
    walletLine s "BNB" b =
      if b.le DUST then none
      else if (distBnbPrice s).le (JSNum.fin 0) then none
      else if (b * distBnbPrice s).lt CENT then none
      else if b.le g then none
      else if ((b - g) * distBnbPrice s).ge CENT then
        some ⟨"BNB", b - g, (b - g) * distBnbPrice s, distBnbPrice s⟩
      else none := by
  have hpos : gasAmountPositive s.gasOrEmpty = true := by
    simp [gasAmountPositive, hg, hgpos, JSNum.truthy_of_gt_zero g hgpos]
  unfold walletLine
  simp only [getAssetPrice_bnb, hpos, hg, Option.getD_some]
  simp

theorem mem_walletLines (s : Snapshot) (l : DistLine) (h : l ∈ walletLines s) :
    ∃ amount, (l.name, amount) ∈ s.balancesOrEmpty ∧ walletLine s l.name amount = some l := by
  unfold walletLines at h
  obtain ⟨p, hp, hl⟩ := List.mem_filterMap.1 h
  have hn := walletLine_name s p.1 p.2 l hl
  refine ⟨p.2, ?_, ?_⟩
  · rw [hn]
    exact (mem_objectEntries _ p).1 hp
  · rw [hn]
    exact hl

theorem mem_walletLines_of (s : Snapshot) (asset : String) (amount : JSNum) (l : DistLine)
    (hmem : (asset, amount) ∈ s.balancesOrEmpty) (hl : walletLine s asset amount = some l) :
    l ∈ walletLines s := by
  unfold walletLines
  exact List.mem_filterMap.2 ⟨(asset, amount), (mem_objectEntries _ _).2 hmem, hl⟩

theorem pushedBy_pushEur_name (s : Snapshot) (l : DistLine) (h : l ∈ pushedBy (pushEur s)) :
    l.name = "EUR" := by
  unfold pushedBy pushEur at h
  simp only at h
  split at h
  · simp only [push_data, List.nil_append, List.mem_singleton] at h
    rw [h]
  · cases h

theorem pushedBy_pushTreasuryEur_name (s : Snapshot) (l : DistLine)
    (h : l ∈ pushedBy (pushTreasuryEur s)) : l.name = "Depósito EUR" := by
  unfold pushedBy pushTreasuryEur at h
  simp only at h
  split at h
  · simp only [push_data, List.nil_append, List.mem_singleton] at h
    rw [h]
  · cases h

theorem pushedBy_pushTreasuryBtc_name (s : Snapshot) (l : DistLine)
    (h : l ∈ pushedBy (pushTreasuryBtc s)) : l.name = "Depósito BTC" := by
  unfold pushedBy pushTreasuryBtc at h
  simp only at h
  split at h
  · split at h
    · simp only [push_data, List.nil_append, List.mem_singleton] at h
      rw [h]
    · cases h
  · cases h

/-- The gas step pushes a line exactly when `value_eur || 0` exceeds 0.01 and the amount is
positive; the line carries the amount of the gas reserve. -/
theorem pushedBy_pushGas (s : Snapshot) :
    pushedBy (pushGas s) =
      if (orZero s.gasOrEmpty.value_eur).gt CENT && (orZero s.gasOrEmpty.amount).gt (JSNum.fin 0)
      then
        [⟨"BNB", orZero s.gasOrEmpty.amount, orZero s.gasOrEmpty.value_eur,
          if !(distBnbPrice s).truthy || (distBnbPrice s).le (JSNum.fin 0) then
            orZero s.gasOrEmpty.value_eur / orZero s.gasOrEmpty.amount
          else distBnbPrice s⟩]
      else [] := by
  unfold pushedBy pushGas
  simp only
  split <;> simp [push_data]

theorem balance_eq_of_mem (s : Snapshot) (hwf : WellFormed s.balancesOrEmpty) (asset : String)
    (b amount : JSNum) (hb : propGet s.balancesOrEmpty asset = some b)
    (hmem : (asset, amount) ∈ s.balancesOrEmpty) : amount = b := by
  have := (propGet_eq_some_iff _ hwf asset amount).2 hmem
  rw [hb] at this
  exact (Option.some.inj this).symm

theorem mem_distributionRows (chart : Bool) (acc : DistAcc) (r : DistRow)
    (h : r ∈ distributionRows chart acc) :
    r.line ∈ acc.distributionData ∧
      r.percentage = (r.line.valueEur / acc.totalValueEur) * JSNum.fin 100 := by
  unfold distributionRows at h
  obtain ⟨p, hp, rfl⟩ := List.mem_map.1 h
  have h1 : p.2 ∈ rankedLines acc := List.snd_mem_of_mem_enum hp
  unfold rankedLines at h1
  rw [List.mem_insertionSort] at h1
  obtain ⟨item, hitem, hp2⟩ := List.mem_map.1 h1
  simp only
  rw [← hp2]
  exact ⟨hitem, rfl⟩

theorem orZero_not_gt_cent (v : JSNum) (h : v.le CENT = true) :
    (orZero (some v)).gt CENT = false := by
  cases v with
  | fin q =>
    have hq : q ≤ 1 / 100 := by simpa [JSNum.le, CENT] using h
    by_cases h0 : q = 0
    · simp [orZero, JSNum.truthy, h0, JSNum.gt, JSNum.lt, CENT]
    · simp only [orZero, JSNum.truthy, h0, ne_eq, not_false_eq_true, decide_True, if_true,
        JSNum.gt, JSNum.lt, CENT, decide_eq_false_iff_not, not_lt]
      exact hq
  | pinf => simp [JSNum.le, CENT] at h
  | ninf => simp [orZero, JSNum.truthy, JSNum.gt, JSNum.lt, CENT]
  | nan => simp [JSNum.le, CENT] at h

/-- A table is rendered only from the breakdown of the snapshot. -/
theorem renderDistribution_table (dom : Dom) (now : Int) (th : Throttle) (s : Snapshot)
    (rows : List DistRow)
    (h : (renderDistribution dom now th (some s)).2 = Outcome.rendered (DistView.table rows)) :
    rows = distributionRows dom.chart (distributionAcc s) ∧
      noDistributionData (distributionAcc s) = false := by
  unfold renderDistribution at h
  by_cases h1 : tooSoon now th.lastOtherUpdate OTHER_INTERVAL = true
  · simp [h1] at h
  · by_cases h2 : noDistributionData (distributionAcc s) = true
    · by_cases h3 : dom.distributionContainer = true <;> simp [h1, h2, h3] at h
    · by_cases h3 : dom.distributionContainer = true <;>
      by_cases h4 : dom.distributionTableContainer = true <;> simp [h1, h2, h3, h4] at h
      · exact ⟨h.symm, by simpa using h2⟩
      · exact ⟨h.symm, by simpa using h2⟩

/-- C19. When the gas reserve holds an amount `g > 0` with a `value_eur` that is absent or at
most 0.01, and the wallet holds `b` BNB with `0.0001 < b <= g`, the breakdown of
`renderDistribution` has no line named BNB, whatever the price mapping says: the wallet BNB is
skipped as already in gas, and the gas reserve line is not added. -/
theorem distribution_no_bnb_line (s : Snapshot) (g b : JSNum)
    (hwf : WellFormed s.balancesOrEmpty)
    (hg : s.gasOrEmpty.amount = some g) (hgpos : g.gt (JSNum.fin 0) = true)
    (hval : s.gasOrEmpty.value_eur = none ∨
      ∃ v, s.gasOrEmpty.value_eur = some v ∧ v.le CENT = true)
    (hb : propGet s.balancesOrEmpty "BNB" = some b)
    (_hdust : DUST.lt b = true) (hle : b.le g = true) :
    (∀ l ∈ (distributionAcc s).distributionData, l.name ≠ "BNB") ∧
    walletLine s "BNB" b = none ∧ pushedBy (pushGas s) = [] ∧
    (∀ dom now th rows,
      (renderDistribution dom now th (some s)).2 = Outcome.rendered (DistView.table rows) →
      ∀ r ∈ rows, r.line.name ≠ "BNB") := by
  have hwallet : walletLine s "BNB" b = none := by
    rw [walletLine_bnb s g b hg hgpos]
    simp [hle]
  have hgas : pushedBy (pushGas s) = [] := by
    rw [pushedBy_pushGas]
    have : (orZero s.gasOrEmpty.value_eur).gt CENT = false := by
      rcases hval with h | ⟨v, h, hv⟩
      · simp [h, orZero, JSNum.gt, JSNum.lt, CENT]
      · rw [h]
        exact orZero_not_gt_cent v hv
    simp [this]
  have hdata : ∀ l ∈ (distributionAcc s).distributionData, l.name ≠ "BNB" := by
    intro l hl
    rw [distributionAcc_data, hgas] at hl
    simp only [List.append_nil, List.mem_append] at hl
    rcases hl with ((hl | hl) | hl) | hl
    · intro hn
      obtain ⟨amount, hmem, hline⟩ := mem_walletLines s l hl
      rw [hn] at hmem hline
      rw [balance_eq_of_mem s hwf "BNB" b amount hb hmem, hwallet] at hline
      cases hline
    · rw [pushedBy_pushEur_name s l hl]
      decide
    · rw [pushedBy_pushTreasuryEur_name s l hl]
      decide
    · rw [pushedBy_pushTreasuryBtc_name s l hl]
      decide
  refine ⟨hdata, hwallet, hgas, ?_⟩
  intro dom now th rows hr r hmem
  apply hdata
  rw [(renderDistribution_table dom now th s rows hr).1] at hmem
  exact (mem_distributionRows _ _ r hmem).1

/-- Witness of C19: a gas reserve of 2 BNB without EUR value, 1 BNB in the wallet, BNB price
500. -/
theorem distribution_no_bnb_line_witness :
    WellFormed gasOnlyAmountSnapshot.balancesOrEmpty ∧
    gasOnlyAmountSnapshot.gasOrEmpty.amount = some (JSNum.fin 2) ∧
    gasOnlyAmountSnapshot.gasOrEmpty.value_eur = none ∧
    propGet gasOnlyAmountSnapshot.balancesOrEmpty "BNB" = some (JSNum.fin 1) ∧
    gasOnlyAmountSnapshot.pricesOrEmpty.bnb_price = some (JSNum.fin 500) ∧
    (∀ l ∈ (distributionAcc gasOnlyAmountSnapshot).distributionData, l.name ≠ "BNB") ∧
    walletLine gasOnlyAmountSnapshot "BNB" (JSNum.fin 1) = none ∧
    pushedBy (pushGas gasOnlyAmountSnapshot) = [] :=
  have h := distribution_no_bnb_line gasOnlyAmountSnapshot (JSNum.fin 2) (JSNum.fin 1)
    (by decide) rfl (by simp [JSNum.gt, JSNum.lt]) (Or.inl rfl) rfl
    (by simp [DUST, JSNum.lt]; norm_num) (by simp [JSNum.le])
  ⟨by decide, rfl, rfl, rfl, rfl, h.1, h.2.1, h.2.2.1⟩

/-- A positive listed `bnb_price` is the BNB price of the distribution. -/
theorem distBnbPrice_listed (s : Snapshot) (p : JSNum) (h : s.pricesOrEmpty.bnb_price = some p)
    (hp : p.gt (JSNum.fin 0) = true) : distBnbPrice s = p := by
  have ht : p.truthy = true := JSNum.truthy_of_gt_zero p hp
  have hle : p.le (JSNum.fin 0) = false := by
    cases p <;> simp_all [JSNum.gt, JSNum.lt, JSNum.le]
  simp [distBnbPrice, h, orZero, ht, hle]

/-- C13. With a gas reserve amount `g > 0`, a wallet balance `b` of BNB and a BNB price
`p > 0`: the wallet loop adds no line for BNB when `b <= g`; a wallet line for BNB, when
there is one, has amount `b - g`, EUR value `(b - g) * p` and price `p`, and `b <= g` fails;
that line is added as soon as `b` passes the dust threshold, `b * p` is not below 0.01 and
`(b - g) * p >= 0.01`. The only other line named BNB is the gas reserve line, of amount `g`,
so no part of the gas reserve's amount is counted in a wallet line. -/
theorem wallet_bnb_excess (s : Snapshot) (g b p : JSNum)
    (hwf : WellFormed s.balancesOrEmpty)
    (hg : s.gasOrEmpty.amount = some g) (hgpos : g.gt (JSNum.fin 0) = true)
    (hb : propGet s.balancesOrEmpty "BNB" = some b)
    (hp : distBnbPrice s = p) (hppos : p.gt (JSNum.fin 0) = true) :
    (b.le g = true → ∀ l ∈ walletLines s, l.name ≠ "BNB") ∧
    (∀ l ∈ walletLines s, l.name = "BNB" →
      l = ⟨"BNB", b - g, (b - g) * p, p⟩ ∧ b.le g = false) ∧
    (b.le DUST = false → (b * p).lt CENT = false → b.le g = false →
      ((b - g) * p).ge CENT = true → ⟨"BNB", b - g, (b - g) * p, p⟩ ∈ walletLines s) ∧
    (∀ l ∈ (distributionAcc s).distributionData, l.name = "BNB" →
      l ∈ walletLines s ∨ l.amount = g) := by
  have hple : p.le (JSNum.fin 0) = false := by
    cases p <;> simp_all [JSNum.gt, JSNum.lt, JSNum.le]
  have hline := walletLine_bnb s g b hg hgpos
  rw [hp] at hline
  have hmemb : ("BNB", b) ∈ s.balancesOrEmpty := propGet_mem _ _ _ hb
  have hchar : ∀ l ∈ walletLines s, l.name = "BNB" → walletLine s "BNB" b = some l := by
    intro l hl hn
    obtain ⟨amount, hmem, hwl⟩ := mem_walletLines s l hl
    rw [hn] at hmem hwl
    rw [balance_eq_of_mem s hwf "BNB" b amount hb hmem] at hwl
    exact hwl
  refine ⟨?_, ?_, ?_, ?_⟩
  · intro hle l hl hn
    have := hchar l hl hn
    rw [hline] at this
    simp [hle] at this
  · intro l hl hn
    have h1 := hchar l hl hn
    rw [hline] at h1
    by_cases hle : b.le g = true
    · simp [hle] at h1
    · have hle1 : b.le g = false := by simpa using hle
      refine ⟨?_, hle1⟩
      by_cases h2 : b.le DUST = true
      · simp [h2] at h1
      · by_cases h3 : (b * p).lt CENT = true
        · simp [h2, hple, h3] at h1
        · by_cases h4 : ((b - g) * p).ge CENT = true
          · simp only [h2, hple, h3, hle1, h4, Bool.false_eq_true, if_false, if_true,
              Option.some.injEq] at h1
            exact h1.symm
          · simp [h2, hple, h3, hle1, h4] at h1
  · intro h2 h3 h4 h5
    apply mem_walletLines_of s "BNB" b _ hmemb
    rw [hline]
    simp [h2, hple, h3, h4, h5]
  · intro l hl hn
    rw [distributionAcc_data] at hl
    simp only [List.mem_append] at hl
    rcases hl with (((hl | hl) | hl) | hl) | hl
    · exact Or.inl hl
    · rw [pushedBy_pushEur_name s l hl] at hn
      exact absurd hn (by decide)
    · rw [pushedBy_pushTreasuryEur_name s l hl] at hn
      exact absurd hn (by decide)
    · rw [pushedBy_pushTreasuryBtc_name s l hl] at hn
      exact absurd hn (by decide)
    · right
      rw [pushedBy_pushGas] at hl
      split at hl
      · simp only [List.mem_singleton] at hl
        rw [hl, hg]
        simp [orZero, JSNum.truthy_of_gt_zero g hgpos]
      · cases hl

/-- Witness of C13: a gas reserve of 2 BNB, 5 BNB in the wallet, BNB price 500: the wallet
line counts 3 BNB, worth 1500 EUR. -/
theorem wallet_bnb_excess_witness :
    WellFormed excessBnbSnapshot.balancesOrEmpty ∧
    excessBnbSnapshot.gasOrEmpty.amount = some (JSNum.fin 2) ∧
    propGet excessBnbSnapshot.balancesOrEmpty "BNB" = some (JSNum.fin 5) ∧
    distBnbPrice excessBnbSnapshot = JSNum.fin 500 ∧
    (⟨"BNB", JSNum.fin 5 - JSNum.fin 2, (JSNum.fin 5 - JSNum.fin 2) * JSNum.fin 500,
      JSNum.fin 500⟩ : DistLine) ∈ walletLines excessBnbSnapshot ∧
    (⟨"BNB", JSNum.fin 5 - JSNum.fin 2, (JSNum.fin 5 - JSNum.fin 2) * JSNum.fin 500,
      JSNum.fin 500⟩ : DistLine) = ⟨"BNB", JSNum.fin 3, JSNum.fin 1500, JSNum.fin 500⟩ := by
  have hp : distBnbPrice excessBnbSnapshot = JSNum.fin 500 := by
    simp [distBnbPrice, excessBnbSnapshot, Snapshot.pricesOrEmpty, orZero, JSNum.truthy,
      JSNum.le]
  have h := wallet_bnb_excess excessBnbSnapshot (JSNum.fin 2) (JSNum.fin 5) (JSNum.fin 500)
    (by decide) rfl (by simp [JSNum.gt, JSNum.lt]) rfl hp (by simp [JSNum.gt, JSNum.lt])
  refine ⟨by decide, rfl, rfl, hp, ?_, ?_⟩
  · apply h.2.2.1
    · simp [JSNum.le, DUST]
      norm_num
    · simp [JSNum.mul_eq, JSNum.mul, JSNum.lt, CENT]
      norm_num
    · simp [JSNum.le]
      norm_num
    · simp [JSNum.sub_eq, JSNum.add, JSNum.neg, JSNum.mul_eq, JSNum.mul, JSNum.ge, JSNum.le,
        CENT]
      norm_num
  · simp [JSNum.sub_eq, JSNum.add, JSNum.neg, JSNum.mul_eq, JSNum.mul]
    norm_num

/-! ## The distribution: thresholds -/

theorem JSNum.not_lt_of_gt (x c : JSNum) (h : x.gt c = true) : x.lt c = false := by
  cases x <;> cases c <;> simp_all [JSNum.gt, JSNum.lt]
  exact le_of_lt h

theorem JSNum.not_lt_of_ge (x c : JSNum) (h : x.ge c = true) : x.lt c = false := by
  cases x <;> cases c <;> simp_all [JSNum.ge, JSNum.le, JSNum.lt]

theorem walletLine_kept (s : Snapshot) (asset : String) (amount : JSNum) (l : DistLine)
    (h : walletLine s asset amount = some l) :
    amount.le DUST = false ∧ asset ≠ "EUR" ∧ asset ≠ "USDC" ∧
      (getAssetPrice s asset).le (JSNum.fin 0) = false ∧
      (amount * getAssetPrice s asset).lt CENT = false ∧ l.valueEur.lt CENT = false := by
  unfold walletLine at h
  simp only at h
  by_cases h1 : amount.le DUST = true
  · simp [h1] at h
  · by_cases h2 : asset = "EUR" ∨ asset = "USDC"
    · simp [h1, h2] at h
    · by_cases h3 : (getAssetPrice s asset).le (JSNum.fin 0) = true
      · simp [h1, h2, h3] at h
      · by_cases h4 : (amount * getAssetPrice s asset).lt CENT = true
        · simp [h1, h2, h3, h4] at h
        · have h2a : asset ≠ "EUR" := fun e => h2 (Or.inl e)
          have h2b : asset ≠ "USDC" := fun e => h2 (Or.inr e)
          refine ⟨by simpa using h1, h2a, h2b, by simpa using h3, by simpa using h4, ?_⟩
          simp only [h1, h2, h3, h4, Bool.false_eq_true, if_false] at h
          split at h
          · split at h
            · cases h
            · split at h
              · rename_i hge
                cases h
                exact JSNum.not_lt_of_ge _ _ hge
              · cases h
          · cases h
            simpa using h4

theorem walletLine_plain (s : Snapshot) (asset : String) (amount : JSNum)
    (h1 : asset ≠ "EUR") (h2 : asset ≠ "USDC") (h3 : asset ≠ "BNB")
    (h4 : amount.le DUST = false) (h5 : (getAssetPrice s asset).le (JSNum.fin 0) = false)
    (h6 : (amount * getAssetPrice s asset).lt CENT = false) :
    walletLine s asset amount =
      some ⟨asset, amount, amount * getAssetPrice s asset, getAssetPrice s asset⟩ := by
  unfold walletLine
  simp [h1, h2, h3, h4, h5, h6]

theorem pushedBy_pushEur (s : Snapshot) :
    pushedBy (pushEur s) =
      if (orZero (propGet s.balancesOrEmpty "EUR")
          + orZero (propGet s.balancesOrEmpty "USDC")).gt CENT then
        [⟨"EUR", orZero (propGet s.balancesOrEmpty "EUR")
            + orZero (propGet s.balancesOrEmpty "USDC"),
          orZero (propGet s.balancesOrEmpty "EUR") + orZero (propGet s.balancesOrEmpty "USDC"),
          JSNum.fin 1⟩]
      else [] := by
  unfold pushedBy pushEur
  simp only
  split <;> simp [push_data]

theorem pushedBy_pushTreasuryEur (s : Snapshot) :
    pushedBy (pushTreasuryEur s) =
      if (orZero s.treasuryOrEmpty.total_eur).gt CENT then
        [⟨"Depósito EUR", orZero s.treasuryOrEmpty.total_eur, orZero s.treasuryOrEmpty.total_eur,
          JSNum.fin 1⟩]
      else [] := by
  unfold pushedBy pushTreasuryEur
  simp only
  split <;> simp [push_data]

theorem pushedBy_pushTreasuryBtc (s : Snapshot) :
    pushedBy (pushTreasuryBtc s) =
      if (orZero s.treasuryOrEmpty.total_btc).gt SATOSHI &&
          (orZero s.pricesOrEmpty.btc_price).gt (JSNum.fin 0) &&
          (orZero s.treasuryOrEmpty.total_btc * orZero s.pricesOrEmpty.btc_price).gt CENT then
        [⟨"Depósito BTC", orZero s.treasuryOrEmpty.total_btc,
          orZero s.treasuryOrEmpty.total_btc * orZero s.pricesOrEmpty.btc_price,
          orZero s.pricesOrEmpty.btc_price⟩]
      else [] := by
  unfold pushedBy pushTreasuryBtc
  simp only
  by_cases h1 : ((orZero s.treasuryOrEmpty.total_btc).gt SATOSHI &&
      (orZero s.pricesOrEmpty.btc_price).gt (JSNum.fin 0)) = true
  · by_cases h2 : (orZero s.treasuryOrEmpty.total_btc * orZero s.pricesOrEmpty.btc_price).gt CENT
        = true
    · simp [h1, h2, push_data]
    · simp [h1, h2]
  · simp [h1]

theorem distribution_value_not_below (s : Snapshot) (l : DistLine)
    (h : l ∈ (distributionAcc s).distributionData) : l.valueEur.lt CENT = false := by
  rw [distributionAcc_data] at h
  simp only [List.mem_append] at h
  rcases h with (((h | h) | h) | h) | h
  · obtain ⟨amount, _, hl⟩ := mem_walletLines s l h
    exact (walletLine_kept s _ _ l hl).2.2.2.2.2
  · rw [pushedBy_pushEur] at h
    split at h
    · rename_i hc
      simp only [List.mem_singleton] at h
      rw [h]
      exact JSNum.not_lt_of_gt _ _ hc
    · cases h
  · rw [pushedBy_pushTreasuryEur] at h
    split at h
    · rename_i hc
      simp only [List.mem_singleton] at h
      rw [h]
      exact JSNum.not_lt_of_gt _ _ hc
    · cases h
  · rw [pushedBy_pushTreasuryBtc] at h
    split at h
    · rename_i hc
      simp only [List.mem_singleton] at h
      rw [h]
      simp only [Bool.and_eq_true] at hc
      exact JSNum.not_lt_of_gt _ _ hc.2
    · cases h
  · rw [pushedBy_pushGas] at h
    split at h
    · rename_i hc
      simp only [List.mem_singleton] at h
      rw [h]
      simp only [Bool.and_eq_true] at hc
      exact JSNum.not_lt_of_gt _ _ hc.1
    · cases h

theorem objectEntries_of_named {α : Type} (o : Props α) (h : ∀ p ∈ o, arrayIndex p.1 = none) :
    objectEntries o = o := by
  unfold objectEntries
  simp only
  have h1 : (o.filterMap fun p => (arrayIndex p.1).map fun n => (n, p)) = [] := by
    rw [List.filterMap_eq_nil_iff]
    intro p hp
    simp [h p hp]
  have h2 : (o.filter fun p => (arrayIndex p.1).isNone) = o := by
    rw [List.filter_eq_self]
    intro p hp
    simp [h p hp]
  rw [h1, h2]
  simp

/-- Counterexample to C14: a treasury of exactly 0.01 EUR is a candidate whose EUR value is
not below 0.01, and 0.0001 BTC at 20000 EUR is a priced wallet asset worth 2 EUR; both are
dropped, and each breakdown is empty. -/
theorem distribution_candidates_dropped :
    orZero centTreasurySnapshot.treasuryOrEmpty.total_eur = CENT ∧ CENT.ge CENT = true ∧
    (distributionAcc centTreasurySnapshot).distributionData = [] ∧
    propGet dustBtcSnapshot.balancesOrEmpty "BTC" = some DUST ∧
    DUST * getAssetPrice dustBtcSnapshot "BTC" = JSNum.fin 2 ∧
    (distributionAcc dustBtcSnapshot).distributionData = [] := by
  have e1 : objectEntries centTreasurySnapshot.balancesOrEmpty = [] := by decide
  have e2 : objectEntries dustBtcSnapshot.balancesOrEmpty = [("BTC", JSNum.fin (1 / 10000))] := by
    rw [objectEntries_of_named]
    · rfl
    · intro p hp
      simp only [dustBtcSnapshot, Snapshot.balancesOrEmpty, Option.getD_some,
        List.mem_singleton] at hp
      rw [hp]
      decide
  have w1 : walletLines centTreasurySnapshot = [] := by
    unfold walletLines
    rw [e1]
    rfl
  have w2 : walletLines dustBtcSnapshot = [] := by
    unfold walletLines
    rw [e2]
    simp [walletLine, DUST, JSNum.le]
  refine ⟨?_, ?_, ?_, rfl, ?_, ?_⟩
  · simp [centTreasurySnapshot, Snapshot.treasuryOrEmpty, orZero, JSNum.truthy, CENT]
  · simp [JSNum.ge, JSNum.le, CENT]
  · rw [distributionAcc_data, pushedBy_pushEur, pushedBy_pushTreasuryEur,
      pushedBy_pushTreasuryBtc, pushedBy_pushGas]
    rw [w1]
    simp [centTreasurySnapshot, Snapshot.balancesOrEmpty,
      Snapshot.treasuryOrEmpty, Snapshot.pricesOrEmpty, Snapshot.gasOrEmpty, propGet, orZero,
      JSNum.add_eq, JSNum.add, JSNum.gt, JSNum.lt, JSNum.truthy, CENT, SATOSHI]
  · simp [getAssetPrice, dustBtcSnapshot, Snapshot.pricesOrEmpty, orZero, JSNum.truthy, DUST,
      JSNum.mul_eq, JSNum.mul]
    norm_num
  · rw [distributionAcc_data, pushedBy_pushEur, pushedBy_pushTreasuryEur,
      pushedBy_pushTreasuryBtc, pushedBy_pushGas]
    rw [w2]
    simp [dustBtcSnapshot, Snapshot.balancesOrEmpty,
      Snapshot.treasuryOrEmpty, Snapshot.pricesOrEmpty, Snapshot.gasOrEmpty, propGet, orZero,
      JSNum.add_eq, JSNum.add, JSNum.gt, JSNum.lt, JSNum.truthy, CENT, SATOSHI]

/-- The wallet iteration pushes the line `l` for the entry `(asset, amount)` exactly when
none of the tests `amount <= 0.0001`, `asset` is EUR or USDC, `price <= 0`, `value < 0.01`
holds and either the asset is not BNB backed by a positive gas amount and `l` is the whole
balance, or it is, the amount is not at most the gas amount `g`, the excess is worth at
least 0.01 and `l` is the excess. -/
theorem walletLine_eq_some_iff (s : Snapshot) (asset : String) (amount : JSNum) (l : DistLine) :
    walletLine s asset amount = some l ↔
      amount.le DUST = false ∧ asset ≠ "EUR" ∧ asset ≠ "USDC" ∧
      (getAssetPrice s asset).le (JSNum.fin 0) = false ∧
      (amount * getAssetPrice s asset).lt CENT = false ∧
      ((¬ (asset = "BNB" ∧ gasAmountPositive s.gasOrEmpty = true) ∧
          l = ⟨asset, amount, amount * getAssetPrice s asset, getAssetPrice s asset⟩) ∨
        (asset = "BNB" ∧ gasAmountPositive s.gasOrEmpty = true ∧
          amount.le (s.gasOrEmpty.amount.getD (JSNum.fin 0)) = false ∧
          ((amount - s.gasOrEmpty.amount.getD (JSNum.fin 0)) * getAssetPrice s asset).ge CENT
            = true ∧
          l = ⟨asset, amount - s.gasOrEmpty.amount.getD (JSNum.fin 0),
            (amount - s.gasOrEmpty.amount.getD (JSNum.fin 0)) * getAssetPrice s asset,
            getAssetPrice s asset⟩)) := by
  unfold walletLine
  simp only
  by_cases h1 : amount.le DUST = true
  · simp [h1]
  · by_cases h2 : asset = "EUR" ∨ asset = "USDC"
    · rcases h2 with h2 | h2 <;> simp [h1, h2]
    · have h2a : asset ≠ "EUR" := fun e => h2 (Or.inl e)
      have h2b : asset ≠ "USDC" := fun e => h2 (Or.inr e)
      by_cases h3 : (getAssetPrice s asset).le (JSNum.fin 0) = true
      · simp [h1, h2a, h2b, h3]
      · by_cases h4 : (amount * getAssetPrice s asset).lt CENT = true
        · simp [h1, h2a, h2b, h3, h4]
        · by_cases h5 : asset = "BNB" ∧ gasAmountPositive s.gasOrEmpty = true
          · obtain ⟨hb, hg⟩ := h5
            subst hb
            by_cases h6 : amount.le (s.gasOrEmpty.amount.getD (JSNum.fin 0)) = true
            · simp [h1, h3, h4, hg, h6]
            · by_cases h7 : ((amount - s.gasOrEmpty.amount.getD (JSNum.fin 0))
                  * getAssetPrice s "BNB").ge CENT = true
              · simp [h1, h3, h4, hg, h6, h7]
                exact eq_comm
              · simp [h1, h3, h4, hg, h6, h7]
          · simp only [h1, h2, h3, h4, h5, Bool.false_eq_true, if_false, Option.some.injEq]
            constructor
            · intro e
              exact ⟨trivial, h2a, h2b, trivial, trivial,
                Or.inl ⟨fun h => h, e.symm⟩⟩
            · rintro ⟨-, -, -, -, -, ⟨-, e⟩ | ⟨hb, hg, -⟩⟩
              · exact e.symm
              · exact absurd ⟨hb, hg⟩ h5

theorem mem_walletLines_iff (s : Snapshot) (l : DistLine) :
    l ∈ walletLines s ↔
      ∃ asset amount, (asset, amount) ∈ s.balancesOrEmpty ∧
        walletLine s asset amount = some l := by
  unfold walletLines
  rw [List.mem_filterMap]
  constructor
  · rintro ⟨p, hp, hl⟩
    exact ⟨p.1, p.2, (mem_objectEntries _ p).1 hp, hl⟩
  · rintro ⟨asset, amount, hmem, hl⟩
    exact ⟨(asset, amount), (mem_objectEntries _ _).2 hmem, hl⟩

/-- C14, amended. The breakdown is the wallet lines followed by the merged EUR/USDC line, the
treasury EUR line, the treasury BTC line and the gas reserve line, each kept under its own
test. A line is a wallet line exactly when some entry `(asset, amount)` of the balances passes
the tests of lines 590-601 (amount not at most 0.0001, asset neither EUR nor USDC, price not at
most 0, `amount * price` not below 0.01) and either the asset is not BNB backed by a positive
gas amount and the line carries the whole amount and its value, or it is, the amount is not at
most the gas amount `g`, the excess `(amount - g) * price` is at least 0.01 and the line
carries the excess and its value. In particular wallet BNB is kept whole when the gas reserve
has no positive amount, and its excess is kept when the gas amount is positive. The merged
EUR/USDC amount and the treasury EUR must exceed 0.01; the treasury BTC needs more than
0.00000001 BTC, a positive BTC price and a value above 0.01; the gas reserve needs a
`value_eur` above 0.01 and a positive amount. No line of the breakdown has an EUR value below
0.01, and `renderDistribution` shows the no-data message exactly when it passes its guard and
the breakdown is empty or its total is at most 0. -/
theorem distribution_thresholds (s : Snapshot) :
    (distributionAcc s).distributionData =
      walletLines s ++ pushedBy (pushEur s) ++ pushedBy (pushTreasuryEur s)
        ++ pushedBy (pushTreasuryBtc s) ++ pushedBy (pushGas s) ∧
    (∀ l, l ∈ walletLines s ↔
      ∃ asset amount, (asset, amount) ∈ s.balancesOrEmpty ∧
        amount.le DUST = false ∧ asset ≠ "EUR" ∧ asset ≠ "USDC" ∧
        (getAssetPrice s asset).le (JSNum.fin 0) = false ∧
        (amount * getAssetPrice s asset).lt CENT = false ∧
        ((¬ (asset = "BNB" ∧ gasAmountPositive s.gasOrEmpty = true) ∧
            l = ⟨asset, amount, amount * getAssetPrice s asset, getAssetPrice s asset⟩) ∨
          (asset = "BNB" ∧ gasAmountPositive s.gasOrEmpty = true ∧
            amount.le (s.gasOrEmpty.amount.getD (JSNum.fin 0)) = false ∧
            ((amount - s.gasOrEmpty.amount.getD (JSNum.fin 0)) * getAssetPrice s asset).ge CENT
              = true ∧
            l = ⟨asset, amount - s.gasOrEmpty.amount.getD (JSNum.fin 0),
              (amount - s.gasOrEmpty.amount.getD (JSNum.fin 0)) * getAssetPrice s asset,
              getAssetPrice s asset⟩))) ∧
    (∀ l ∈ walletLines s, ∃ amount, (l.name, amount) ∈ s.balancesOrEmpty ∧
      amount.le DUST = false ∧ l.name ≠ "EUR" ∧ l.name ≠ "USDC" ∧
      (getAssetPrice s l.name).le (JSNum.fin 0) = false ∧
      (amount * getAssetPrice s l.name).lt CENT = false) ∧
    (∀ asset amount, (asset, amount) ∈ s.balancesOrEmpty →
      asset ≠ "EUR" → asset ≠ "USDC" →
      ¬ (asset = "BNB" ∧ gasAmountPositive s.gasOrEmpty = true) → amount.le DUST = false →
      (getAssetPrice s asset).le (JSNum.fin 0) = false →
      (amount * getAssetPrice s asset).lt CENT = false →
      (⟨asset, amount, amount * getAssetPrice s asset, getAssetPrice s asset⟩ : DistLine)
        ∈ (distributionAcc s).distributionData) ∧
    (∀ amount, ("BNB", amount) ∈ s.balancesOrEmpty →
      gasAmountPositive s.gasOrEmpty = true → amount.le DUST = false →
      (getAssetPrice s "BNB").le (JSNum.fin 0) = false →
      (amount * getAssetPrice s "BNB").lt CENT = false →
      amount.le (s.gasOrEmpty.amount.getD (JSNum.fin 0)) = false →
      ((amount - s.gasOrEmpty.amount.getD (JSNum.fin 0)) * getAssetPrice s "BNB").ge CENT
        = true →
      (⟨"BNB", amount - s.gasOrEmpty.amount.getD (JSNum.fin 0),
        (amount - s.gasOrEmpty.amount.getD (JSNum.fin 0)) * getAssetPrice s "BNB",
        getAssetPrice s "BNB"⟩ : DistLine) ∈ (distributionAcc s).distributionData) ∧
    (pushedBy (pushEur s) ≠ [] ↔
      (orZero (propGet s.balancesOrEmpty "EUR")
        + orZero (propGet s.balancesOrEmpty "USDC")).gt CENT = true) ∧
    (pushedBy (pushTreasuryEur s) ≠ [] ↔ (orZero s.treasuryOrEmpty.total_eur).gt CENT = true) ∧
    (pushedBy (pushTreasuryBtc s) ≠ [] ↔
      ((orZero s.treasuryOrEmpty.total_btc).gt SATOSHI = true ∧
        (orZero s.pricesOrEmpty.btc_price).gt (JSNum.fin 0) = true ∧
        (orZero s.treasuryOrEmpty.total_btc * orZero s.pricesOrEmpty.btc_price).gt CENT
          = true)) ∧
    (pushedBy (pushGas s) ≠ [] ↔
      ((orZero s.gasOrEmpty.value_eur).gt CENT = true ∧
        (orZero s.gasOrEmpty.amount).gt (JSNum.fin 0) = true)) ∧
    (∀ l ∈ (distributionAcc s).distributionData, l.valueEur.lt CENT = false) ∧
    (∀ now th, (renderDistribution Dom.full now th (some s)).2
        = Outcome.rendered DistView.noData ↔
      (tooSoon now th.lastOtherUpdate OTHER_INTERVAL = false ∧
        ((distributionAcc s).distributionData = [] ∨
          (distributionAcc s).totalValueEur.le (JSNum.fin 0) = true))) := by
  refine ⟨distributionAcc_data s, ?_, ?_, ?_, ?_, ?_, ?_, ?_, ?_,
    distribution_value_not_below s, ?_⟩
  · intro l
    rw [mem_walletLines_iff]
    constructor
    · rintro ⟨asset, amount, hmem, hw⟩
      exact ⟨asset, amount, hmem, (walletLine_eq_some_iff s asset amount l).1 hw⟩
    · rintro ⟨asset, amount, hmem, hw⟩
      exact ⟨asset, amount, hmem, (walletLine_eq_some_iff s asset amount l).2 hw⟩
  · intro l hl
    obtain ⟨amount, hmem, hw⟩ := mem_walletLines s l hl
    have hk := walletLine_kept s _ _ l hw
    exact ⟨amount, hmem, hk.1, hk.2.1, hk.2.2.1, hk.2.2.2.1, hk.2.2.2.2.1⟩
  · intro asset amount hmem h1 h2 h3 h4 h5 h6
    rw [distributionAcc_data]
    simp only [List.mem_append]
    exact Or.inl (Or.inl (Or.inl (Or.inl (mem_walletLines_of s asset amount _ hmem
      ((walletLine_eq_some_iff s asset amount _).2
        ⟨h4, h1, h2, h5, h6, Or.inl ⟨h3, rfl⟩⟩)))))
  · intro amount hmem hg h4 h5 h6 h7 h8
    rw [distributionAcc_data]
    simp only [List.mem_append]
    exact Or.inl (Or.inl (Or.inl (Or.inl (mem_walletLines_of s "BNB" amount _ hmem
      ((walletLine_eq_some_iff s "BNB" amount _).2
        ⟨h4, by decide, by decide, h5, h6, Or.inr ⟨rfl, hg, h7, h8, rfl⟩⟩)))))
  · rw [pushedBy_pushEur]
    split <;> simp_all
  · rw [pushedBy_pushTreasuryEur]
    split <;> simp_all
  · rw [pushedBy_pushTreasuryBtc]
    split <;> simp_all
  · rw [pushedBy_pushGas]
    split <;> simp_all
  · intro now th
    unfold renderDistribution
    by_cases h1 : tooSoon now th.lastOtherUpdate OTHER_INTERVAL = true
    · simp [h1]
    · by_cases h2 : noDistributionData (distributionAcc s) = true
      · have h2a := h2
        simp only [noDistributionData, Bool.or_eq_true, decide_eq_true_eq,
          List.length_eq_zero] at h2a
        simp [h1, h2, Dom.full, h2a]
      · have h2a := h2
        simp only [noDistributionData, Bool.or_eq_true, decide_eq_true_eq,
          List.length_eq_zero, not_or] at h2a
        simp [h1, h2, Dom.full, h2a]

/-! ## The distribution: percentages -/

theorem JSNum.finitePart_fin (q : ℚ) : (JSNum.fin q).finitePart = q := rfl

theorem foldl_add_finite (l : List JSNum) (a : ℚ) (h : ∀ x ∈ l, ∃ q, x = JSNum.fin q) :
    l.foldl (fun a b => a + b) (JSNum.fin a) = JSNum.fin (a + (l.map JSNum.finitePart).sum) := by
  induction l generalizing a with
  | nil => simp
  | cons x l ih =>
    obtain ⟨q, rfl⟩ := h x (List.mem_cons_self _ _)
    rw [List.foldl_cons]
    have : JSNum.fin a + JSNum.fin q = JSNum.fin (a + q) := rfl
    rw [this, ih _ (fun y hy => h y (List.mem_cons_of_mem _ hy))]
    simp [JSNum.finitePart, add_assoc]

theorem rows_percentages_perm (chart : Bool) (acc : DistAcc) :
    ((distributionRows chart acc).map DistRow.percentage).Perm
      (acc.distributionData.map fun item =>
        (item.valueEur / acc.totalValueEur) * JSNum.fin 100) := by
  have h1 : (distributionRows chart acc).map DistRow.percentage
      = (rankedLines acc).map Prod.snd := by
    unfold distributionRows
    rw [List.map_map]
    conv_rhs => rw [← List.enum_map_snd (rankedLines acc), List.map_map]
    rfl
  rw [h1]
  unfold rankedLines
  refine ((List.perm_insertionSort _ _).map _).trans ?_
  rw [List.map_map]
  exact List.Perm.of_eq rfl

theorem rows_lines_perm (chart : Bool) (acc : DistAcc) :
    ((distributionRows chart acc).map DistRow.line).Perm acc.distributionData := by
  have h1 : (distributionRows chart acc).map DistRow.line
      = (rankedLines acc).map Prod.fst := by
    unfold distributionRows
    rw [List.map_map]
    conv_rhs => rw [← List.enum_map_snd (rankedLines acc), List.map_map]
    rfl
  rw [h1]
  unfold rankedLines
  refine ((List.perm_insertionSort _ _).map _).trans ?_
  rw [List.map_map]
  exact List.Perm.of_eq (by simp [Function.comp_def])

theorem sum_map_div_mul (l : List ℚ) (t c : ℚ) :
    (l.map fun q => q / t * c).sum = l.sum / t * c := by
  induction l with
  | nil => simp
  | cons q l ih =>
    simp only [List.map_cons, List.sum_cons, ih]
    ring

theorem distributionAcc_halfBtc :
    distributionAcc halfBtcSnapshot =
      ⟨[⟨"BTC", JSNum.fin (1 / 2), JSNum.fin 10000, JSNum.fin 20000⟩], JSNum.fin 10000⟩ := by
  have e : objectEntries halfBtcSnapshot.balancesOrEmpty = [("BTC", JSNum.fin (1 / 2))] := by
    rw [objectEntries_of_named]
    · rfl
    · intro p hp
      simp only [halfBtcSnapshot, Snapshot.balancesOrEmpty, Option.getD_some,
        List.mem_singleton] at hp
      rw [hp]
      decide
  have hw : walletLoop halfBtcSnapshot =
      ⟨[⟨"BTC", JSNum.fin (1 / 2), JSNum.fin 10000, JSNum.fin 20000⟩], JSNum.fin 10000⟩ := by
    unfold walletLoop
    rw [e]
    simp [walletLine, getAssetPrice, halfBtcSnapshot, Snapshot.pricesOrEmpty, orZero,
      JSNum.truthy, DUST, CENT, JSNum.le, JSNum.lt, JSNum.mul_eq, JSNum.mul, DistAcc.push,
      JSNum.add_eq, JSNum.add]
    norm_num
  unfold distributionAcc
  rw [hw]
  simp [pushEur, pushTreasuryEur, pushTreasuryBtc, pushGas, halfBtcSnapshot,
    Snapshot.balancesOrEmpty, Snapshot.treasuryOrEmpty, Snapshot.pricesOrEmpty,
    Snapshot.gasOrEmpty, propGet, orZero, JSNum.truthy, JSNum.add_eq, JSNum.add, JSNum.gt,
    JSNum.lt, CENT, SATOSHI, JSNum.mul_eq, JSNum.mul]
  norm_num

theorem distributionAcc_hugeBtc :
    distributionAcc hugeBtcSnapshot =
      ⟨[⟨"BTC", JSNum.pinf, JSNum.pinf, JSNum.fin 1⟩], JSNum.pinf⟩ := by
  have e : objectEntries hugeBtcSnapshot.balancesOrEmpty = [("BTC", JSNum.pinf)] := by
    rw [objectEntries_of_named]
    · rfl
    · intro p hp
      simp only [hugeBtcSnapshot, Snapshot.balancesOrEmpty, Option.getD_some,
        List.mem_singleton] at hp
      rw [hp]
      decide
  have hw : walletLoop hugeBtcSnapshot =
      ⟨[⟨"BTC", JSNum.pinf, JSNum.pinf, JSNum.fin 1⟩], JSNum.pinf⟩ := by
    unfold walletLoop
    rw [e]
    simp [walletLine, getAssetPrice, hugeBtcSnapshot, Snapshot.pricesOrEmpty, orZero,
      JSNum.truthy, DUST, CENT, JSNum.le, JSNum.lt, JSNum.mul_eq, JSNum.mul, DistAcc.push,
      JSNum.add_eq, JSNum.add, JSNum.signedInf]
    norm_num [JSNum.add]
  unfold distributionAcc
  rw [hw]
  simp [pushEur, pushTreasuryEur, pushTreasuryBtc, pushGas, hugeBtcSnapshot,
    Snapshot.balancesOrEmpty, Snapshot.treasuryOrEmpty, Snapshot.pricesOrEmpty,
    Snapshot.gasOrEmpty, propGet, orZero, JSNum.truthy, JSNum.add_eq, JSNum.add, JSNum.gt,
    JSNum.lt, CENT, SATOSHI, JSNum.mul_eq, JSNum.mul]
  norm_num

/-- Counterexample to C12: with `1e999` BTC in the wallet, read as `Infinity`, and a BTC
price of 1 the breakdown is the single line BTC, its total `Infinity` is positive, and the
percentage of the line is `NaN`: the percentages do not sum to 100. -/
theorem distribution_percentage_nan :
    noDistributionData (distributionAcc hugeBtcSnapshot) = false ∧
    (distributionAcc hugeBtcSnapshot).totalValueEur.gt (JSNum.fin 0) = true ∧
    (renderDistribution Dom.full 0 Throttle.fresh (some hugeBtcSnapshot)).2 =
      Outcome.rendered (DistView.table
        [⟨⟨"BTC", JSNum.pinf, JSNum.pinf, JSNum.fin 1⟩, JSNum.nan, some "#00FF88"⟩]) ∧
    ((distributionRows true (distributionAcc hugeBtcSnapshot)).map DistRow.percentage).foldl
      (fun a b => a + b) (JSNum.fin 0) = JSNum.nan := by
  have hr : distributionRows true (distributionAcc hugeBtcSnapshot) =
      [⟨⟨"BTC", JSNum.pinf, JSNum.pinf, JSNum.fin 1⟩, JSNum.nan, some "#00FF88"⟩] := by
    rw [distributionAcc_hugeBtc]
    simp [distributionRows, rankedLines, List.enum, List.enumFrom, colors, JSNum.div_eq,
      JSNum.div, JSNum.mul_eq, JSNum.mul]
  have hn : noDistributionData (distributionAcc hugeBtcSnapshot) = false := by
    rw [distributionAcc_hugeBtc]
    simp [noDistributionData, JSNum.le]
  refine ⟨hn, ?_, ?_, ?_⟩
  · rw [distributionAcc_hugeBtc]
    simp [JSNum.gt, JSNum.lt]
  · simp [renderDistribution, tooSoon, Throttle.fresh, hn, Dom.full, hr]
  · rw [hr]
    simp [JSNum.add_eq, JSNum.add]

theorem distributionAcc_btcOnly (s : Snapshot)
    (hb : s.balances = some [("BTC", JSNum.fin (1 / 2))])
    (hp : s.pricesOrEmpty.btc_price = some (JSNum.fin 20000))
    (ht : s.treasury = none) (hg : s.gas_bnb = none) :
    distributionAcc s =
      ⟨[⟨"BTC", JSNum.fin (1 / 2), JSNum.fin 10000, JSNum.fin 20000⟩], JSNum.fin 10000⟩ := by
  have e : objectEntries s.balancesOrEmpty = [("BTC", JSNum.fin (1 / 2))] := by
    rw [objectEntries_of_named]
    · simp [Snapshot.balancesOrEmpty, hb]
    · intro p hp
      simp only [hb, Snapshot.balancesOrEmpty, Option.getD_some,
        List.mem_singleton] at hp
      rw [hp]
      decide
  have hw : walletLoop s =
      ⟨[⟨"BTC", JSNum.fin (1 / 2), JSNum.fin 10000, JSNum.fin 20000⟩], JSNum.fin 10000⟩ := by
    unfold walletLoop
    rw [e]
    simp [walletLine, getAssetPrice, hp, orZero,
      JSNum.truthy, DUST, CENT, JSNum.le, JSNum.lt, JSNum.mul_eq, JSNum.mul, DistAcc.push,
      JSNum.add_eq, JSNum.add]
    norm_num
  unfold distributionAcc
  rw [hw]
  simp [pushEur, pushTreasuryEur, pushTreasuryBtc, pushGas, hb, ht, hg, hp,
    Snapshot.balancesOrEmpty, Snapshot.treasuryOrEmpty,
    Snapshot.gasOrEmpty, propGet, orZero, JSNum.truthy, JSNum.add_eq, JSNum.add, JSNum.gt,
    JSNum.lt, CENT, SATOSHI, JSNum.mul_eq, JSNum.mul]
  norm_num

theorem distributionAcc_mixed :
    distributionAcc mixedSnapshot =
      ⟨[⟨"BTC", JSNum.fin (1 / 4), JSNum.fin 5000, JSNum.fin 20000⟩,
        ⟨"ETH", JSNum.fin 4, JSNum.fin 10000, JSNum.fin 2500⟩,
        ⟨"Depósito EUR", JSNum.fin 5000, JSNum.fin 5000, JSNum.fin 1⟩], JSNum.fin 20000⟩ := by
  have e : objectEntries mixedSnapshot.balancesOrEmpty
      = [("BTC", JSNum.fin (1 / 4)), ("ETH", JSNum.fin 4)] := by
    rw [objectEntries_of_named]
    · rfl
    · intro p hp
      simp only [mixedSnapshot, Snapshot.balancesOrEmpty, Option.getD_some,
        List.mem_cons, List.mem_singleton, List.not_mem_nil, or_false] at hp
      rcases hp with hp | hp <;> rw [hp] <;> decide
  have hw : walletLoop mixedSnapshot =
      ⟨[⟨"BTC", JSNum.fin (1 / 4), JSNum.fin 5000, JSNum.fin 20000⟩,
        ⟨"ETH", JSNum.fin 4, JSNum.fin 10000, JSNum.fin 2500⟩], JSNum.fin 15000⟩ := by
    unfold walletLoop
    rw [e]
    simp [walletLine, getAssetPrice, mixedSnapshot, Snapshot.pricesOrEmpty, orZero,
      JSNum.truthy, DUST, CENT, JSNum.le, JSNum.lt, JSNum.mul_eq, JSNum.mul, DistAcc.push,
      JSNum.add_eq, JSNum.add]
    norm_num
  unfold distributionAcc
  rw [hw]
  simp [pushEur, pushTreasuryEur, pushTreasuryBtc, pushGas, mixedSnapshot,
    Snapshot.balancesOrEmpty, Snapshot.treasuryOrEmpty, Snapshot.pricesOrEmpty,
    Snapshot.gasOrEmpty, propGet, orZero, JSNum.truthy, JSNum.add_eq, JSNum.add, JSNum.gt,
    JSNum.lt, CENT, SATOSHI, JSNum.mul_eq, JSNum.mul, DistAcc.push]
  norm_num

/-- The breakdown of two wallet holdings of `1e308` each is outside the range of the finite
doubles: the exact total exceeds `Number.MAX_VALUE`. -/
theorem twoLarge_not_inRange : ¬ (distributionAcc twoLargeSnapshot).InRange := by
  have e : objectEntries twoLargeSnapshot.balancesOrEmpty
      = [("BTC", JSNum.fin (10 ^ 308)), ("ETH", JSNum.fin (10 ^ 308))] := by
    rw [objectEntries_of_named]
    · rfl
    · intro p hp
      simp only [twoLargeSnapshot, Snapshot.balancesOrEmpty, Option.getD_some,
        List.mem_cons, List.mem_singleton, List.not_mem_nil, or_false] at hp
      rcases hp with hp | hp <;> rw [hp] <;> decide
  have hw : (walletLoop twoLargeSnapshot).totalValueEur = JSNum.fin (2 * 10 ^ 308) := by
    unfold walletLoop
    rw [e]
    simp [walletLine, getAssetPrice, twoLargeSnapshot, Snapshot.pricesOrEmpty, orZero,
      JSNum.truthy, DUST, CENT, JSNum.le, JSNum.lt, JSNum.mul_eq, JSNum.mul, DistAcc.push,
      JSNum.add_eq, JSNum.add]
    norm_num
  have ht : (distributionAcc twoLargeSnapshot).totalValueEur = JSNum.fin (2 * 10 ^ 308) := by
    unfold distributionAcc
    generalize walletLoop twoLargeSnapshot = w at hw
    rw [← hw]
    simp [pushEur, pushTreasuryEur, pushTreasuryBtc, pushGas, twoLargeSnapshot,
      Snapshot.balancesOrEmpty, Snapshot.treasuryOrEmpty, Snapshot.pricesOrEmpty,
      Snapshot.gasOrEmpty, propGet, orZero, JSNum.truthy, JSNum.add_eq, JSNum.add, JSNum.gt,
      JSNum.lt, CENT, SATOSHI, JSNum.mul_eq, JSNum.mul]
    norm_num
  intro h
  have h2 := h.2
  rw [ht] at h2
  simp only [JSNum.inRange, MAX_VALUE, decide_eq_true_eq] at h2
  norm_num [abs_of_pos] at h2

theorem percentKeepsBefore_fin (a b : DistLine) (p q : ℚ) :
    percentKeepsBefore (a, JSNum.fin p) (b, JSNum.fin q) ↔ q ≤ p := by
  simp [percentKeepsBefore, JSNum.sub_eq, JSNum.sub, JSNum.add, JSNum.neg, JSNum.gt, JSNum.lt]

/-- C12, amended. For every snapshot each row's percentage is its EUR value divided by the
total times 100, and the rows are the lines of the breakdown. When `renderDistribution` has a
breakdown to show (it is not empty and its total is not at most 0) and no number of the
breakdown has overflowed (the amount, price and EUR value of every line and the total are
finite and within the range of the doubles), the table it renders consists of these rows and
their percentages sum to 100. For balances `{BTC: 0.5}` with a BTC price of 20000, no treasury
and no gas, the only row is BTC with value 10000 and percentage 100. -/
theorem distribution_percentages (chart : Bool) (s : Snapshot)
    (hrange : (distributionAcc s).InRange)
    (hdata : noDistributionData (distributionAcc s) = false) :
    (∀ r ∈ distributionRows chart (distributionAcc s),
      r.line ∈ (distributionAcc s).distributionData ∧
      r.percentage = (r.line.valueEur / (distributionAcc s).totalValueEur) * JSNum.fin 100) ∧
    ((distributionRows chart (distributionAcc s)).map DistRow.line).Perm
      (distributionAcc s).distributionData ∧
    ((distributionRows chart (distributionAcc s)).map DistRow.percentage).foldl
      (fun a b => a + b) (JSNum.fin 0) = JSNum.fin 100 ∧
    (∀ dom now th, tooSoon now th.lastOtherUpdate OTHER_INTERVAL = false →
      dom.distributionTableContainer = true →
      (renderDistribution dom now th (some s)).2 =
        Outcome.rendered (DistView.table (distributionRows dom.chart (distributionAcc s)))) ∧
    (s.balances = some [("BTC", JSNum.fin (1 / 2))] →
      s.pricesOrEmpty.btc_price = some (JSNum.fin 20000) →
      s.treasury = none → s.gas_bnb = none →
      distributionRows chart (distributionAcc s) =
        [⟨⟨"BTC", JSNum.fin (1 / 2), JSNum.fin 10000, JSNum.fin 20000⟩, JSNum.fin 100,
          if chart then some "#00FF88" else none⟩]) := by
  refine ⟨fun r hr => mem_distributionRows chart _ r hr, rows_lines_perm chart _, ?_, ?_, ?_⟩
  · have hfin : ∀ l ∈ (distributionAcc s).distributionData, ∃ q, l.valueEur = JSNum.fin q := by
      intro l hl
      have h := (hrange.1 l hl).2.2
      cases hv : l.valueEur with
      | fin q => exact ⟨q, rfl⟩
      | pinf => simp [hv, JSNum.inRange] at h
      | ninf => simp [hv, JSNum.inRange] at h
      | nan => simp [hv, JSNum.inRange] at h
    generalize hacc : distributionAcc s = acc at hfin hdata
    have hbal : acc.Balanced := hacc ▸ distributionAcc_balanced s
    have hvals : ∀ x ∈ acc.distributionData.map DistLine.valueEur, ∃ q, x = JSNum.fin q := by
      intro x hx
      obtain ⟨l, hl, rfl⟩ := List.mem_map.1 hx
      exact hfin l hl
    have htot : acc.totalValueEur
        = JSNum.fin ((acc.distributionData.map fun l => l.valueEur.finitePart).sum) := by
      rw [hbal, foldl_add_finite _ 0 hvals]
      simp [List.map_map, Function.comp_def]
    generalize hT : (acc.distributionData.map fun l => l.valueEur.finitePart).sum = T at htot
    have hTpos : 0 < T := by
      have h := hdata
      simp only [noDistributionData, Bool.or_eq_false_iff, decide_eq_false_iff_not] at h
      rw [htot] at h
      simpa [JSNum.le] using h.2
    have hT0 : T ≠ 0 := ne_of_gt hTpos
    have hpct : ∀ item ∈ acc.distributionData,
        (item.valueEur / acc.totalValueEur) * JSNum.fin 100
          = JSNum.fin (item.valueEur.finitePart / T * 100) := by
      intro item hitem
      obtain ⟨q, hq⟩ := hfin item hitem
      rw [hq, htot]
      simp [JSNum.div_eq, JSNum.div, hT0, JSNum.mul_eq, JSNum.mul, JSNum.finitePart]
    have hperm := rows_percentages_perm chart acc
    have hmap : (acc.distributionData.map fun item =>
        (item.valueEur / acc.totalValueEur) * JSNum.fin 100)
        = acc.distributionData.map fun item => JSNum.fin (item.valueEur.finitePart / T * 100) :=
      List.map_congr_left hpct
    rw [hmap] at hperm
    have hrowsfin : ∀ x ∈ (distributionRows chart acc).map DistRow.percentage,
        ∃ q, x = JSNum.fin q := by
      intro x hx
      obtain ⟨item, _, rfl⟩ := List.mem_map.1 (hperm.subset hx)
      exact ⟨_, rfl⟩
    rw [foldl_add_finite _ 0 hrowsfin, (hperm.map JSNum.finitePart).sum_eq]
    simp only [List.map_map, Function.comp_def, JSNum.finitePart_fin, zero_add]
    have := sum_map_div_mul (acc.distributionData.map fun l => l.valueEur.finitePart) T 100
    rw [List.map_map] at this
    simp only [Function.comp_def] at this
    rw [this, hT]
    congr 1
    field_simp
  · intro dom now th hsoon htable
    simp [renderDistribution, hsoon, hdata, htable]
  · intro hb hp ht hg
    rw [distributionAcc_btcOnly s hb hp ht hg]
    cases chart <;>
      simp [distributionRows, rankedLines, List.enum, List.enumFrom, colors, JSNum.div_eq,
        JSNum.div, JSNum.mul_eq, JSNum.mul]

/-- Witness of C12: 0.25 BTC at 20000 EUR, 4 ETH at 2500 EUR and a treasury of 5000 EUR give
the rows ETH 50 %, BTC 25 % and treasury 25 %, which sum to 100; and 0.5 BTC at 20000 EUR
alone is rendered as the single row BTC with value 10000 and percentage 100. -/
theorem distribution_percentages_witness :
    (distributionAcc mixedSnapshot).InRange ∧
    noDistributionData (distributionAcc mixedSnapshot) = false ∧
    (distributionAcc mixedSnapshot).totalValueEur = JSNum.fin 20000 ∧
    distributionRows true (distributionAcc mixedSnapshot) =
      [⟨⟨"ETH", JSNum.fin 4, JSNum.fin 10000, JSNum.fin 2500⟩, JSNum.fin 50, some "#00FF88"⟩,
        ⟨⟨"BTC", JSNum.fin (1 / 4), JSNum.fin 5000, JSNum.fin 20000⟩, JSNum.fin 25,
          some "#FF8844"⟩,
        ⟨⟨"Depósito EUR", JSNum.fin 5000, JSNum.fin 5000, JSNum.fin 1⟩, JSNum.fin 25,
          some "#4444FF"⟩] ∧
    ((distributionRows true (distributionAcc mixedSnapshot)).map DistRow.percentage).foldl
      (fun a b => a + b) (JSNum.fin 0) = JSNum.fin 100 ∧
    (distributionAcc halfBtcSnapshot).InRange ∧
    noDistributionData (distributionAcc halfBtcSnapshot) = false ∧
    (renderDistribution Dom.full 0 Throttle.fresh (some halfBtcSnapshot)).2 =
      Outcome.rendered (DistView.table
        [⟨⟨"BTC", JSNum.fin (1 / 2), JSNum.fin 10000, JSNum.fin 20000⟩, JSNum.fin 100,
          some "#00FF88"⟩]) := by
  have hi : (distributionAcc mixedSnapshot).InRange := by
    rw [distributionAcc_mixed]
    simp only [DistAcc.InRange, JSNum.inRange, MAX_VALUE, List.mem_cons, List.mem_singleton,
      List.not_mem_nil, or_false, forall_eq_or_imp, forall_eq, decide_eq_true_eq]
    norm_num [abs_of_pos]
  have hn : noDistributionData (distributionAcc mixedSnapshot) = false := by
    rw [distributionAcc_mixed]
    simp [noDistributionData, JSNum.le]
  have hr : distributionRows true (distributionAcc mixedSnapshot) =
      [⟨⟨"ETH", JSNum.fin 4, JSNum.fin 10000, JSNum.fin 2500⟩, JSNum.fin 50, some "#00FF88"⟩,
        ⟨⟨"BTC", JSNum.fin (1 / 4), JSNum.fin 5000, JSNum.fin 20000⟩, JSNum.fin 25,
          some "#FF8844"⟩,
        ⟨⟨"Depósito EUR", JSNum.fin 5000, JSNum.fin 5000, JSNum.fin 1⟩, JSNum.fin 25,
          some "#4444FF"⟩] := by
    rw [distributionAcc_mixed]
    simp [distributionRows, rankedLines, List.enum, List.enumFrom, colors, JSNum.div_eq,
      JSNum.div, JSNum.mul_eq, JSNum.mul, List.insertionSort, List.orderedInsert]
    norm_num [percentKeepsBefore_fin]
  have hi2 : (distributionAcc halfBtcSnapshot).InRange := by
    rw [distributionAcc_halfBtc]
    simp only [DistAcc.InRange, JSNum.inRange, MAX_VALUE, List.mem_singleton, forall_eq,
      decide_eq_true_eq]
    norm_num [abs_of_pos]
  have hn2 : noDistributionData (distributionAcc halfBtcSnapshot) = false := by
    rw [distributionAcc_halfBtc]
    simp [noDistributionData, JSNum.le]
  have hhalf := (distribution_percentages true halfBtcSnapshot hi2 hn2).2.2.2
  refine ⟨hi, hn, by rw [distributionAcc_mixed], hr,
    (distribution_percentages true mixedSnapshot hi hn).2.2.1, hi2, hn2, ?_⟩
  rw [hhalf.1 Dom.full 0 Throttle.fresh (by decide) rfl,
    show Dom.full.chart = true from rfl, hhalf.2 rfl rfl rfl rfl]
  rfl

/-! ## The log -/

theorem splitNewline_ne_nil (cs : List Char) : splitNewline cs ≠ [] := by
  cases cs with
  | nil => simp [splitNewline]
  | cons c cs =>
    unfold splitNewline
    by_cases h : c = '\n'
    · simp [h]
    · cases hs : splitNewline cs <;> simp [h]

/-- Splitting on the newline loses nothing: the lines joined by newlines are the text, and no
line holds a newline. -/
theorem splitNewline_sound (cs : List Char) :
    joinNewline (splitNewline cs) = cs ∧ ∀ line ∈ splitNewline cs, '\n' ∉ line := by
  induction cs with
  | nil => simp [splitNewline, joinNewline]
  | cons c cs ih =>
    unfold splitNewline
    cases hs : splitNewline cs with
    | nil => exact absurd hs (splitNewline_ne_nil cs)
    | cons l ls =>
      rw [hs] at ih
      by_cases h : c = '\n'
      · subst h
        simp only [if_true]
        constructor
        · simp only [joinNewline, List.nil_append, ih.1]
        · intro line hl
          rcases List.mem_cons.1 hl with hl | hl
          · simp [hl]
          · exact ih.2 line hl
      · simp only [h, if_false]
        constructor
        · cases ls with
          | nil =>
            have := ih.1
            simp only [joinNewline] at this ⊢
            rw [this]
          | cons l2 ls2 =>
            have := ih.1
            simp only [joinNewline] at this ⊢
            rw [← this]
            simp
        · intro line hl
          rcases List.mem_cons.1 hl with hl | hl
          · subst hl
            have := ih.2 l (List.mem_cons_self _ _)
            simp only [List.mem_cons, not_or]
            exact ⟨fun e => h e.symm, this⟩
          · exact ih.2 line (List.mem_cons_of_mem _ hl)

theorem sliceLast50_length {α : Type} (l : List α) : (sliceLast50 l).length ≤ 50 := by
  unfold sliceLast50
  rw [List.length_drop]
  omega

theorem sliceLast50_of_short {α : Type} (l : List α) (h : l.length ≤ 50) : sliceLast50 l = l := by
  unfold sliceLast50
  have : l.length - 50 = 0 := by omega
  rw [this, List.drop_zero]

theorem sliceLast50_suffix {α : Type} (l : List α) :
    ∃ dropped, dropped ++ sliceLast50 l = l ∧ dropped.length = l.length - 50 := by
  refine ⟨l.take (l.length - 50), List.take_append_drop _ _, ?_⟩
  rw [List.length_take]
  omega

/-- C15. For a success response with body `text`, `loadBitacora` returns the lines of the
text (split on the newline) that are not blank after trimming, in their order, restricted to
the last 50: the result has at most 50 lines, none of them blank, it is the non-blank
sequence with its first `length - 50` lines dropped, and it is the whole non-blank sequence
when that has 50 lines or fewer. A response that is not a success, or a failed fetch, gives
the empty list. -/
theorem loadBitacora_last_lines (text : String) :
    (loadBitacora (some ⟨true, text⟩)).length ≤ 50 ∧
    (∀ line ∈ loadBitacora (some ⟨true, text⟩),
      trim line.toList ≠ [] ∧ '\n' ∉ line.toList ∧ line.toList ∈ splitNewline text.toList) ∧
    (∃ dropped,
      dropped ++ loadBitacora (some ⟨true, text⟩) =
        ((splitNewline text.toList).filter fun line => decide (trim line ≠ [])).map String.mk ∧
      dropped.length =
        ((splitNewline text.toList).filter fun line => decide (trim line ≠ [])).length - 50) ∧
    (((splitNewline text.toList).filter fun line => decide (trim line ≠ [])).length ≤ 50 →
      loadBitacora (some ⟨true, text⟩) =
        ((splitNewline text.toList).filter fun line => decide (trim line ≠ [])).map String.mk) ∧
    joinNewline (splitNewline text.toList) = text.toList ∧
    loadBitacora (some ⟨false, text⟩) = [] ∧ loadBitacora none = [] := by
  have hdef : loadBitacora (some ⟨true, text⟩) = sliceLast50
      (((splitNewline text.toList).filter fun line => decide (trim line ≠ [])).map String.mk) := by
    simp [loadBitacora]
  refine ⟨?_, ?_, ?_, ?_, (splitNewline_sound _).1, by simp [loadBitacora], rfl⟩
  · rw [hdef]
    exact sliceLast50_length _
  · intro line hl
    rw [hdef] at hl
    have hl1 := List.mem_of_mem_drop hl
    obtain ⟨cs, hcs, rfl⟩ := List.mem_map.1 hl1
    obtain ⟨hmem, hnb⟩ := List.mem_filter.1 hcs
    exact ⟨by simpa using hnb, (splitNewline_sound _).2 cs hmem, hmem⟩
  · rw [hdef]
    obtain ⟨d, hd, hlen⟩ := sliceLast50_suffix
      (((splitNewline text.toList).filter fun line => decide (trim line ≠ [])).map String.mk)
    exact ⟨d, hd, by simpa using hlen⟩
  · intro h
    rw [hdef]
    exact sliceLast50_of_short _ (by simpa using h)

/-! ## The snapshot fetcher -/

theorem loadBitacora_sample : loadBitacora (some sampleLog) = ["buy BTC", "sell ETH"] := by
  decide

/-- The result and the steps of `loadState`, by cases on the answers to the three fetches. -/
theorem loadState_cases {α : Type} (server : Nat → FetchResult α) :
    loadState server =
      match server 0 with
      | FetchResult.networkError => (none, [Effect.fetch, Effect.showError])
      | FetchResult.response false _ => (none, [Effect.fetch, Effect.showError])
      | FetchResult.response true (some d) => (some d, [Effect.fetch, Effect.parse])
      | FetchResult.response true none =>
        match server 1 with
        | FetchResult.networkError =>
          (none, [Effect.fetch, Effect.parse, Effect.sleep 100, Effect.fetch, Effect.showError])
        | FetchResult.response false _ =>
          (none, [Effect.fetch, Effect.parse, Effect.sleep 100, Effect.fetch, Effect.showError])
        | FetchResult.response true (some d) =>
          (some d, [Effect.fetch, Effect.parse, Effect.sleep 100, Effect.fetch, Effect.parse])
        | FetchResult.response true none =>
          match server 2 with
          | FetchResult.networkError =>
            (none, [Effect.fetch, Effect.parse, Effect.sleep 100, Effect.fetch, Effect.parse,
              Effect.sleep 200, Effect.fetch, Effect.showError])
          | FetchResult.response false _ =>
            (none, [Effect.fetch, Effect.parse, Effect.sleep 100, Effect.fetch, Effect.parse,
              Effect.sleep 200, Effect.fetch, Effect.showError])
          | FetchResult.response true (some d) => (some d, fullAttempts)
          | FetchResult.response true none => (none, fullAttempts ++ [Effect.showError]) := by
  unfold loadState
  cases h0 : server 0 with
  | networkError => rfl
  | response ok json =>
    cases ok with
    | false => rfl
    | true =>
      cases json with
      | some d => rfl
      | none =>
        simp only [if_true, maxRetries, parseLoop]
        cases h1 : server 1 with
        | networkError => simp [h1]
        | response ok1 json1 =>
          cases ok1 with
          | false => simp [h1]
          | true =>
            cases json1 with
            | some d => simp [h1, parseLoop]
            | none =>
              simp only [h1, parseLoop, if_true]
              cases h2 : server 2 with
              | networkError => simp [h2]
              | response ok2 json2 =>
                cases ok2 with
                | false => simp [h2]
                | true =>
                  cases json2 with
                  | some d => simp [h2, parseLoop, fullAttempts]
                  | none => simp [h2, parseLoop, fullAttempts]

/-- C16. One call of `loadState` fetches at most 3 times; its steps, the error message apart,
are an initial part of fetch, parse, wait 100 ms, fetch, parse, wait 200 ms, fetch, parse (a
new fetch before every new parse); it returns a document `d` exactly when `d` is the parse of
the first body that parses, all earlier bodies of this call having been fetched with success
and failed to parse; in every other case (a response that is not a success, a failed fetch,
three bodies that fail to parse) it returns `null` after showing the error. -/
theorem loadState_retries {α : Type} (server : Nat → FetchResult α) :
    (loadState server).2.count Effect.fetch ≤ 3 ∧
    (loadState server).2.filter (fun e => decide (e ≠ Effect.showError)) =
      fullAttempts.take ((loadState server).2.filter
        (fun e => decide (e ≠ Effect.showError))).length ∧
    (∀ d, (loadState server).1 = some d ↔
      (server 0 = FetchResult.response true (some d) ∨
        (server 0 = FetchResult.response true none ∧
          server 1 = FetchResult.response true (some d)) ∨
        (server 0 = FetchResult.response true none ∧ server 1 = FetchResult.response true none ∧
          server 2 = FetchResult.response true (some d)))) ∧
    ((loadState server).1 = none ↔ Effect.showError ∈ (loadState server).2) ∧
    ((server 0 = FetchResult.response true none ∧ server 1 = FetchResult.response true none ∧
        server 2 = FetchResult.response true none) →
      loadState server = (none, fullAttempts ++ [Effect.showError])) := by
  rw [loadState_cases]
  cases h0 : server 0 with
  | networkError =>
    refine ⟨?_, ?_, ?_, ?_, ?_⟩ <;> simp [fullAttempts]
  | response ok json =>
    cases ok with
    | false => refine ⟨?_, ?_, ?_, ?_, ?_⟩ <;> simp [fullAttempts]
    | true =>
      cases json with
      | some d0 => refine ⟨?_, ?_, ?_, ?_, ?_⟩ <;> simp [fullAttempts]
      | none =>
        cases h1 : server 1 with
        | networkError => refine ⟨?_, ?_, ?_, ?_, ?_⟩ <;> simp [fullAttempts]
        | response ok1 json1 =>
          cases ok1 with
          | false => refine ⟨?_, ?_, ?_, ?_, ?_⟩ <;> simp [fullAttempts]
          | true =>
            cases json1 with
            | some d1 => refine ⟨?_, ?_, ?_, ?_, ?_⟩ <;> simp [fullAttempts]
            | none =>
              cases h2 : server 2 with
              | networkError => refine ⟨?_, ?_, ?_, ?_, ?_⟩ <;> simp [fullAttempts]
              | response ok2 json2 =>
                cases ok2 with
                | false => refine ⟨?_, ?_, ?_, ?_, ?_⟩ <;> simp [fullAttempts]
                | true =>
                  cases json2 with
                  | some d2 =>
                    refine ⟨?_, ?_, ?_, ?_, ?_⟩ <;> simp [fullAttempts]
                  | none =>
                    refine ⟨?_, ?_, ?_, ?_, ?_⟩ <;> simp [fullAttempts]

/-- A call whose first two bodies are truncated: three fetches, waits of 100 and 200 ms, and
the parse of the third body is returned. -/
theorem loadState_slowServer : loadState slowServer = (some 7, fullAttempts) := by
  rw [loadState_cases]
  rfl

/-! ## The refresh paths and the radar cache -/

/-- The initial load and the fallback poll merge the radar list of the snapshot into the
cache and render the radar from the merged cache. -/
theorem refresh_merges_radar (H : Host) (dom : Dom) (t : Clock) (page : Page) (s : Snapshot) :
    (fallbackPoll H dom t page s).page.radarCache =
      mergeRadarEntries H page.radarCache (s.radar_data.getD []) ∧
    (fallbackPoll H dom t page s).radar =
      renderRadar H dom page.showAll (fallbackPoll H dom t page s).page.radarCache
        (RadarArg.items ((getRadarList H (fallbackPoll H dom t page s).page.radarCache).map
          some)) ∧
    (initialLoad H dom t page s).page.radarCache =
      mergeRadarEntries H page.radarCache (s.radar_data.getD []) ∧
    (initialLoad H dom t page s).radar =
      renderRadar H dom page.showAll (initialLoad H dom t page s).page.radarCache
        (RadarArg.items ((getRadarList H (initialLoad H dom t page s).page.radarCache).map
          some)) := by
  refine ⟨rfl, rfl, ?_, rfl⟩
  unfold initialLoad
  cases s.radar_data <;> rfl

/-- The periodic update never touches the radar cache and hands the state object to
`renderRadar`, which shows the radar list of the snapshot whenever the snapshot has one. -/
theorem updateDashboard_radar (H : Host) (dom : Dom) (t : Clock) (page : Page) (s : Snapshot) :
    (updateDashboard H dom t page s).page.radarCache = page.radarCache ∧
    (updateDashboard H dom t page s).radar =
      renderRadar H dom page.showAll page.radarCache (RadarArg.state (some s)) ∧
    ∀ list, s.radar_data = some list →
      radarData H page.radarCache (RadarArg.state (some s)) = list :=
  ⟨rfl, rfl, fun list h => by simp [radarData, h]⟩

/-- The code at the failing input of C17. The cache holds `BTC/EUR`, and the fetched snapshot
lists the entry `b` only. The fallback poll merges and shows both entries; the periodic
`updateDashboard` shows the entry `b` alone and leaves the cache without it. -/
theorem updateDashboard_shows_snapshot_radar :
    (fallbackPoll sampleHost Dom.full sampleClock cachedPage radarSnapshot).page.radarCache
      = [("BTC/EUR", btcFull), ("b", entryB)] ∧
    (fallbackPoll sampleHost Dom.full sampleClock cachedPage radarSnapshot).radar
      = Outcome.rendered (RadarView.rows [btcFull, entryB]) ∧
    (updateDashboard sampleHost Dom.full sampleClock cachedPage radarSnapshot).page.radarCache
      = [("BTC/EUR", btcFull)] ∧
    (updateDashboard sampleHost Dom.full sampleClock cachedPage radarSnapshot).radar
      = Outcome.rendered (RadarView.rows [entryB]) := by
  have hc : mergeRadarEntries sampleHost sampleCache [some entryB]
      = [("BTC/EUR", btcFull), ("b", entryB)] := by decide
  have hk1 : arrayIndex "BTC/EUR" = none := by decide
  have hk2 : arrayIndex "b" = none := by decide
  have hv : objectValues [("BTC/EUR", btcFull), ("b", entryB)] = [btcFull, entryB] := by
    rw [objectValues_of_named]
    · rfl
    · intro p hp
      simp only [List.mem_cons, List.mem_singleton, List.not_mem_nil, or_false] at hp
      rcases hp with hp | hp <;> rw [hp] <;> assumption
  have hh1 : heatOperand sampleHost btcFull = JSNum.fin 80 := by
    simp [heatOperand, btcFull, propGet, JSVal.truthy, JSNum.truthy, JSVal.toNumber]
  have hh2 : heatOperand sampleHost entryB = JSNum.fin 0 := by
    simp [heatOperand, entryB, propGet]
  have hkeep : keepsBefore sampleHost btcFull entryB := by
    simp [keepsBefore, heatCompare, hh1, hh2, JSNum.sub_eq, JSNum.add, JSNum.neg, JSNum.gt,
      JSNum.lt]
  have hl : getRadarList sampleHost [("BTC/EUR", btcFull), ("b", entryB)]
      = [btcFull, entryB] := by
    unfold getRadarList
    rw [hv]
    simp [List.insertionSort, List.orderedInsert, hkeep]
  refine ⟨hc, ?_, rfl, ?_⟩
  · show renderRadar sampleHost Dom.full false
      (mergeRadarEntries sampleHost sampleCache [some entryB])
      (RadarArg.items ((getRadarList sampleHost
        (mergeRadarEntries sampleHost sampleCache [some entryB])).map some)) = _
    rw [hc, hl]
    simp [renderRadar, radarData, Dom.full, List.insertionSort, List.orderedInsert, hkeep]
  · show renderRadar sampleHost Dom.full false sampleCache
      (RadarArg.state (some radarSnapshot)) = _
    simp [renderRadar, radarData, radarSnapshot, Dom.full, List.insertionSort]

end Dashboard
